import Mathlib

/-!
Verification development for the turn-based game engine bundled in
`src/www/js/now-hiring.js` (the Regal game library, v0.6.1).

The engine is shallowly embedded: JavaScript numbers used bitwise are
modelled as 32-bit two's-complement integers (`Int` wrapped by `toInt32`),
JavaScript's floating-point `map`/division used by the generator is
modelled in exact rational arithmetic (the claims settled here are
insensitive to rounding: they concern error behaviour, ordering and
run-to-run determinism, never a particular rounded value), thrown
`RegalError`s become `Except String`, and JS objects become plain
structures.  Error message strings keep the source's literal text with the
`${...}` interpolated fragments elided.
-/

namespace Regal

/-! ## JavaScript 32-bit integer arithmetic

JS bitwise operators (`^`, `<<`, `>>`, `|0`) coerce their operands to
signed 32-bit integers.  We represent such values as `Int` in
`[-2^31, 2^31)` and wrap every operation with `toInt32`. -/

/-- `2^32`. -/
def pow32 : Int := 4294967296

/-- `2^31`. -/
def pow31 : Int := 2147483648

/-- The unsigned 32-bit bit pattern of an integer, in `[0, 2^32)`. -/
def toUint32 (z : Int) : Int := z.emod pow32

/-- Coerce an integer to signed 32-bit two's complement, as JS `|0` does. -/
def toInt32 (z : Int) : Int :=
  let u := toUint32 z
  if u < pow31 then u else u - pow32

/-- JS `v << k` on an int32 operand (result wrapped to int32). -/
def jsShl (v : Int) (k : Nat) : Int := toInt32 (v * (2 ^ k : Nat))

/-- JS `v >> k`: sign-propagating right shift, i.e. flooring division. -/
def jsShr (v : Int) (k : Nat) : Int := toInt32 (Int.fdiv v ((2 ^ k : Nat) : Int))

/-- JS `a ^ b` (bitwise xor) on int32 operands. -/
def jsXor (a b : Int) : Int := toInt32 ((toUint32 a).toNat ^^^ (toUint32 b).toNat)

/-! ## The Prando pseudo-random generator (source lines 143-315)

`Prando` keeps a single int32 state `_value`; `recalculate` advances it by
an Xorshift*32 step, and the public draws map the state into the requested
range.  `map` divides JS doubles; modelled exactly over `ℚ`. -/

namespace Prando

/-- `Prando.MIN` (Int32 min). -/
def MIN : Int := -2147483648

/-- `Prando.MAX` (Int32 max). -/
def MAX : Int := 2147483647

/-- `Prando.prototype.xorshift`: the Xorshift*32 step
`v ^= v << 13; v ^= v >> 17; v ^= v << 5`. -/
def xorshift (v : Int) : Int :=
  let v1 := jsXor v (jsShl v 13)
  let v2 := jsXor v1 (jsShr v1 17)
  jsXor v2 (jsShl v2 5)

/-- `Prando.prototype.getSafeSeed`: `0` is replaced by `1`. -/
def getSafeSeed (seed : Int) : Int := if seed = 0 then 1 else seed

/-- One step of `Prando.prototype.hashCode`'s loop:
`hash = ((hash << 5) - hash) + charCode; hash |= 0; hash = xorshift(hash)`.
The double-precision intermediate is exact (magnitudes stay below `2^38`),
so `|0` is `toInt32` of the exact integer. -/
def hashStep (hash : Int) (c : Nat) : Int :=
  xorshift (toInt32 (jsShl hash 5 - hash + (c : Int)))

/-- `Prando.prototype.hashCode` over a string seed (UTF-16 code units are
modelled by the characters' code points, which agrees with JS on the
Basic Multilingual Plane). -/
def hashCode (s : String) : Int :=
  getSafeSeed (s.data.foldl (fun h c => hashStep h c.toNat) 0)

/-- `Prando.prototype.map`, in exact rational arithmetic. -/
def mapQ (val minFrom maxFrom minTo maxTo : ℚ) : ℚ :=
  ((val - minFrom) / (maxFrom - minFrom)) * (maxTo - minTo) + minTo

/-- `Prando.prototype.skip(n)` from a given state: iterate `recalculate`. -/
def skip (v : Int) (n : Nat) : Int := Nat.rec v (fun _ ih => xorshift ih) n

/-- The value drawn by `Prando.prototype.next(min, pseudoMax)` from the
already-recalculated state `v`. -/
def nextVal (v : Int) (min pseudoMax : ℚ) : ℚ :=
  mapQ (v : ℚ) (MIN : ℚ) (MAX : ℚ) min pseudoMax

/-- The value drawn by `Prando.prototype.nextInt(min, max)` from the
already-recalculated state `v`: `Math.floor(map(v, MIN, MAX, min, max + 1))`. -/
def nextIntVal (v : Int) (min max : Int) : Int :=
  Int.floor (nextVal v (min : ℚ) ((max : ℚ) + 1))

/-- The value drawn by `Prando.prototype.nextBoolean()` from the
already-recalculated state `v`: `this._value > 0.5` compares the raw
int32 state against one half. -/
def nextBooleanVal (v : Int) : Bool := (v : ℚ) > 1 / 2

/-- JS `chars.substr(idx, 1)` for the in-range/overflowing indices produced
by `nextChar` (the index is never negative there). -/
def substrOne (chars : List Char) (idx : Int) : List Char :=
  if h : 0 ≤ idx ∧ idx.toNat < chars.length then [chars.get ⟨idx.toNat, h.2⟩] else []

/-- `Prando.prototype.nextChar(chars)` acting on the state: one
`recalculate`, then `nextInt(0, chars.length - 1)` (a second
`recalculate`), then `substr`.  Returns the produced character(s) (empty
when the index overflows the charset) and the new state. -/
def nextCharStep (chars : List Char) (v : Int) : List Char × Int :=
  let v2 := xorshift (xorshift v)
  (substrOne chars (nextIntVal v2 0 ((chars.length : Int) - 1)), v2)

set_option maxRecDepth 4000 in
/-- The xorshift step does not return to `MAX` after two applications
(used to show the `nextString` loop always makes progress: the loop adds
no character only while the post-draw state sits exactly at `MAX`). -/
theorem xorshift_sq_max_ne : xorshift (xorshift MAX) ≠ MAX := by
  have h : MAX = 2147483647 := rfl
  rw [h]
  decide

/-- Auxiliary measure flag for the `nextString` loop: `1` unless the next
character draw is about to land exactly on `MAX` (the only state in which
the loop adds no character). -/
def stuckFlag (v : Int) : Nat := if xorshift (xorshift v) = MAX then 1 else 0

theorem stuckFlag_le (v : Int) : stuckFlag v ≤ 1 := by
  unfold stuckFlag
  split <;> omega

theorem stuckFlag_of_eq {v : Int} (h : xorshift (xorshift v) = MAX) :
    stuckFlag v = 1 := by
  unfold stuckFlag
  rw [if_pos h]

theorem stuckFlag_max : stuckFlag MAX = 0 := by
  unfold stuckFlag
  rw [if_neg xorshift_sq_max_ne]

theorem substrOne_length_le (chars : List Char) (idx : Int) :
    (substrOne chars idx).length ≤ 1 := by
  unfold substrOne
  split <;> simp

theorem nextCharStep_fst_length (chars : List Char) (v : Int) :
    (nextCharStep chars v).1.length ≤ 1 :=
  substrOne_length_le _ _

theorem nextCharStep_snd (chars : List Char) (v : Int) :
    (nextCharStep chars v).2 = xorshift (xorshift v) := by
  simp only [nextCharStep]

/-- The loop of `Prando.prototype.nextString`:
`while (str.length < length) { str += this.nextChar(chars); }`.
When the charset is empty the JS loop never terminates; that situation is
rejected by `InstanceRandomImpl.string`'s charset guard before this loop
can run, and the model returns the accumulator there instead. -/
def nextStringGo (chars : List Char) (length : Int) (acc : List Char) (v : Int) :
    List Char × Int :=
  if hlt : (acc.length : Int) < length then
    let step := nextCharStep chars v
    if hc : step.1 = [] then
      if hv : xorshift (xorshift v) = MAX then
        nextStringGo chars length acc step.2
      else
        (acc, step.2)
    else
      nextStringGo chars length (acc ++ step.1) step.2
  else
    (acc, v)
termination_by
  2 * (length - (acc.length : Int)).toNat + stuckFlag v
decreasing_by
  · show 2 * (length - (acc.length : Int)).toNat + stuckFlag (nextCharStep chars v).2 <
      2 * (length - (acc.length : Int)).toNat + stuckFlag v
    rw [nextCharStep_snd, hv, stuckFlag_max, stuckFlag_of_eq hv]
    omega
  · show 2 * (length - ((acc ++ (nextCharStep chars v).1).length : Int)).toNat +
        stuckFlag (nextCharStep chars v).2 <
      2 * (length - (acc.length : Int)).toNat + stuckFlag v
    have hle := nextCharStep_fst_length chars v
    have hlen : (nextCharStep chars v).1.length = 1 := by
      cases h : (nextCharStep chars v).1 with
      | nil => exact absurd h hc
      | cons a l =>
        rw [h] at hle
        simp only [List.length_cons] at hle ⊢
        omega
    have h1 := stuckFlag_le (nextCharStep chars v).2
    have h2 := stuckFlag_le v
    simp only [List.length_append, hlen]
    omega

/-- `Prando.prototype.nextString(length, chars)` from state `v`. -/
def nextString (v : Int) (length : Int) (chars : List Char) : List Char × Int :=
  nextStringGo chars length [] v

end Prando

/-! ## Pseudo-random charsets and seed generation (source lines 317-343, 422-430) -/

/-- `EXPANDED_CHARSET`. -/
def EXPANDED_CHARSET : List Char :=
  "ABCDEFGHIJKLMNOPQRSTUVWXYZabcdefghijklmnopqrstuvwxyz0123456789~!@#$%^&*()-_=+\x7b\x7d[]|;:<>,.?".data

/-- `SEED_LENGTH`: default length of generated seeds. -/
def SEED_LENGTH : Int := 10

/-- `generateSeed()`: `new Prando().nextString(SEED_LENGTH, DEFAULT_SEED_CHARSET)`.
The seedless `Prando` constructor draws `Math.random()`; the integer it
derives from that draw is the model's explicit `entropy` parameter, the
single source of nondeterminism in the engine. -/
def generateSeed (entropy : Int) : String :=
  String.mk (Prando.nextString (Prando.getSafeSeed entropy) SEED_LENGTH EXPANDED_CHARSET).1

/-! ## InstanceRandom (source lines 345-420)

`InstanceRandomImpl` wraps a `Prando` generator with a generation counter.
Its state is the pair (generation counter, raw generator state); the seed
lives in the owning instance's options.  Each draw also produces the
`RandomRecord` that `trackRandom` pushes onto the currently executing
`EventRecord` — attaching it to the record is done by the instance-level
wrappers defined with the event machinery below. -/

/-- A value recorded by `trackRandom` or returned by a draw. -/
inductive RandVal where
  | iv (n : Int)
  | qv (q : ℚ)
  | sv (s : List Char)
  | bv (b : Bool)
deriving DecidableEq, Repr

/-- A `RandomRecord`: `{ id: generation index, value }`. -/
structure RandRec where
  id : Nat
  value : RandVal
deriving DecidableEq, Repr

/-- The mutable state of an `InstanceRandomImpl`: `_numGenerations` and the
wrapped generator's `_value`. -/
structure RandomState where
  numGenerations : Nat
  value : Int
deriving DecidableEq, Repr

/-- The generator state of a fresh `InstanceRandomImpl(game, numGenerations)`:
`new Prando(seed)` followed by `skip(numGenerations)`. -/
def initRandomState (seed : String) (numGenerations : Nat) : RandomState :=
  ⟨numGenerations, Prando.skip (Prando.hashCode seed) numGenerations⟩

/-- `InstanceRandomImpl.int(min, max)`.  Returns the drawn value, the
`RandomRecord` passed to `trackRandom`, and the updated state. -/
def randomInt (min max : Int) (st : RandomState) :
    Except String (Int × RandRec × RandomState) :=
  if min > max then
    .error "RegalError: Min must be less than or equal to max."
  else
    let v := Prando.xorshift st.value
    let value := Prando.nextIntVal v min max
    .ok (value, ⟨st.numGenerations, .iv value⟩, ⟨st.numGenerations + 1, v⟩)

/-- `InstanceRandomImpl.decimal()`. -/
def randomDecimal (st : RandomState) : ℚ × RandRec × RandomState :=
  let v := Prando.xorshift st.value
  let value := Prando.nextVal v 0 1
  (value, ⟨st.numGenerations, .qv value⟩, ⟨st.numGenerations + 1, v⟩)

/-- `InstanceRandomImpl.string(length, charset)`. -/
def randomString (length : Int) (charset : List Char) (st : RandomState) :
    Except String (List Char × RandRec × RandomState) :=
  if length ≤ 0 then
    .error "RegalError: Length must be greater than zero."
  else if charset.dedup.length < 2 then
    .error "RegalError: Charset must have at least two unique characters."
  else
    let res := Prando.nextString st.value length charset
    .ok (res.1, ⟨st.numGenerations, .sv res.1⟩, ⟨st.numGenerations + 1, res.2⟩)

/-- `InstanceRandomImpl.choice(array)`.  Only `undefined` arrays are
rejected; the selected index (not the element) is tracked, and an empty
array yields index `0` and the `undefined` element without error. -/
def randomChoice {α : Type} (array : Option (List α)) (st : RandomState) :
    Except String (Option α × RandRec × RandomState) :=
  match array with
  | none => .error "RegalError: Array must be defined."
  | some arr =>
    let v := Prando.xorshift st.value
    let idx := Prando.nextIntVal v 0 ((arr.length : Int) - 1)
    .ok (if h : 0 ≤ idx ∧ idx.toNat < arr.length then some (arr.get ⟨idx.toNat, h.2⟩) else none,
      ⟨st.numGenerations, .iv idx⟩, ⟨st.numGenerations + 1, v⟩)

/-- `InstanceRandomImpl.boolean()`. -/
def randomBoolean (st : RandomState) : Bool × RandRec × RandomState :=
  let v := Prando.xorshift st.value
  let value := Prando.nextBooleanVal v
  (value, ⟨st.numGenerations, .bv value⟩, ⟨st.numGenerations + 1, v⟩)

/-! ## Agent property values

A value stored in an agent's property bag: a JS primitive, or a reference
placeholder (`AgentReference { refId }` / `AgentArrayReference { arRefId }`,
source lines 39-67) standing for an activated agent or agent array.  JS
`undefined` is `Option.none` at the use sites.  Raw inactive `Agent`
objects and the activation machinery (`activateAgent`, inactive proxies)
are outside the model: every stored reference has already been converted
by `setAgentProperty`.  The active-agent proxies returned by property
reads wrap only the target id, so a read's result is modelled by the
reference value itself. -/
inductive RVal where
  | num (n : ℚ)
  | str (s : String)
  | boolv (b : Bool)
  | agentRef (id : Nat)
  | agentArrayRef (id : Nat)
deriving DecidableEq, Repr

/-- JS strict equality `===` between two possibly-`undefined` stored
values: value equality for primitives, object identity — hence `false` —
for reference objects (the engine always compares a stored reference
against a freshly constructed reference or proxy). -/
def jsStrictEq : Option RVal → Option RVal → Bool
  | none, none => true
  | some (.num a), some (.num b) => a == b
  | some (.str a), some (.str b) => a == b
  | some (.boolv a), some (.boolv b) => a == b
  | _, _ => false

/-- The test guarding `setProperty`'s early return (source lines 1283-1288):
`initValue === value || (isAgentReference(initValue) && isAgentReference(value)
&& initValue.refId === value.refId)`. -/
def setSkips (init value : Option RVal) : Bool :=
  jsStrictEq init value ||
    (match init, value with
     | some (.agentRef a), some (.agentRef b) => a == b
     | _, _ => false)

/-! ## Property operations and change records (source lines 1203-1228) -/

/-- `PropertyOperation`. -/
inductive PropertyOperation where
  | ADDED
  | MODIFIED
  | DELETED
deriving DecidableEq, Repr

/-- A full `PropertyChange` as built inside `setProperty`/`deleteProperty`. -/
structure PropChange where
  agentId : Nat
  eventId : Nat
  eventName : String
  final : Option RVal
  init : Option RVal
  op : PropertyOperation
  property : String
deriving DecidableEq, Repr

/-- The `AgentManager` view of a `PropertyChange` (`pcForAgentManager`). -/
structure AMPropChange where
  eventId : Nat
  eventName : String
  final : Option RVal
  init : Option RVal
  op : PropertyOperation
deriving DecidableEq, Repr

/-- The `EventRecord` view of a `PropertyChange` (`pcForEventRecord`). -/
structure EvPropChange where
  agentId : Nat
  final : Option RVal
  init : Option RVal
  op : PropertyOperation
  property : String
deriving DecidableEq, Repr

/-- `pcForAgentManager`. -/
def pcForAgentManager (pc : PropChange) : AMPropChange :=
  ⟨pc.eventId, pc.eventName, pc.final, pc.init, pc.op⟩

/-- `pcForEventRecord`. -/
def pcForEventRecord (pc : PropChange) : EvPropChange :=
  ⟨pc.agentId, pc.final, pc.init, pc.op, pc.property⟩

/-- `DEFAULT_EVENT_ID`. -/
def DEFAULT_EVENT_ID : Nat := 0

/-- `DEFAULT_EVENT_NAME`. -/
def DEFAULT_EVENT_NAME : String := "DEFAULT"

/-- The identity of the `EventRecord` that is current while an agent
change is recorded (`game.events.current`): its id and name. -/
structure EvRef where
  id : Nat
  name : String
deriving DecidableEq, Repr

/-- The `events.current` identity when the queue is empty: a fresh default
record (`buildEventRecord()`). -/
def defaultEvRef : EvRef := ⟨DEFAULT_EVENT_ID, DEFAULT_EVENT_NAME⟩

/-! ## The static agent registry (source lines 1148-1201)

`StaticAgentRegistry` is a global table from agent id to the agent's
baseline property bag, populated before any game cycle.  It is threaded
through the model as an explicit parameter.  References
(`AgentReference`/`AgentArrayReference`) are only ever constructed by
`setAgentProperty`, which writes to instance managers, so a static table
never stores one; well-formedness hypotheses state this where needed. -/
abbrev StaticReg := List (Nat × List (String × RVal))

/-- `StaticAgentRegistry.hasAgent`. -/
def staticHasAgent (static : StaticReg) (id : Nat) : Bool :=
  (static.lookup id).isSome

/-- `StaticAgentRegistry.hasAgentProperty`. -/
def staticHasAgentProperty (static : StaticReg) (id : Nat) (property : String) : Bool :=
  match static.lookup id with
  | none => false
  | some props => (props.lookup property).isSome

/-- `StaticAgentRegistry.getAgentProperty` for an agent known to exist
(callers guard with `hasAgent`; the unknown-agent throw stays at the
instance level). -/
def staticGetAgentProperty (static : StaticReg) (id : Nat) (property : String) :
    Option RVal :=
  (static.lookup id).bind (fun props => props.lookup property)

/-! ## AgentManager (source lines 1230-1366)

An `AgentManagerImpl` holds one agent's property histories as its own
dynamic object properties; modelled as an association list from property
name to history (newest change first).  JS object key update preserves a
key's position and appends new keys. -/

/-- One agent's property-history manager. -/
structure AgentManager where
  id : Nat
  props : List (String × List AMPropChange)
deriving DecidableEq, Repr

/-- Association-list upsert that, like JS object assignment, keeps an
existing key in place and appends a new one. -/
def listUpsert {α : Type} : List (String × α) → String → α → List (String × α)
  | [], k, v => [(k, v)]
  | (a, b) :: rest, k, v =>
    if a = k then (k, v) :: rest else (a, b) :: listUpsert rest k v

namespace AgentManager

/-- `AgentManagerImpl.hasPropertyRecord`: `"constructor"` is special-cased
to `false`; otherwise a stored history (of any length) counts. -/
def hasPropertyRecord (am : AgentManager) (property : String) : Bool :=
  if property = "constructor" then false
  else (am.props.lookup property).isSome

/-- `AgentManagerImpl.getPropertyHistory`. -/
def getPropertyHistory (am : AgentManager) (property : String) : List AMPropChange :=
  if am.hasPropertyRecord property then
    ((am.props.lookup property).getD [])
  else []

/-- `AgentManagerImpl.getProperty`: the newest recorded `final`, else
`undefined`. -/
def getProperty (am : AgentManager) (property : String) : Option RVal :=
  match am.getPropertyHistory property with
  | [] => none
  | c :: _ => c.final

/-- `AgentManagerImpl.propertyWasDeleted`. -/
def propertyWasDeleted (am : AgentManager) (property : String) : Bool :=
  match am.getPropertyHistory property with
  | [] => false
  | c :: _ => c.op = PropertyOperation.DELETED

/-- Store a history under a property key (`this[property] = history`). -/
def storeProp (am : AgentManager) (property : String) (history : List AMPropChange) :
    AgentManager :=
  ⟨am.id, listUpsert am.props property history⟩

/-- `AgentManagerImpl.recordChange`: with `trackAgentChanges` the change is
prepended to the history and the `EventRecord` view is returned for
`event.trackChange`; without it the history is bounded at two entries,
replacing the newest entry in place when full (or when the single entry
belongs to the current game cycle). -/
def recordChange (track : Bool) (ev : EvRef) (pc : PropChange)
    (history : List AMPropChange) :
    Except String (List AMPropChange × Option EvPropChange) :=
  if track then
    .ok (pcForAgentManager pc :: history, some (pcForEventRecord pc))
  else
    if history.length > 2 then
      .error "RegalError: Property history length cannot be greater than two when trackAgentChanges is disabled."
    else
      match history with
      | [] => .ok ([pcForAgentManager pc], none)
      | c1 :: rest =>
        if rest.length = 1 ∨ (rest.length = 0 ∧ (c1.eventId = ev.id ∨ c1.eventId > DEFAULT_EVENT_ID)) then
          .ok (pcForAgentManager pc :: rest, none)
        else
          .ok (pcForAgentManager pc :: c1 :: rest, none)

/-- `AgentManagerImpl.setProperty`.  Returns the updated manager and the
`EventRecord`-view change to push onto the current record (when tracking). -/
def setProperty (static : StaticReg) (track : Bool) (ev : EvRef)
    (am : AgentManager) (property : String) (value : Option RVal) :
    Except String (AgentManager × Option EvPropChange) :=
  let history := am.getPropertyHistory property
  let parts :=
    match history with
    | [] =>
      let init :=
        if staticHasAgentProperty static am.id property then
          staticGetAgentProperty static am.id property
        else none
      let opType :=
        if staticHasAgentProperty static am.id property then
          PropertyOperation.MODIFIED
        else PropertyOperation.ADDED
      let am1 := if jsStrictEq init value then am else am.storeProp property history
      (init, opType, am1)
    | c :: _ =>
      (c.final,
       if am.propertyWasDeleted property then PropertyOperation.ADDED
       else PropertyOperation.MODIFIED,
       am)
  if setSkips parts.1 value then
    .ok (parts.2.2, none)
  else
    let pc : PropChange :=
      ⟨am.id, ev.id, ev.name, value, parts.1, parts.2.1, property⟩
    (recordChange track ev pc history).map
      (fun r => (parts.2.2.storeProp property r.1, r.2))

/-- `AgentManagerImpl.deleteProperty`. -/
def deleteProperty (static : StaticReg) (track : Bool) (ev : EvRef)
    (am : AgentManager) (property : String) :
    Except String (AgentManager × Option EvPropChange) :=
  if am.propertyWasDeleted property then
    .ok (am, none)
  else
    let history := am.getPropertyHistory property
    let parts :=
      match history with
      | [] =>
        if staticHasAgentProperty static am.id property then
          some (staticGetAgentProperty static am.id property, am.storeProp property history)
        else none
      | c :: _ => some (c.final, am)
    match parts with
    | none => .ok (am, none)
    | some (init, am1) =>
      let pc : PropChange :=
        ⟨am.id, ev.id, ev.name, none, init, PropertyOperation.DELETED, property⟩
      (recordChange track ev pc history).map
        (fun r => (am1.storeProp property r.1, r.2))

end AgentManager

/-! ## InstanceAgents (source lines 1368-1562)

`InstanceAgentsImpl` stores one `AgentManager` per activated agent id as
its own numeric object properties.  JS enumerates integer-like keys in
ascending numeric order, so the association list is kept sorted by id.
Raw-agent activation inside `setAgentProperty` (`isAgent(value)` /
array branches, source lines 1464-1479) is outside the value model: the
stored values are already primitives or references. -/

/-- The per-instance agent overlay: `_nextId` plus the managers, sorted by
agent id. -/
structure InstanceAgents where
  nextId : Nat
  managers : List (Nat × AgentManager)
deriving DecidableEq, Repr

/-- Insert (or replace) a manager, keeping ids in ascending order. -/
def mgrInsert (l : List (Nat × AgentManager)) (id : Nat) (am : AgentManager) :
    List (Nat × AgentManager) :=
  match l with
  | [] => [(id, am)]
  | (k, m) :: rest =>
    if id < k then (id, am) :: (k, m) :: rest
    else if id = k then (id, am) :: rest
    else (k, m) :: mgrInsert rest id am

namespace InstanceAgents

/-- `InstanceAgentsImpl.getAgentManager` (`undefined` when absent). -/
def getAgentManager (ags : InstanceAgents) (id : Nat) : Option AgentManager :=
  ags.managers.lookup id

/-- `InstanceAgentsImpl.createAgentManager`. -/
def createAgentManager (ags : InstanceAgents) (id : Nat) : InstanceAgents :=
  ⟨ags.nextId, mgrInsert ags.managers id ⟨id, []⟩⟩

/-- `InstanceAgentsImpl.reserveNewId`. -/
def reserveNewId (ags : InstanceAgents) : Nat × InstanceAgents :=
  (ags.nextId, ⟨ags.nextId + 1, (createAgentManager ags ags.nextId).managers⟩)

/-- A fresh `InstanceAgentsImpl(game, nextId)`: the constructor creates the
manager for the state agent (id 0). -/
def init (nextId : Nat) : InstanceAgents :=
  ⟨nextId, [(0, ⟨0, []⟩)]⟩

/-- `InstanceAgentsImpl.agentManagers()`: managers in ascending id order. -/
def agentManagers (ags : InstanceAgents) : List (Nat × AgentManager) :=
  ags.managers

/-- `InstanceAgentsImpl.getAgentProperty`.  Property reads resolve
references into active-agent proxies; a proxy wraps only the id, so the
model returns the reference value itself. -/
def getAgentProperty (static : StaticReg) (ags : InstanceAgents) (id : Nat)
    (property : String) : Except String (Option RVal) :=
  match ags.getAgentManager id with
  | none =>
    if ¬staticHasAgent static id then
      .error "RegalError: No agent with the id <> exists."
    else
      .ok (staticGetAgentProperty static id property)
  | some am =>
    if property = "id" then
      .ok (some (.num (id : ℚ)))
    else if am.hasPropertyRecord property then
      .ok (am.getProperty property)
    else if staticHasAgent static id then
      .ok (staticGetAgentProperty static id property)
    else
      .ok none

/-- `InstanceAgentsImpl.hasAgentProperty`. -/
def hasAgentProperty (static : StaticReg) (ags : InstanceAgents) (id : Nat)
    (property : String) : Except String Bool :=
  let staticPropExists := staticHasAgentProperty static id property
  match ags.getAgentManager id with
  | none =>
    if ¬staticHasAgent static id then
      .error "RegalError: No agent with the id <> exists."
    else
      .ok staticPropExists
  | some am =>
    if property = "id" then
      .ok true
    else
      .ok ((am.hasPropertyRecord property || staticPropExists) &&
        !am.propertyWasDeleted property)

/-- `InstanceAgentsImpl.setAgentProperty` for an already-converted value.
Returns the updated overlay plus the change for `event.trackChange`. -/
def setAgentProperty (static : StaticReg) (track : Bool) (ev : EvRef)
    (ags : InstanceAgents) (id : Nat) (property : String) (value : Option RVal) :
    Except String (InstanceAgents × Option EvPropChange) :=
  if property = "id" ∨ property = "game" then
    .error "RegalError: The agent's <> property cannot be set."
  else
    let withMgr : Except String AgentManager :=
      match ags.getAgentManager id with
      | some am => .ok am
      | none =>
        if ¬staticHasAgent static id then
          .error "RegalError: No agent with the id <> exists."
        else
          .ok ⟨id, []⟩
    withMgr.bind (fun am =>
      (am.setProperty static track ev property value).map
        (fun r => (⟨ags.nextId, mgrInsert ags.managers id r.1⟩, r.2)))

/-- `InstanceAgentsImpl.deleteAgentProperty`. -/
def deleteAgentProperty (static : StaticReg) (track : Bool) (ev : EvRef)
    (ags : InstanceAgents) (id : Nat) (property : String) :
    Except String (InstanceAgents × Option EvPropChange) :=
  if property = "id" ∨ property = "game" then
    .error "RegalError: The agent's <> property cannot be deleted."
  else
    let withMgr : Except String AgentManager :=
      match ags.getAgentManager id with
      | some am => .ok am
      | none =>
        if ¬staticHasAgent static id then
          .error "RegalError: No agent with the id <> exists."
        else
          .ok ⟨id, []⟩
    withMgr.bind (fun am =>
      (am.deleteProperty static track ev property).map
        (fun r => (⟨ags.nextId, mgrInsert ags.managers id r.1⟩, r.2)))

/-- `InstanceAgentsImpl.getAgentPropertyKeys`: the union of the static and
instance keys (`Object.keys` of a manager also lists its `id` and `game`
fields), filtered by visibility.  For an id absent from both tiers the JS
code would fault on `Object.keys(undefined)`; the model returns `[]`
(the situation is unreachable from the API, and reachability scanning
ignores such ids either way). -/
def getAgentPropertyKeys (static : StaticReg) (ags : InstanceAgents) (id : Nat) :
    List String :=
  let keys :=
    match ags.getAgentManager id, static.lookup id with
    | some am, some sprops =>
      (sprops.map Prod.fst ++ ("id" :: "game" :: am.props.map Prod.fst)).foldl
        (fun acc k => if k ∈ acc then acc else acc ++ [k]) []
    | some am, none => "id" :: "game" :: am.props.map Prod.fst
    | none, some sprops => sprops.map Prod.fst
    | none, none => []
  keys.filter (fun k => (hasAgentProperty static ags id k).toOption.getD false)

/-- `InstanceAgentsImpl.recycle`: rebuild the overlay for the next turn,
keeping each non-deleted property's last value as a single fresh change
and re-recording deletions of static properties.  Runs against the new
instance, whose current event is the default record. -/
def recycleMgrStep (static : StaticReg) (newTrack : Bool) (id : Nat)
    (formerAgent : AgentManager) (am : AgentManager) (prop : String) :
    Except String AgentManager :=
  if formerAgent.propertyWasDeleted prop then
    if staticHasAgentProperty static id prop then
      (AgentManager.deleteProperty static newTrack defaultEvRef am prop).map Prod.fst
    else
      .ok am
  else
    let formerValue := formerAgent.getProperty prop
    (AgentManager.setProperty static newTrack defaultEvRef am prop formerValue).map
      Prod.fst

/-- The per-manager part of `InstanceAgentsImpl.recycle`: each former
property (other than the `game`/`id` fields) is re-recorded in a fresh
manager — deletions of static properties are re-recorded as deletions,
any other property's last value is set (reference values are re-wrapped
into fresh reference objects, which the value model renders as the
identity). -/
def recycleAm (static : StaticReg) (newTrack : Bool) (id : Nat)
    (formerAgent : AgentManager) : Except String AgentManager :=
  ((formerAgent.props.map Prod.fst).filter
      (fun k => k ≠ "game" && k ≠ "id")).foldlM
    (recycleMgrStep static newTrack id formerAgent)
    (⟨id, []⟩ : AgentManager)

def recycle (static : StaticReg) (newTrack : Bool) (ags : InstanceAgents) :
    Except String InstanceAgents :=
  ags.agentManagers.foldlM
    (fun acc p =>
      let acc1 := acc.createAgentManager p.1
      (recycleAm static newTrack p.1 p.2).map
        (fun am => (⟨acc1.nextId, mgrInsert acc1.managers p.1 am⟩ : InstanceAgents)))
    (init ags.nextId)

/-- The agent ids referenced by the visible properties of agent `id`
(`isAgent(val)` on the resolved value detects the reference proxies). -/
def agentNeighbors (static : StaticReg) (ags : InstanceAgents) (id : Nat) :
    List Nat :=
  (getAgentPropertyKeys static ags id).foldl
    (fun acc prop =>
      match getAgentProperty static ags id prop with
      | .ok (some (.agentRef r)) => acc ++ [r]
      | .ok (some (.agentArrayRef r)) => acc ++ [r]
      | _ => acc)
    []

/-- One round of reachability expansion from the seen set. -/
def reachExpand (static : StaticReg) (ags : InstanceAgents) (seen : List Nat) :
    List Nat :=
  seen.foldl
    (fun acc id =>
      acc ++ ((agentNeighbors static ags id).filter (fun r => !acc.contains r)))
    seen

/-- `InstanceAgentsImpl.scrubAgents`: discard the managers of agent ids
unreachable from the state agent (id 0).  The source performs a
breadth-first search whose result is the reachable set; the model computes
the same set as a bounded closure (the bound dominates the number of
distinct ids any reference chain can visit). -/
def scrubAgents (static : StaticReg) (ags : InstanceAgents) : InstanceAgents :=
  let bound := 1 + ags.managers.length +
    ags.managers.foldl (fun n p => n + p.2.props.length) 0 +
    static.foldl (fun n p => n + p.2.length) 0
  let seen : List Nat :=
    Nat.rec (motive := fun _ => List Nat) [0]
      (fun _ ih => reachExpand static ags ih) bound
  ⟨ags.nextId, ags.managers.filter (fun p => seen.contains p.1)⟩

end InstanceAgents

/-! ## Output (source lines 825-917) -/

/-- `OutputLineType`. -/
inductive OutputLineType where
  | NORMAL
  | MAJOR
  | MINOR
  | DEBUG
  | SECTION_TITLE
deriving DecidableEq, Repr

/-- An `OutputLine`: `{ data, id, type }`. -/
structure OutputLine where
  id : Nat
  type : OutputLineType
  data : String
deriving DecidableEq, Repr

/-- The state of an `InstanceOutputImpl`: `_lineCount` and `lines`. -/
structure OutputState where
  lineCount : Nat
  lines : List OutputLine
deriving DecidableEq, Repr

/-- `InstanceOutputImpl.recycle`: carry the line counter, empty the buffer. -/
def outputRecycle (out : OutputState) : OutputState :=
  ⟨out.lineCount, []⟩

/-- The filter switch at the top of `InstanceOutputImpl.writeLine`:
whether a line of this type is silently discarded. -/
def lineDropped (debug showMinor : Bool) : OutputLineType → Bool
  | .DEBUG => !debug
  | .MINOR => !showMinor
  | _ => false

/-- `InstanceOutputImpl.writeLine(line, lineType)` on the buffer alone:
`DEBUG` lines are dropped without `debug`, `MINOR` lines without
`showMinor`; otherwise the line is appended with id `++this._lineCount`.
Returns the appended line (for `events.current.trackOutputWrite`). -/
def writeLineCore (debug showMinor : Bool) (out : OutputState) (line : String)
    (lineType : OutputLineType) : OutputState × Option OutputLine :=
  if lineDropped debug showMinor lineType then
    (out, none)
  else
    let outputLine : OutputLine := ⟨out.lineCount + 1, lineType, line⟩
    (⟨out.lineCount + 1, out.lines ++ [outputLine]⟩, some outputLine)

/-! ## Game options (source lines 69-82, 432-555)

Option objects are modelled as association lists from the five recognized
keys to values; an unknown key is unrepresentable (its `validateOptions`
rejection has no model counterpart), while wrong-typed values are
representable and rejected as in the source. -/

/-- The recognized option keys (`OPTION_KEYS`). -/
inductive OptKey where
  | allowOverrides
  | debug
  | seed
  | showMinor
  | trackAgentChanges
deriving DecidableEq, Repr

/-- An option value: a boolean, a string, or (for `allowOverrides`) a list
of option names. -/
inductive OptVal where
  | vb (b : Bool)
  | vs (s : String)
  | vkeys (ks : List OptKey)
deriving DecidableEq, Repr

/-- A partial options object. -/
abbrev OptList := List (OptKey × OptVal)

/-- The resolved `allowOverrides` value. -/
inductive AllowOverridesVal where
  | abool (b : Bool)
  | alist (ks : List OptKey)
deriving DecidableEq, Repr

/-- `checkTypeIfDefined(key, "boolean")`. -/
def boolTypeOk : Option OptVal → Bool
  | none => true
  | some (.vb _) => true
  | _ => false

/-- `checkTypeIfDefined(key, "string")`. -/
def strTypeOk : Option OptVal → Bool
  | none => true
  | some (.vs _) => true
  | _ => false

/-- `validateOptions` (source lines 436-475). -/
def validateOptions (options : OptList) : Except String Unit :=
  if ¬boolTypeOk (options.lookup .debug) then
    .error "RegalError: The option <debug> is of type <>, must be of type <boolean>."
  else
    let allowCheck : Except String Unit :=
      match options.lookup .allowOverrides with
      | some (.vkeys ks) =>
        if OptKey.allowOverrides ∈ ks then
          .error "RegalError: The option <allowOverrides> is not allowed to be overridden."
        else .ok ()
      | some (.vs _) =>
        .error "RegalError: The option <allowOverrides> is of type <>, must be of type <boolean> or <string[]>."
      | _ => .ok ()
    allowCheck.bind (fun _ =>
      if ¬boolTypeOk (options.lookup .showMinor) then
        .error "RegalError: The option <showMinor> is of type <>, must be of type <boolean>."
      else if ¬boolTypeOk (options.lookup .trackAgentChanges) then
        .error "RegalError: The option <trackAgentChanges> is of type <>, must be of type <boolean>."
      else if ¬strTypeOk (options.lookup .seed) then
        .error "RegalError: The option <seed> is of type <>, must be of type <string>."
      else .ok ())

/-- `ensureOverridesAllowed` (source lines 483-500). -/
def ensureOverridesAllowed (overrides : OptList) (allow : AllowOverridesVal) :
    Except String Unit :=
  if (overrides.lookup .allowOverrides).isSome then
    .error "RegalError: The allowOverrides option can never be overridden."
  else
    match allow with
    | .alist ks =>
      if (overrides.map Prod.fst).filter (fun k => k ∉ ks) ≠ [] then
        .error "RegalError: The following option overrides are forbidden: <>."
      else .ok ()
    | .abool b =>
      if ¬b ∧ overrides ≠ [] then
        .error "RegalError: No option overrides are allowed."
      else .ok ()

/-- The options resolved by `InstanceOptionsImpl`: the effective value of
each recognized key (config value unless overridden, defaults from
`DEFAULT_GAME_OPTIONS` otherwise) plus the raw `overrides` object. -/
structure ResolvedOptions where
  allowOverrides : AllowOverridesVal
  debug : Bool
  seed : String
  showMinor : Bool
  trackAgentChanges : Bool
  overrides : OptList
deriving DecidableEq, Repr

/-- `buildInstanceOptions(game, overrides, generatedSeed)` (source lines
529-555): validate, check override permissions, merge, and resolve the
seed — generating one (from `entropy`) only when neither the merged
options nor `generatedSeed` provide it. -/
def buildInstanceOptions (config overrides : OptList) (generatedSeed : Option String)
    (entropy : Int) : Except String ResolvedOptions :=
  (validateOptions overrides).bind (fun _ =>
    (validateOptions config).bind (fun _ =>
      let allow : AllowOverridesVal :=
        match config.lookup .allowOverrides with
        | some (.vb b) => .abool b
        | some (.vkeys ks) => .alist ks
        | _ => .abool true
      (ensureOverridesAllowed overrides allow).map (fun _ =>
        let getOpt := fun (k : OptKey) =>
          match overrides.lookup k with
          | some v => some v
          | none => config.lookup k
        let debugV := match getOpt .debug with | some (.vb b) => b | _ => false
        let showMinorV := match getOpt .showMinor with | some (.vb b) => b | _ => true
        let trackV := match getOpt .trackAgentChanges with | some (.vb b) => b | _ => false
        let mergedSeed : Option String :=
          match getOpt .seed with | some (.vs s) => some s | _ => none
        let seedV :=
          match mergedSeed with
          | some s => s
          | none =>
            match generatedSeed with
            | some g => g
            | none => generateSeed entropy
        ⟨allow, debugV, seedV, showMinorV, trackV, overrides⟩)))

/-! ## Event records and the instance (source lines 578-706, 919-1007)

An `EventRecord` carries its id and name plus the tracked side effects;
its executable payload (`func`) cannot live inside the instance state
(the payload is a function over that very state), so the execution loop
threads the payloads in a list parallel to the queue, and `_archiveCurrent`'s
`delete this.current.func` is dropping the head of that list. -/

/-- An `EventRecord`'s data: id, name, and tracked effects
(`causedBy`/`caused` from `trackCausedEvent`, `output` from
`trackOutputWrite`, `changes` from `trackChange`, `randoms` from
`trackRandom`). -/
structure EvRec where
  id : Nat
  name : String
  causedBy : Option Nat
  caused : List Nat
  output : List Nat
  changes : List EvPropChange
  randoms : List RandRec
deriving DecidableEq, Repr

/-- A freshly built record (`buildEventRecord(id, name)`). -/
def mkEvRec (id : Nat) (name : String) (causedBy : Option Nat) : EvRec :=
  ⟨id, name, causedBy, [], [], [], []⟩

/-- The data of an `InstanceEventsImpl`: `_lastEventId`, `_queue`, `history`. -/
structure EventsState where
  lastEventId : Nat
  queue : List EvRec
  history : List EvRec
deriving DecidableEq, Repr

/-- A `GameInstanceImpl`'s state: options, events, agents, output, random. -/
structure GameInst where
  options : ResolvedOptions
  events : EventsState
  agents : InstanceAgents
  output : OutputState
  random : RandomState
deriving DecidableEq, Repr

namespace GameInst

/-- The identity of `events.current`: the queue's head, or a fresh default
record when the queue is empty. -/
def curEvRef (g : GameInst) : EvRef :=
  match g.events.queue with
  | [] => defaultEvRef
  | c :: _ => ⟨c.id, c.name⟩

/-- Apply a tracking mutation to `events.current`.  With an empty queue the
default record the getter builds is not stored anywhere, so the mutation
is discarded. -/
def updateCurrent (g : GameInst) (f : EvRec → EvRec) : GameInst :=
  match g.events.queue with
  | [] => g
  | c :: rest =>
    { g with events := { g.events with queue := f c :: rest } }

/-- `game.output.writeLine` at the instance level: the filtered write plus
`events.current.trackOutputWrite`. -/
def writeLine (g : GameInst) (line : String) (lineType : OutputLineType) : GameInst :=
  match writeLineCore g.options.debug g.options.showMinor g.output line lineType with
  | (out1, none) => { g with output := out1 }
  | (out1, some ol) =>
    { g.updateCurrent (fun c => { c with output := c.output ++ [ol.id] }) with
        output := out1 }

/-- `game.random.int` at the instance level (draw, `trackRandom`, advance). -/
def rInt (g : GameInst) (min max : Int) : Except String (Int × GameInst) :=
  (randomInt min max g.random).map (fun r =>
    (r.1,
     { g.updateCurrent (fun c => { c with randoms := c.randoms ++ [r.2.1] }) with
         random := r.2.2 }))

/-- `game.random.decimal` at the instance level. -/
def rDecimal (g : GameInst) : ℚ × GameInst :=
  let r := randomDecimal g.random
  (r.1,
   { g.updateCurrent (fun c => { c with randoms := c.randoms ++ [r.2.1] }) with
       random := r.2.2 })

/-- `game.random.string` at the instance level. -/
def rString (g : GameInst) (length : Int) (charset : List Char) :
    Except String (List Char × GameInst) :=
  (randomString length charset g.random).map (fun r =>
    (r.1,
     { g.updateCurrent (fun c => { c with randoms := c.randoms ++ [r.2.1] }) with
         random := r.2.2 }))

/-- `game.random.choice` at the instance level. -/
def rChoice (g : GameInst) (array : Option (List RVal)) :
    Except String (Option RVal × GameInst) :=
  (randomChoice array g.random).map (fun r =>
    (r.1,
     { g.updateCurrent (fun c => { c with randoms := c.randoms ++ [r.2.1] }) with
         random := r.2.2 }))

/-- `game.random.boolean` at the instance level. -/
def rBoolean (g : GameInst) : Bool × GameInst :=
  let r := randomBoolean g.random
  (r.1,
   { g.updateCurrent (fun c => { c with randoms := c.randoms ++ [r.2.1] }) with
       random := r.2.2 })

/-- `game.agents.setAgentProperty` at the instance level: the overlay write
plus `event.trackChange` on the current record (when tracking). -/
def setAgentProp (static : StaticReg) (g : GameInst) (id : Nat) (property : String)
    (value : Option RVal) : Except String GameInst :=
  (InstanceAgents.setAgentProperty static g.options.trackAgentChanges g.curEvRef
      g.agents id property value).map (fun r =>
    let g1 := { g with agents := r.1 }
    match r.2 with
    | none => g1
    | some ch => g1.updateCurrent (fun c => { c with changes := c.changes ++ [ch] }))

/-- `game.agents.deleteAgentProperty` at the instance level. -/
def deleteAgentProp (static : StaticReg) (g : GameInst) (id : Nat) (property : String) :
    Except String GameInst :=
  (InstanceAgents.deleteAgentProperty static g.options.trackAgentChanges g.curEvRef
      g.agents id property).map (fun r =>
    let g1 := { g with agents := r.1 }
    match r.2 with
    | none => g1
    | some ch => g1.updateCurrent (fun c => { c with changes := c.changes ++ [ch] }))

/-- `game.agents.getAgentProperty` at the instance level. -/
def getAgentProp (static : StaticReg) (g : GameInst) (id : Nat) (property : String) :
    Except String (Option RVal) :=
  InstanceAgents.getAgentProperty static g.agents id property

end GameInst

/-! ## Tracked events (source lines 557-823)

A `TrackedEvent`'s behaviour, as far as the engine observes it: a name and
a target function that transforms the instance and optionally returns a
follow-up (a single event is the queue `([event], [])`, as
`_addEvent` normalizes it).  Failure models a `RegalError` thrown while
the effect runs.  Direct re-entrant calls into `game.events.invoke` from
inside a target (the engine itself only does this through the faux-queue
wrapper that `_addEvent` flattens away) are outside the model. -/
inductive BEvent : Type where
  | mk (name : String)
      (target : GameInst → Except String (GameInst × Option (List BEvent × List BEvent)))

/-- The event's `eventName`. -/
def BEvent.name : BEvent → String
  | .mk n _ => n

/-- The event's `target`. -/
def BEvent.target : BEvent →
    GameInst → Except String (GameInst × Option (List BEvent × List BEvent))
  | .mk _ t => t

/-- A `TrackedEvent`-or-`EventQueue` argument, as distinguished by
`isEventQueue`. -/
inductive EvArg : Type where
  | single (e : BEvent)
  | queue (imm : List BEvent) (del : List BEvent)

/-- The immediate/delayed lists `_addEvent` (and `then`) reads off an
argument. -/
def EvArg.parts : EvArg → List BEvent × List BEvent
  | .single e => ([e], [])
  | .queue i d => (i, d)

/-- The `mapToRecord` step of `_addEvent`: build records with consecutive
ids (`++this._lastEventId`) for a group of events. -/
def mapToRecords (causeId : Option Nat) (firstId : Nat) : List BEvent → List EvRec
  | [] => []
  | e :: rest => mkEvRec firstId e.name causeId :: mapToRecords causeId (firstId + 1) rest

/-- `InstanceEventsImpl._addEvent(event, cause?)`: map the immediate and
delayed events to records with fresh increasing ids (immediate first),
link causation to the archived current record (`history[0]`) when a cause
is given, prepend the immediate records to the queue and append the
delayed ones.  The parallel payload list is updated alike. -/
def addEvent (g : GameInst) (funcs : List (Option BEvent)) (ev : EvArg)
    (cause : Bool) : GameInst × List (Option BEvent) :=
  let p := ev.parts
  let immediateEvents := p.1
  let delayedEvents := p.2
  let base := g.events.lastEventId
  let causeId : Option Nat :=
    if cause then (g.events.history.head?).map EvRec.id else none
  let immRecs := mapToRecords causeId (base + 1) immediateEvents
  let delRecs := mapToRecords causeId (base + 1 + immediateEvents.length) delayedEvents
  let history1 :=
    if cause then
      match g.events.history with
      | [] => g.events.history
      | c :: rest =>
        { c with caused := c.caused ++ immRecs.map EvRec.id ++ delRecs.map EvRec.id } :: rest
    else g.events.history
  ({ g with events :=
      ⟨base + immediateEvents.length + delayedEvents.length,
       immRecs ++ g.events.queue ++ delRecs,
       history1⟩ },
   immediateEvents.map some ++ funcs ++ delayedEvents.map some)

/-- `InstanceEventsImpl._executeCurrent`, fuelled: run the current record's
target, archive the record (append to history, drop its payload), enqueue
a returned follow-up with the archived record as cause, and repeat while
the queue is nonempty.  `none` models a turn that never returns (the
source loops forever; the engine does not detect it). -/
def execLoop : Nat → GameInst → List (Option BEvent) → Option (Except String GameInst)
  | 0, _, _ => none
  | Nat.succ fuel, g, funcs =>
    match g.events.queue with
    | [] => some (.ok g)
    | _ :: _ =>
      let res :=
        match funcs.head?.join with
        | none => Except.ok (g, none)
        | some be => be.target g
      match res with
      | .error e => some (.error e)
      | .ok (g1, ret) =>
        let g2 :=
          match g1.events.queue with
          | [] => g1
          | c :: rest =>
            { g1 with events := { g1.events with queue := rest, history := c :: g1.events.history } }
        let funcs2 := funcs.tail
        let next :=
          match ret with
          | none => (g2, funcs2)
          | some q => addEvent g2 funcs2 (.queue q.1 q.2) true
        match next.1.events.queue with
        | [] => some (.ok next.1)
        | _ :: _ => execLoop fuel next.1 next.2

/-- `InstanceEventsImpl.invoke(event)`: `_addEvent` then `_executeCurrent`.
Invoked at the top level, between turns, when the queue is empty. -/
def invoke (fuel : Nat) (g : GameInst) (ev : EvArg) : Option (Except String GameInst) :=
  let p := addEvent g (g.events.queue.map (fun _ => none)) ev false
  execLoop fuel p.1 p.2

/-- The `singleThen` helper inside `buildThenMethod` (source lines 795-820):
an `EventQueue` target with pending delayed events cannot be composed
further; otherwise the immediate lists concatenate and the argument's
delayed list is kept. -/
def singleThen (target arg : EvArg) : Except String EvArg :=
  let targetImm : Except String (List BEvent) :=
    match target with
    | .queue imm del =>
      if del.length > 0 then
        .error "RegalError: Any enqueue instruction must happen at the end of the return statement."
      else .ok imm
    | .single e => .ok [e]
  targetImm.map (fun ti =>
    let ap := arg.parts
    .queue (ti ++ ap.1) ap.2)

/-- `buildThenMethod(rootTarget)(...events)`: `events.reduce(singleThen, rootTarget)`. -/
def thenChain (rootTarget : EvArg) (events : List EvArg) : Except String EvArg :=
  events.foldlM singleThen rootTarget

/-! ## Instance lifecycle (source lines 919-1073) -/

/-- `StaticAgentRegistry.getNextAvailableId()`: `_agentCount + 1` (static
agents receive the consecutive ids `1 .. n`). -/
def staticNextAvailableId (static : StaticReg) : Nat :=
  static.length + 1

/-- `buildGameInstance(optOverrides)`: the `GameInstanceImpl` constructor —
context check, then options, events, agents, output and random builders. -/
def buildGameInstance (contextStatic : Bool) (config : OptList) (static : StaticReg)
    (optOverrides : OptList) (entropy : Int) : Except String GameInst :=
  if contextStatic then
    .error "RegalError: Cannot construct a GameInstance outside of a game cycle."
  else
    (buildInstanceOptions config optOverrides none entropy).map (fun opts =>
      { options := opts
        events := ⟨DEFAULT_EVENT_ID, [], []⟩
        agents := InstanceAgents.init (staticNextAvailableId static)
        output := ⟨0, []⟩
        random := initRandomState opts.seed 0 })

namespace GameInst

/-- `GameInstanceImpl.recycle(newOptions?)` via `_buildRecycleCtor`: rebuild
each component for the next turn — the instance's stored overrides (or the
given replacement), the generated seed carried when the overrides name
none, the event-id counter, the recycled agents, the emptied output
buffer, and the random generator re-skipped to its generation count. -/
def recycle (config : OptList) (static : StaticReg) (g : GameInst)
    (newOptions : Option OptList) (entropy : Int) : Except String GameInst :=
  let opts := newOptions.getD g.options.overrides
  let genSeed : Option String :=
    if (opts.lookup .seed).isSome then none else some g.options.seed
  (buildInstanceOptions config opts genSeed entropy).bind (fun ropts =>
    (InstanceAgents.recycle static ropts.trackAgentChanges g.agents).map (fun ags =>
      { options := ropts
        events := ⟨g.events.lastEventId, [], []⟩
        agents := ags
        output := outputRecycle g.output
        random := initRandomState ropts.seed g.random.numGenerations }))

/-- `GameInstanceImpl._buildRandomRevertCtor(revertTo)`'s generation count:
scan the event history for records with random draws and recover the
counter's value immediately after the target event. -/
def randomRevertGens (g : GameInst) (revertTo : Int) : Nat :=
  let eventsWithRandoms := g.events.history.filter (fun er => er.randoms.length > 0)
  match eventsWithRandoms with
  | [] => g.random.numGenerations
  | _ :: _ =>
    match eventsWithRandoms.find? (fun er => (er.id : Int) ≤ revertTo) with
    | none =>
      match eventsWithRandoms.getLast? with
      | some er =>
        match er.randoms with
        | r :: _ => r.id
        | [] => g.random.numGenerations
      | none => g.random.numGenerations
    | some lastEvent =>
      match lastEvent.randoms.getLast? with
      | some lastRandom => lastRandom.id + 1
      | none => g.random.numGenerations

/-- The id wrapped by the value a property read returns, when it is an
agent or agent-array proxy (`isAgent(currentVal)` with `currentVal.id`). -/
def handleIdOf : Option RVal → Option Nat
  | some (.agentRef r) => some r
  | some (.agentArrayRef r) => some r
  | _ => none

/-- The body of the `REVERT` tracked event built by
`_buildAgentRevertFunc(revertTo)` (source lines 1034-1071), applied to one
property of one of the source instance's managers: reset the target
instance's property to its valueright after the target event, falling
back to the static baseline (or deletion) when every change is newer. -/
def agentRevertProp (static : StaticReg) (oldAm : AgentManager) (revertTo : Int)
    (target : GameInst) (prop : String) : Except String GameInst :=
  let history := oldAm.getPropertyHistory prop
  match history.find? (fun change => (change.eventId : Int) ≤ revertTo) with
  | none =>
    if staticHasAgentProperty static oldAm.id prop then
      target.setAgentProp static oldAm.id prop
        (staticGetAgentProperty static oldAm.id prop)
    else
      target.deleteAgentProp static oldAm.id prop
  | some change =>
    let targetVal := change.final
    (target.getAgentProp static oldAm.id prop).bind (fun currentVal =>
      if ¬jsStrictEq targetVal currentVal then
        let areEqAgents : Bool :=
          match targetVal with
          | some (.agentRef a) => handleIdOf currentVal == some a
          | _ => false
        let areEqAgentArrs : Bool :=
          match targetVal with
          | some (.agentArrayRef a) => handleIdOf currentVal == some a
          | _ => false
        if !areEqAgents && !areEqAgentArrs then
          target.setAgentProp static oldAm.id prop targetVal
        else
          .ok target
      else
        .ok target)

/-- The full `REVERT` effect: every property of every manager of the
source instance, in enumeration order. -/
def agentRevertAll (static : StaticReg) (oldAgents : InstanceAgents) (revertTo : Int)
    (target : GameInst) : Except String GameInst :=
  oldAgents.agentManagers.foldlM
    (fun acc p =>
      ((p.2.props.map Prod.fst).filter (fun k => k ≠ "game" && k ≠ "id")).foldlM
        (agentRevertProp static p.2 revertTo) acc)
    target

/-- The body of `GameInstanceImpl.revert` past its option checks: the
recycle constructor with the reverted random builder, then the `REVERT`
tracked event invoked on the new instance (so the resets are recorded
against a fresh `REVERT` event record, which is then archived). -/
def revertBody (config : OptList) (static : StaticReg) (g : GameInst)
    (revertTo : Int) (entropy : Int) : Except String GameInst :=
  let opts := g.options.overrides
  let genSeed : Option String :=
    if (opts.lookup .seed).isSome then none else some g.options.seed
  (buildInstanceOptions config opts genSeed entropy).bind (fun ropts =>
    (InstanceAgents.recycle static ropts.trackAgentChanges g.agents).bind (fun ags =>
      let newInstance : GameInst :=
        { options := ropts
          events := ⟨g.events.lastEventId, [], []⟩
          agents := ags
          output := outputRecycle g.output
          random := initRandomState ropts.seed (g.randomRevertGens revertTo) }
      let revId := newInstance.events.lastEventId + 1
      let g1 : GameInst :=
        { newInstance with events :=
            ⟨revId, [mkEvRec revId "REVERT" none], newInstance.events.history⟩ }
      (agentRevertAll static g.agents revertTo g1).map (fun g2 =>
        match g2.events.queue with
        | [] => g2
        | c :: rest =>
          { g2 with events := { g2.events with queue := rest, history := c :: g2.events.history } })))

/-- `GameInstanceImpl.revert(revertTo = 0)` (source lines 977-991). -/
def revert (config : OptList) (static : StaticReg) (g : GameInst)
    (revertTo : Int) (entropy : Int) : Except String GameInst :=
  if revertTo ≠ 0 then
    if revertTo < 0 then
      .error "RegalError: revertTo must be zero or greater."
    else if ¬g.options.trackAgentChanges then
      .error "RegalError: In order to revert to an intermediate event ID, GameOptions.trackAgentChanges must be true."
    else
      g.revertBody config static revertTo entropy
  else
    g.revertBody config static revertTo entropy

end GameInst

/-! ## The Game API (source lines 1690-2044) -/

/-- The static context surrounding the API: initialization and context
flags, the configured metadata options, the static agent registry, and
the registered hooks (`HookManager`).  `beforeUndoCommandHook` defaults
to `returnTrue`. -/
structure ApiState where
  isInitialized : Bool
  contextStatic : Bool
  configOpts : OptList
  staticReg : StaticReg
  playerCommandHook : Option (String → BEvent)
  startCommandHook : Option BEvent
  beforeUndoCommandHook : GameInst → Bool

/-- A `GameResponse`'s `output` component. -/
structure GameResponseOutput where
  wasSuccessful : Bool
  error : Option String
  log : Option (List OutputLine)
deriving DecidableEq, Repr

/-- A `GameResponse`: the bound instance (absent on failure) and the
output component. -/
structure GameResponse where
  inst : Option GameInst
  output : GameResponseOutput
deriving DecidableEq, Repr

/-- Naive substring test (JS `indexOf(...) !== -1`). -/
def hasSub : List Char → List Char → Bool
  | l, pat =>
    if pat.isPrefixOf l then true
    else
      match l with
      | [] => false
      | _ :: t => hasSub t pat

/-- `wrapApiErrorAsRegalError` (source lines 1782-1795): an error whose
message already carries the `RegalError:` marker passes through; any
other failure is wrapped into a generic `RegalError`. -/
def wrapApiErrorAsRegalError (err : String) : String :=
  if hasSub err.data "RegalError:".data then err
  else "RegalError: An error occurred while executing the request. Details: <>"

/-- `buildLogResponse(err, newInstance)` (source lines 1803-1825). -/
def buildLogResponse (r : Except String GameInst) : GameResponse :=
  match r with
  | .error e => ⟨none, ⟨false, some e, none⟩⟩
  | .ok g => ⟨some g, ⟨true, none, some g.output.lines⟩⟩

/-- `NOT_INITALIZED_ERROR_MSG` (with the source's spelling), as thrown. -/
def NOT_INITIALIZED_MSG : String :=
  "RegalError: Game has not been initalized. Did you remember to call Game.init?"

/-- The catch-and-respond wrapper shared by `postPlayerCommand` and
`postStartCommand`: wrap any failure of the try-block body and build the
log-bearing response. -/
def apiTurnResponse (body : Option (Except String GameInst)) : Option GameResponse :=
  body.map (fun r => buildLogResponse (r.mapError wrapApiErrorAsRegalError))

/-- The catch-and-respond wrapper shared by `postUndoCommand` and
`postOptionCommand` (their success responses carry no log). -/
def apiSimpleResponse (body : Except String GameInst) : GameResponse :=
  match body.mapError wrapApiErrorAsRegalError with
  | .error e => ⟨none, ⟨false, some e, none⟩⟩
  | .ok g => ⟨some g, ⟨true, none, none⟩⟩

/-- `Game.postPlayerCommand(instance, command)` (source lines 1898-1922).
`none` models a turn that runs forever inside the event loop. -/
def postPlayerCommand (api : ApiState) (inst : Option GameInst)
    (command : Option String) (fuel : Nat) (entropy : Int) : Option GameResponse :=
  let body : Option (Except String GameInst) :=
    if ¬api.isInitialized then some (.error NOT_INITIALIZED_MSG)
    else
      match inst with
      | none => some (.error "RegalError: Invalid GameInstance.")
      | some oldInstance =>
        match command with
        | none => some (.error "RegalError: Command must be defined.")
        | some cmd =>
          match api.playerCommandHook with
          | none => some (.error "RegalError: onPlayerCommand has not been implemented by the game developer.")
          | some hook =>
            match oldInstance.recycle api.configOpts api.staticReg none entropy with
            | .error e => some (.error e)
            | .ok newInstance =>
              let scrubbed :=
                { newInstance with agents :=
                    InstanceAgents.scrubAgents api.staticReg newInstance.agents }
              invoke fuel scrubbed (.single (hook cmd))
  apiTurnResponse body

/-- `Game.postStartCommand(options)` (source lines 1936-1953). -/
def postStartCommand (api : ApiState) (options : OptList) (fuel : Nat)
    (entropy : Int) : Option GameResponse :=
  let body : Option (Except String GameInst) :=
    if ¬api.isInitialized then some (.error NOT_INITIALIZED_MSG)
    else
      match api.startCommandHook with
      | none => some (.error "RegalError: onStartCommand has not been implemented by the game developer.")
      | some hook =>
        match buildGameInstance api.contextStatic api.configOpts api.staticReg
            options entropy with
        | .error e => some (.error e)
        | .ok newInstance => invoke fuel newInstance (.single hook)
  apiTurnResponse body

/-- `Game.postUndoCommand(instance)` (source lines 1966-1996): the
before-undo guard, then `revert()` to the previous turn boundary; the
success response carries no log. -/
def postUndoCommand (api : ApiState) (inst : Option GameInst) (entropy : Int) :
    GameResponse :=
  let body : Except String GameInst :=
    if ¬api.isInitialized then .error NOT_INITIALIZED_MSG
    else
      match inst with
      | none => .error "RegalError: Invalid GameInstance."
      | some oldInstance =>
        if ¬api.beforeUndoCommandHook oldInstance then
          .error "RegalError: Undo is not allowed here."
        else
          oldInstance.revert api.configOpts api.staticReg 0 entropy
  apiSimpleResponse body

/-- `Game.postOptionCommand(instance, options)` (source lines 2007-2041):
recycle with the old instance's overrides merged under the new ones. -/
def postOptionCommand (api : ApiState) (inst : Option GameInst) (options : OptList)
    (entropy : Int) : GameResponse :=
  let body : Except String GameInst :=
    if ¬api.isInitialized then .error NOT_INITIALIZED_MSG
    else
      match inst with
      | none => .error "RegalError: Invalid GameInstance."
      | some oldInstance =>
        let newOptions :=
          oldInstance.options.overrides.filter
            (fun p => (options.lookup p.1).isNone) ++ options
        oldInstance.recycle api.configOpts api.staticReg (some newOptions) entropy
  apiSimpleResponse body

end Regal

namespace Regal

/-! # Claims -/

/-! ## C9 — random operation failure modes

The source rejects `int` with `min > max`, `string` with a non-positive
length or an under-two-character charset, and `choice` with an undefined
array.  `choice` does NOT reject an empty (but defined) array: it draws
index `0`, records it, and returns the `undefined` element
(`InstanceRandomImpl.choice` calls the generator's `nextInt(0, -1)`
directly, bypassing the `min > max` guard of `int`).  `decimal` and
`boolean` are total by type. -/

/-- C9 counterexample: the claim states `choice` fails on an empty array;
in the code `choice([])` succeeds (drawing index 0 and returning
`undefined`). -/
theorem c9_choice_empty_array_succeeds :
    (randomChoice (some ([] : List RVal)) ⟨0, 1⟩).isOk = true := by
  rfl

/-- C9 (amended): the random operations fail exactly on `int` with
`min > max`, `string` with `length ≤ 0` or fewer than two distinct
charset characters, and `choice` with an undefined array; every other
input — including `choice` on an empty array — returns a value without
error. -/
theorem c9_random_failure_modes (st : RandomState) (mn mx length : Int)
    (charset : List Char) (array : Option (List RVal)) :
    (mn > mx →
      randomInt mn mx st = .error "RegalError: Min must be less than or equal to max.") ∧
    (mn ≤ mx → (randomInt mn mx st).isOk = true) ∧
    (length ≤ 0 →
      randomString length charset st = .error "RegalError: Length must be greater than zero.") ∧
    (0 < length → charset.dedup.length < 2 →
      randomString length charset st = .error "RegalError: Charset must have at least two unique characters.") ∧
    (0 < length → 2 ≤ charset.dedup.length →
      (randomString length charset st).isOk = true) ∧
    (array = none →
      randomChoice array st = .error "RegalError: Array must be defined.") ∧
    (∀ arr, array = some arr → (randomChoice array st).isOk = true) := by
  refine ⟨?_, ?_, ?_, ?_, ?_, ?_, ?_⟩
  · intro h
    simp only [randomInt, if_pos h]
  · intro h
    simp only [randomInt, if_neg (not_lt.mpr h), Except.isOk, Except.toBool]
  · intro h
    simp only [randomString, if_pos h]
  · intro h1 h2
    simp only [randomString, if_neg (not_le.mpr h1), if_pos h2]
  · intro h1 h2
    simp only [randomString, if_neg (not_le.mpr h1), if_neg (not_lt.mpr h2),
      Except.isOk, Except.toBool]
  · intro h
    subst h
    simp only [randomChoice]
  · intro arr h
    subst h
    simp only [randomChoice, Except.isOk, Except.toBool]

/-- C9 witness: concrete instances of every hypothesis of
`c9_random_failure_modes`. -/
theorem c9_random_failure_modes_witness :
    (randomInt 3 1 ⟨0, 1⟩ = .error "RegalError: Min must be less than or equal to max.") ∧
    (randomInt 1 3 ⟨0, 1⟩).isOk = true ∧
    (randomString 0 "ab".data ⟨0, 1⟩ = .error "RegalError: Length must be greater than zero.") ∧
    (randomString 2 "aa".data ⟨0, 1⟩ = .error "RegalError: Charset must have at least two unique characters.") ∧
    (randomString 2 "ab".data ⟨0, 1⟩).isOk = true ∧
    (randomChoice (none : Option (List RVal)) ⟨0, 1⟩ = .error "RegalError: Array must be defined.") ∧
    (randomChoice (some ([.num 7] : List RVal)) ⟨0, 1⟩).isOk = true := by
  have h := c9_random_failure_modes ⟨0, 1⟩ 3 1 0 "ab".data none
  have h2 := c9_random_failure_modes ⟨0, 1⟩ 1 3 2 "aa".data (some ([.num 7] : List RVal))
  have h3 := c9_random_failure_modes ⟨0, 1⟩ 1 3 2 "ab".data (some ([.num 7] : List RVal))
  exact ⟨h.1 (by decide), h2.2.1 (by decide), h.2.2.1 (by decide),
    h2.2.2.2.1 (by decide) (by decide), h3.2.2.2.2.1 (by decide) (by decide),
    h.2.2.2.2.2.1 rfl, h3.2.2.2.2.2.2 [.num 7] rfl⟩

/-! ## C10 — output line filtering, ids, and carryover -/

/-- C10: a `MINOR` write without `showMinor`, or a `DEBUG` write without
`debug`, leaves the whole instance (line buffer, line counter, and the
current event record) unchanged; any other write appends a line with id
`lineCount + 1`, bumps the counter, and records the id on the current
event record; `recycle` carries the counter forward over an emptied
buffer, so ids keep increasing across instances. -/
theorem c10_writeLine (g : GameInst) (line : String) (t : OutputLineType) :
    (((t = .MINOR ∧ g.options.showMinor = false) ∨
      (t = .DEBUG ∧ g.options.debug = false)) →
      g.writeLine line t = g) ∧
    (¬((t = .MINOR ∧ g.options.showMinor = false) ∨
       (t = .DEBUG ∧ g.options.debug = false)) →
      (g.writeLine line t).output.lineCount = g.output.lineCount + 1 ∧
      (g.writeLine line t).output.lines =
        g.output.lines ++ [⟨g.output.lineCount + 1, t, line⟩] ∧
      ∀ c rest, g.events.queue = c :: rest →
        (g.writeLine line t).events.queue =
          ({ c with output := c.output ++ [g.output.lineCount + 1] }) :: rest) ∧
    ((outputRecycle g.output).lineCount = g.output.lineCount ∧
      (outputRecycle g.output).lines = []) := by
  refine ⟨?_, ?_, rfl, rfl⟩
  · intro h
    have hdrop : lineDropped g.options.debug g.options.showMinor t = true := by
      rcases h with ⟨ht, hv⟩ | ⟨ht, hv⟩ <;> subst ht <;> simp [lineDropped, hv]
    simp only [GameInst.writeLine, writeLineCore, hdrop, if_true]
  · intro h
    rw [not_or] at h
    have hdrop : lineDropped g.options.debug g.options.showMinor t = false := by
      cases t <;> simp only [lineDropped]
      · cases hb : g.options.showMinor
        · exact absurd ⟨rfl, hb⟩ h.1
        · rfl
      · cases hb : g.options.debug
        · exact absurd ⟨rfl, hb⟩ h.2
        · rfl
    refine ⟨?_, ?_, ?_⟩
    · simp only [GameInst.writeLine, writeLineCore, hdrop, Bool.false_eq_true,
        if_false, GameInst.updateCurrent]
    · simp only [GameInst.writeLine, writeLineCore, hdrop, Bool.false_eq_true,
        if_false, GameInst.updateCurrent]
    · intro c rest hq
      simp only [GameInst.writeLine, writeLineCore, hdrop, Bool.false_eq_true,
        if_false, GameInst.updateCurrent, hq]

/-- C10 witness: a concrete suppressed `MINOR` write and a concrete
successful `NORMAL` write. -/
theorem c10_writeLine_witness :
    (let g : GameInst :=
      ⟨⟨.abool true, false, "S", false, false, []⟩, ⟨0, [], []⟩, ⟨1, [(0, ⟨0, []⟩)]⟩,
        ⟨3, []⟩, ⟨0, 1⟩⟩
     g.writeLine "quiet" .MINOR = g ∧
     (g.writeLine "loud" .NORMAL).output.lineCount = 4) := by
  have h1 := c10_writeLine
    ⟨⟨.abool true, false, "S", false, false, []⟩, ⟨0, [], []⟩, ⟨1, [(0, ⟨0, []⟩)]⟩,
      ⟨3, []⟩, ⟨0, 1⟩⟩ "quiet" OutputLineType.MINOR
  have h2 := c10_writeLine
    ⟨⟨.abool true, false, "S", false, false, []⟩, ⟨0, [], []⟩, ⟨1, [(0, ⟨0, []⟩)]⟩,
      ⟨3, []⟩, ⟨0, 1⟩⟩ "loud" OutputLineType.NORMAL
  exact ⟨h1.1 (Or.inl ⟨rfl, rfl⟩), (h2.2.1 (by simp)).1⟩

end Regal

namespace Regal

/-! ## Composition lemmas shared by C1 and C4 -/

/-- The result of a successful `then` chain: the operands' immediate
lists concatenated, with the final operand's delayed list. -/
def chainResult (root : EvArg) (args : List EvArg) : EvArg :=
  match args.getLast? with
  | none => root
  | some last =>
    .queue (root.parts.1 ++ (args.map (fun a => a.parts.1)).flatten) last.parts.2

/-- The effects of a chain in claimed execution order: each operand's
immediate list left to right, then the final operand's delayed list. -/
def chainEvents (root : EvArg) (args : List EvArg) : List BEvent :=
  (chainResult root args).parts.1 ++ (chainResult root args).parts.2

theorem singleThen_ok_of_del_nil (root a : EvArg) (h : root.parts.2 = []) :
    singleThen root a = .ok (.queue (root.parts.1 ++ a.parts.1) a.parts.2) := by
  cases root with
  | single e => simp [singleThen, EvArg.parts, Except.map]
  | queue imm del =>
    simp only [EvArg.parts] at h
    subst h
    simp [singleThen, EvArg.parts, Except.map]

theorem singleThen_error (imm del : List BEvent) (a : EvArg) (h : del ≠ []) :
    singleThen (.queue imm del) a =
      .error "RegalError: Any enqueue instruction must happen at the end of the return statement." := by
  have hl : del.length > 0 := List.length_pos.mpr h
  simp [singleThen, hl, Except.map]

theorem thenChain_ok (args : List EvArg) : ∀ (root : EvArg),
    root.parts.2 = [] →
    (∀ a ∈ args.dropLast, a.parts.2 = []) →
    thenChain root args = .ok (chainResult root args) := by
  induction args with
  | nil =>
    intro root _ _
    simp [thenChain, chainResult, pure, Except.pure]
  | cons a rest ih =>
    intro root hroot hmid
    rw [thenChain, List.foldlM_cons, singleThen_ok_of_del_nil root a hroot]
    cases rest with
    | nil =>
      simp [thenChain, chainResult, EvArg.parts]
    | cons b rest2 =>
      have ha : a.parts.2 = [] := by
        apply hmid
        simp [List.dropLast]
      have hmid2 : ∀ x ∈ (b :: rest2).dropLast, x.parts.2 = [] := by
        intro x hx
        apply hmid
        simp only [List.dropLast, List.mem_cons]
        right
        exact hx
      have hq : (EvArg.queue (root.parts.1 ++ a.parts.1) a.parts.2).parts.2 = [] := ha
      have := ih (.queue (root.parts.1 ++ a.parts.1) a.parts.2) hq hmid2
      rw [thenChain] at this
      simp only [bind, Except.bind] at this ⊢
      rw [this]
      congr 1
      simp only [chainResult, EvArg.parts, ha]
      have hlast : (a :: b :: rest2).getLast? = (b :: rest2).getLast? := by
        simp [List.getLast?_cons_cons]
      rw [hlast]
      cases hgl : (b :: rest2).getLast? with
      | none => simp at hgl
      | some last =>
        simp only [List.map_cons, List.flatten]
        congr 1
        simp [List.append_assoc]

/-! ## C4 — non-terminal delayed instructions are a usage error -/

/-- C4: composing with `then` fails (with the usage error the source
raises, before anything executes — composition never runs effects) as
soon as the target operand carries pending delayed events, and succeeds
whenever every non-final operand's delayed list is empty. -/
theorem c4_then_delayed_terminal :
    (∀ (imm del : List BEvent) (args : List EvArg), del ≠ [] → args ≠ [] →
      thenChain (.queue imm del) args =
        .error "RegalError: Any enqueue instruction must happen at the end of the return statement.") ∧
    (∀ (root : EvArg) (args : List EvArg),
      (root.parts.2 = [] ∨ args = []) →
      (∀ a ∈ args.dropLast, a.parts.2 = []) →
      thenChain root args = .ok (chainResult root args)) := by
  constructor
  · intro imm del args hdel hargs
    cases args with
    | nil => exact absurd rfl hargs
    | cons a rest =>
      rw [thenChain, List.foldlM_cons, singleThen_error imm del a hdel]
      induction rest with
      | nil => rfl
      | cons b rest2 ih2 =>
        simpa using ih2
  · intro root args hroot hmid
    rcases hroot with hroot | hroot
    · exact thenChain_ok args root hroot hmid
    · subst hroot
      simp [thenChain, chainResult, pure, Except.pure]

/-- An effect that does nothing and returns no follow-up. -/
def noopEv : BEvent := .mk "noop" (fun g => .ok (g, none))

/-- C4 witness: a delayed-carrying target fails; a chain whose non-final
operands have empty delayed lists succeeds. -/
theorem c4_then_delayed_terminal_witness :
    (([noopEv] : List BEvent) ≠ [] ∧ ([EvArg.single noopEv] : List EvArg) ≠ [] ∧
      thenChain (.queue [noopEv] [noopEv]) [.single noopEv] =
        .error "RegalError: Any enqueue instruction must happen at the end of the return statement.") ∧
    (((EvArg.queue [noopEv] []).parts.2 = [] ∨
        ([EvArg.single noopEv, .queue [noopEv] [noopEv]] : List EvArg) = []) ∧
      (∀ a ∈ ([EvArg.single noopEv, .queue [noopEv] [noopEv]] : List EvArg).dropLast,
        a.parts.2 = []) ∧
      thenChain (.queue [noopEv] []) [.single noopEv, .queue [noopEv] [noopEv]] =
        .ok (chainResult (.queue [noopEv] []) [.single noopEv, .queue [noopEv] [noopEv]])) := by
  refine ⟨⟨by simp, by simp, ?_⟩, ⟨Or.inl rfl, ?_, ?_⟩⟩
  · exact c4_then_delayed_terminal.1 [noopEv] [noopEv] [.single noopEv] (by simp) (by simp)
  · intro a ha
    simp only [List.dropLast] at ha
    simp only [List.mem_singleton] at ha
    subst ha
    rfl
  · refine c4_then_delayed_terminal.2 (.queue [noopEv] [])
      [.single noopEv, .queue [noopEv] [noopEv]] (Or.inl rfl) ?_
    intro a ha
    simp only [List.dropLast] at ha
    simp only [List.mem_singleton] at ha
    subst ha
    rfl

/-! ## C5 — revert target gating -/

/-- C5: a negative revert target is always rejected; a positive target is
rejected exactly when `trackAgentChanges` is disabled; target `0` (and a
positive target with tracking on) passes the gate straight into the
revert body. -/
theorem c5_revert_gating (config : OptList) (static : StaticReg) (g : GameInst)
    (revertTo entropy : Int) :
    (revertTo < 0 →
      g.revert config static revertTo entropy =
        .error "RegalError: revertTo must be zero or greater.") ∧
    (0 < revertTo → g.options.trackAgentChanges = false →
      g.revert config static revertTo entropy =
        .error "RegalError: In order to revert to an intermediate event ID, GameOptions.trackAgentChanges must be true.") ∧
    (revertTo = 0 →
      g.revert config static revertTo entropy =
        g.revertBody config static revertTo entropy) ∧
    (0 < revertTo → g.options.trackAgentChanges = true →
      g.revert config static revertTo entropy =
        g.revertBody config static revertTo entropy) := by
  refine ⟨?_, ?_, ?_, ?_⟩
  · intro h
    have hne : revertTo ≠ 0 := by omega
    simp [GameInst.revert, hne, h]
  · intro h htrack
    have hne : revertTo ≠ 0 := by omega
    have hnneg : ¬revertTo < 0 := by omega
    simp [GameInst.revert, hne, hnneg, htrack]
  · intro h
    subst h
    simp [GameInst.revert]
  · intro h htrack
    have hne : revertTo ≠ 0 := by omega
    have hnneg : ¬revertTo < 0 := by omega
    simp [GameInst.revert, hne, hnneg, htrack]

/-- A minimal instance for concrete lifecycle evaluations: default
options with seed `"S"`, the lone state agent, nothing recorded. -/
def exInst : GameInst :=
  ⟨⟨.abool true, false, "S", true, false, []⟩, ⟨0, [], []⟩, ⟨1, [(0, ⟨0, []⟩)]⟩,
    ⟨0, []⟩, ⟨0, 1⟩⟩

/-- C5 witness: the gate at concrete targets, plus evaluation showing the
ungated `revert(0)` actually completes on a concrete instance. -/
theorem c5_revert_gating_witness :
    ((-1 : Int) < 0 ∧
      exInst.revert [] [] (-1) 0 = .error "RegalError: revertTo must be zero or greater.") ∧
    ((0 : Int) < 2 ∧ exInst.options.trackAgentChanges = false ∧
      exInst.revert [] [] 2 0 =
        .error "RegalError: In order to revert to an intermediate event ID, GameOptions.trackAgentChanges must be true.") ∧
    ((0 : Int) = 0 ∧ exInst.revert [] [] 0 0 = exInst.revertBody [] [] 0 0) ∧
    (exInst.revert [] [] 0 0).isOk = true := by
  have h1 := c5_revert_gating [] [] exInst (-1) 0
  have h2 := c5_revert_gating [] [] exInst 2 0
  have h3 := c5_revert_gating [] [] exInst 0 0
  refine ⟨⟨by decide, h1.1 (by decide)⟩, ⟨by decide, rfl, h2.2.1 (by decide) rfl⟩,
    ⟨rfl, h3.2.2.1 rfl⟩, ?_⟩
  rw [h3.2.2.1 rfl]
  rfl

end Regal

namespace Regal

/-! ## Association-list lemmas for the property stores -/

theorem lookup_listUpsert_self {α : Type} (l : List (String × α)) (k : String) (v : α) :
    (listUpsert l k v).lookup k = some v := by
  induction l with
  | nil => simp [listUpsert, List.lookup]
  | cons p rest ih =>
    obtain ⟨a, b⟩ := p
    by_cases hk : a = k
    · subst hk
      simp [listUpsert, List.lookup]
    · have h2 : (k == a) = false := by
        simp only [beq_eq_false_iff_ne, ne_eq]
        exact fun he => hk he.symm
      simp [listUpsert, if_neg hk, List.lookup, h2, ih]

theorem lookup_listUpsert_other {α : Type} (l : List (String × α)) (k k' : String)
    (v : α) (hne : k' ≠ k) : (listUpsert l k v).lookup k' = l.lookup k' := by
  induction l with
  | nil =>
    have h2 : (k' == k) = false := by simp [hne]
    simp [listUpsert, List.lookup, h2]
  | cons p rest ih =>
    obtain ⟨a, b⟩ := p
    by_cases hk : a = k
    · subst hk
      have h2 : (k' == a) = false := by simp [hne]
      simp [listUpsert, List.lookup, h2]
    · by_cases hk2 : k' = a
      · subst hk2
        simp [listUpsert, if_neg hk, List.lookup]
      · have h2 : (k' == a) = false := by simp [hk2]
        simp [listUpsert, if_neg hk, List.lookup, h2, ih]

theorem mem_listUpsert {α : Type} (l : List (String × α)) (k : String) (v : α)
    (p : String × α) : p ∈ listUpsert l k v → p.2 = v ∨ p ∈ l := by
  induction l with
  | nil =>
    intro hp
    simp only [listUpsert, List.mem_singleton] at hp
    subst hp
    left
    rfl
  | cons q rest ih =>
    obtain ⟨a, b⟩ := q
    intro hp
    by_cases hk : a = k
    · subst hk
      simp only [listUpsert, eq_self_iff_true, if_true, List.mem_cons] at hp
      rcases hp with h1 | h1
      · subst h1
        left
        rfl
      · right
        exact List.mem_cons_of_mem _ h1
    · simp only [listUpsert, if_neg hk, List.mem_cons] at hp
      rcases hp with h1 | h1
      · right
        subst h1
        exact List.mem_cons_self _ _
      · rcases ih h1 with h | h
        · left
          exact h
        · right
          exact List.mem_cons_of_mem _ h

theorem lookup_mem {α : Type} (l : List (String × α)) (k : String) (v : α)
    (h : l.lookup k = some v) : (k, v) ∈ l := by
  induction l with
  | nil => simp [List.lookup] at h
  | cons p rest ih =>
    obtain ⟨a, b⟩ := p
    by_cases hk : k = a
    · subst hk
      simp only [List.lookup, beq_self_eq_true] at h
      cases h
      exact List.mem_cons_self _ _
    · have h2 : (k == a) = false := by simp [hk]
      simp only [List.lookup, h2] at h
      exact List.mem_cons_of_mem _ (ih h)


end Regal

namespace Regal

/-! ## Manager-level lemmas shared by C6, C7 and C8 -/

theorem getPropertyHistory_storeProp_self (am : AgentManager) (prop : String)
    (h : List AMPropChange) (hc : prop ≠ "constructor") :
    (am.storeProp prop h).getPropertyHistory prop = h := by
  simp [AgentManager.getPropertyHistory, AgentManager.hasPropertyRecord,
    AgentManager.storeProp, hc, lookup_listUpsert_self]

theorem getPropertyHistory_storeProp_other (am : AgentManager) (p : String)
    (h : List AMPropChange) (prop : String) (hne : prop ≠ p) :
    (am.storeProp p h).getPropertyHistory prop = am.getPropertyHistory prop := by
  by_cases hcon : prop = "constructor"
  · simp [AgentManager.getPropertyHistory, AgentManager.hasPropertyRecord, hcon]
  · unfold AgentManager.getPropertyHistory AgentManager.hasPropertyRecord
      AgentManager.storeProp
    rw [lookup_listUpsert_other am.props p prop h hne]

theorem getPropertyHistory_mem (am : AgentManager) (prop : String)
    (hne : am.getPropertyHistory prop ≠ []) :
    (prop, am.getPropertyHistory prop) ∈ am.props := by
  by_cases hr : am.hasPropertyRecord prop
  · unfold AgentManager.getPropertyHistory at hne ⊢
    rw [if_pos hr] at hne ⊢
    cases hl : am.props.lookup prop with
    | none => simp [hl] at hne
    | some hh => simpa [hl] using lookup_mem _ _ _ hl
  · unfold AgentManager.getPropertyHistory at hne
    rw [if_neg hr] at hne
    exact absurd rfl hne

theorem storeProp_bounded (am : AgentManager) (prop : String)
    (h : List AMPropChange)
    (hb : ∀ p hh, (p, hh) ∈ am.props → hh.length ≤ 2) (hl : h.length ≤ 2) :
    ∀ p hh, (p, hh) ∈ (am.storeProp prop h).props → hh.length ≤ 2 := by
  intro p hh hmem
  rcases mem_listUpsert _ _ _ _ hmem with he | he
  · simp only at he
    rw [he]
    exact hl
  · exact hb p hh he

theorem getPropertyHistory_bounded (am : AgentManager) (prop : String)
    (hb : ∀ p hh, (p, hh) ∈ am.props → hh.length ≤ 2) :
    (am.getPropertyHistory prop).length ≤ 2 := by
  cases hH : am.getPropertyHistory prop with
  | nil => simp
  | cons c rest =>
    have hmem : (prop, am.getPropertyHistory prop) ∈ am.props :=
      getPropertyHistory_mem am prop (by rw [hH]; simp)
    rw [hH] at hmem
    exact hb _ _ hmem

theorem recordChange_bounded_len (ev : EvRef) (pc : PropChange)
    (history : List AMPropChange) (r : List AMPropChange × Option EvPropChange)
    (h : AgentManager.recordChange false ev pc history = .ok r)
    (hb : history.length ≤ 2) : r.1.length ≤ 2 := by
  unfold AgentManager.recordChange at h
  simp only [Bool.false_eq_true, if_false] at h
  have hng : ¬history.length > 2 := by omega
  rw [if_neg hng] at h
  cases history with
  | nil =>
    cases h
    simp
  | cons c1 rest =>
    simp only at h
    simp only [List.length_cons] at hb
    by_cases hcond : rest.length = 1 ∨
        (rest.length = 0 ∧ (c1.eventId = ev.id ∨ c1.eventId > DEFAULT_EVENT_ID))
    · rw [if_pos hcond] at h
      cases h
      simp only [List.length_cons]
      omega
    · rw [if_neg hcond] at h
      cases h
      push_neg at hcond
      simp only [List.length_cons]
      omega

/-- A set or delete operation against one agent manager. -/
inductive AMOp where
  | setP (prop : String) (v : Option RVal)
  | delP (prop : String)

/-- Apply one operation (`setProperty`/`deleteProperty`) under a current
event. -/
def applyAMOp (static : StaticReg) (track : Bool) (ev : EvRef)
    (am : AgentManager) : AMOp → Except String (AgentManager × Option EvPropChange)
  | .setP prop v => am.setProperty static track ev prop v
  | .delP prop => am.deleteProperty static track ev prop

/-- Apply a sequence of operations, each under its own current event. -/
def applyAMOps (static : StaticReg) (track : Bool)
    (ops : List (EvRef × AMOp)) (am : AgentManager) : Except String AgentManager :=
  ops.foldlM (fun acc p => (applyAMOp static track p.1 acc p.2).map Prod.fst) am

theorem setProperty_bounded_preserve (static : StaticReg) (ev : EvRef)
    (am : AgentManager) (prop : String) (v : Option RVal)
    (r : AgentManager × Option EvPropChange)
    (h : AgentManager.setProperty static false ev am prop v = .ok r)
    (hb : ∀ p hh, (p, hh) ∈ am.props → hh.length ≤ 2) :
    ∀ p hh, (p, hh) ∈ r.1.props → hh.length ≤ 2 := by
  have hHb := getPropertyHistory_bounded am prop hb
  unfold AgentManager.setProperty at h
  cases hH : am.getPropertyHistory prop with
  | nil =>
    rw [hH] at h
    rw [hH] at hHb
    simp only at h
    by_cases hstat : staticHasAgentProperty static am.id prop = true
    · simp only [hstat, eq_self_iff_true, if_true] at h
      by_cases hskip : setSkips (staticGetAgentProperty static am.id prop) v = true
      · rw [if_pos hskip] at h
        cases h
        by_cases heq : jsStrictEq (staticGetAgentProperty static am.id prop) v = true
        · rw [if_pos heq]
          exact hb
        · rw [if_neg heq]
          exact storeProp_bounded am prop [] hb (by simp)
      · rw [if_neg hskip] at h
        cases hrec : AgentManager.recordChange false ev
            ⟨am.id, ev.id, ev.name, v, staticGetAgentProperty static am.id prop,
              PropertyOperation.MODIFIED, prop⟩ [] with
        | error e =>
          rw [hrec] at h
          simp [Except.map] at h
        | ok rr =>
          rw [hrec] at h
          simp only [Except.map] at h
          cases h
          have hlen := recordChange_bounded_len ev _ [] rr hrec (by simp)
          by_cases heq : jsStrictEq (staticGetAgentProperty static am.id prop) v = true
          · rw [if_pos heq]
            exact storeProp_bounded am prop rr.1 hb hlen
          · rw [if_neg heq]
            exact storeProp_bounded _ prop rr.1
              (storeProp_bounded am prop [] hb (by simp)) hlen
    · rw [Bool.not_eq_true] at hstat
      simp only [hstat, Bool.false_eq_true, if_false] at h
      by_cases hskip : setSkips none v = true
      · rw [if_pos hskip] at h
        cases h
        by_cases heq : jsStrictEq none v = true
        · rw [if_pos heq]
          exact hb
        · rw [if_neg heq]
          exact storeProp_bounded am prop [] hb (by simp)
      · rw [if_neg hskip] at h
        cases hrec : AgentManager.recordChange false ev
            ⟨am.id, ev.id, ev.name, v, none, PropertyOperation.ADDED, prop⟩ [] with
        | error e =>
          rw [hrec] at h
          simp [Except.map] at h
        | ok rr =>
          rw [hrec] at h
          simp only [Except.map] at h
          cases h
          have hlen := recordChange_bounded_len ev _ [] rr hrec (by simp)
          by_cases heq : jsStrictEq none v = true
          · rw [if_pos heq]
            exact storeProp_bounded am prop rr.1 hb hlen
          · rw [if_neg heq]
            exact storeProp_bounded _ prop rr.1
              (storeProp_bounded am prop [] hb (by simp)) hlen
  | cons c rest =>
    rw [hH] at h
    rw [hH] at hHb
    simp only at h
    by_cases hskip : setSkips c.final v = true
    · rw [if_pos hskip] at h
      cases h
      exact hb
    · rw [if_neg hskip] at h
      cases hrec : AgentManager.recordChange false ev
          ⟨am.id, ev.id, ev.name, v, c.final,
            if am.propertyWasDeleted prop = true then PropertyOperation.ADDED
            else PropertyOperation.MODIFIED, prop⟩ (c :: rest) with
      | error e =>
        rw [hrec] at h
        simp [Except.map] at h
      | ok rr =>
        rw [hrec] at h
        simp only [Except.map] at h
        cases h
        have hlen := recordChange_bounded_len ev _ _ rr hrec hHb
        exact storeProp_bounded am prop rr.1 hb hlen

theorem deleteProperty_bounded_preserve (static : StaticReg) (ev : EvRef)
    (am : AgentManager) (prop : String)
    (r : AgentManager × Option EvPropChange)
    (h : AgentManager.deleteProperty static false ev am prop = .ok r)
    (hb : ∀ p hh, (p, hh) ∈ am.props → hh.length ≤ 2) :
    ∀ p hh, (p, hh) ∈ r.1.props → hh.length ≤ 2 := by
  have hHb := getPropertyHistory_bounded am prop hb
  unfold AgentManager.deleteProperty at h
  by_cases hdel : am.propertyWasDeleted prop = true
  · rw [if_pos hdel] at h
    cases h
    exact hb
  · rw [Bool.not_eq_true] at hdel
    simp only [hdel, Bool.false_eq_true, if_false] at h
    cases hH : am.getPropertyHistory prop with
    | nil =>
      rw [hH] at h
      rw [hH] at hHb
      simp only at h
      by_cases hstat : staticHasAgentProperty static am.id prop = true
      · simp only [hstat, eq_self_iff_true, if_true] at h
        cases hrec : AgentManager.recordChange false ev
            ⟨am.id, ev.id, ev.name, none, staticGetAgentProperty static am.id prop,
              PropertyOperation.DELETED, prop⟩ [] with
        | error e =>
          rw [hrec] at h
          simp [Except.map] at h
        | ok rr =>
          rw [hrec] at h
          simp only [Except.map] at h
          cases h
          have hlen := recordChange_bounded_len ev _ [] rr hrec (by simp)
          exact storeProp_bounded _ prop rr.1
            (storeProp_bounded am prop [] hb (by simp)) hlen
      · rw [Bool.not_eq_true] at hstat
        simp only [hstat, Bool.false_eq_true, if_false] at h
        cases h
        exact hb
    | cons c rest =>
      rw [hH] at h
      rw [hH] at hHb
      simp only at h
      cases hrec : AgentManager.recordChange false ev
          ⟨am.id, ev.id, ev.name, none, c.final, PropertyOperation.DELETED, prop⟩
          (c :: rest) with
      | error e =>
        rw [hrec] at h
        simp [Except.map] at h
      | ok rr =>
        rw [hrec] at h
        simp only [Except.map] at h
        cases h
        have hlen := recordChange_bounded_len ev _ _ rr hrec hHb
        exact storeProp_bounded am prop rr.1 hb hlen

theorem getPropertyHistory_constructor (am : AgentManager) :
    am.getPropertyHistory "constructor" = [] := by
  simp [AgentManager.getPropertyHistory, AgentManager.hasPropertyRecord]

theorem setProperty_other_prop (static : StaticReg) (track : Bool) (ev : EvRef)
    (am : AgentManager) (p : String) (v : Option RVal)
    (r : AgentManager × Option EvPropChange) (prop : String) (hne : prop ≠ p)
    (h : AgentManager.setProperty static track ev am p v = .ok r) :
    r.1.getPropertyHistory prop = am.getPropertyHistory prop := by
  unfold AgentManager.setProperty at h
  cases hH : am.getPropertyHistory p with
  | nil =>
    rw [hH] at h
    simp only at h
    by_cases hstat : staticHasAgentProperty static am.id p = true
    · simp only [hstat, eq_self_iff_true, if_true] at h
      by_cases hskip : setSkips (staticGetAgentProperty static am.id p) v = true
      · rw [if_pos hskip] at h
        cases h
        by_cases heq : jsStrictEq (staticGetAgentProperty static am.id p) v = true
        · rw [if_pos heq]
        · rw [if_neg heq]
          exact getPropertyHistory_storeProp_other am p [] prop hne
      · rw [if_neg hskip] at h
        cases hrec : AgentManager.recordChange track ev
            ⟨am.id, ev.id, ev.name, v, staticGetAgentProperty static am.id p,
              PropertyOperation.MODIFIED, p⟩ [] with
        | error e =>
          rw [hrec] at h
          simp [Except.map] at h
        | ok rr =>
          rw [hrec] at h
          simp only [Except.map] at h
          cases h
          rw [getPropertyHistory_storeProp_other _ p rr.1 prop hne]
          by_cases heq : jsStrictEq (staticGetAgentProperty static am.id p) v = true
          · rw [if_pos heq]
          · rw [if_neg heq]
            exact getPropertyHistory_storeProp_other am p [] prop hne
    · rw [Bool.not_eq_true] at hstat
      simp only [hstat, Bool.false_eq_true, if_false] at h
      by_cases hskip : setSkips none v = true
      · rw [if_pos hskip] at h
        cases h
        by_cases heq : jsStrictEq none v = true
        · rw [if_pos heq]
        · rw [if_neg heq]
          exact getPropertyHistory_storeProp_other am p [] prop hne
      · rw [if_neg hskip] at h
        cases hrec : AgentManager.recordChange track ev
            ⟨am.id, ev.id, ev.name, v, none, PropertyOperation.ADDED, p⟩ [] with
        | error e =>
          rw [hrec] at h
          simp [Except.map] at h
        | ok rr =>
          rw [hrec] at h
          simp only [Except.map] at h
          cases h
          rw [getPropertyHistory_storeProp_other _ p rr.1 prop hne]
          by_cases heq : jsStrictEq none v = true
          · rw [if_pos heq]
          · rw [if_neg heq]
            exact getPropertyHistory_storeProp_other am p [] prop hne
  | cons c rest =>
    rw [hH] at h
    simp only at h
    by_cases hskip : setSkips c.final v = true
    · rw [if_pos hskip] at h
      cases h
      rfl
    · rw [if_neg hskip] at h
      cases hrec : AgentManager.recordChange track ev
          ⟨am.id, ev.id, ev.name, v, c.final,
            if am.propertyWasDeleted p = true then PropertyOperation.ADDED
            else PropertyOperation.MODIFIED, p⟩ (c :: rest) with
      | error e =>
        rw [hrec] at h
        simp [Except.map] at h
      | ok rr =>
        rw [hrec] at h
        simp only [Except.map] at h
        cases h
        exact getPropertyHistory_storeProp_other am p rr.1 prop hne

theorem deleteProperty_other_prop (static : StaticReg) (track : Bool) (ev : EvRef)
    (am : AgentManager) (p : String)
    (r : AgentManager × Option EvPropChange) (prop : String) (hne : prop ≠ p)
    (h : AgentManager.deleteProperty static track ev am p = .ok r) :
    r.1.getPropertyHistory prop = am.getPropertyHistory prop := by
  unfold AgentManager.deleteProperty at h
  by_cases hdel : am.propertyWasDeleted p = true
  · rw [if_pos hdel] at h
    cases h
    rfl
  · rw [Bool.not_eq_true] at hdel
    simp only [hdel, Bool.false_eq_true, if_false] at h
    cases hH : am.getPropertyHistory p with
    | nil =>
      rw [hH] at h
      simp only at h
      by_cases hstat : staticHasAgentProperty static am.id p = true
      · simp only [hstat, eq_self_iff_true, if_true] at h
        cases hrec : AgentManager.recordChange track ev
            ⟨am.id, ev.id, ev.name, none, staticGetAgentProperty static am.id p,
              PropertyOperation.DELETED, p⟩ [] with
        | error e =>
          rw [hrec] at h
          simp [Except.map] at h
        | ok rr =>
          rw [hrec] at h
          simp only [Except.map] at h
          cases h
          rw [getPropertyHistory_storeProp_other _ p rr.1 prop hne]
          exact getPropertyHistory_storeProp_other am p [] prop hne
      · rw [Bool.not_eq_true] at hstat
        simp only [hstat, Bool.false_eq_true, if_false] at h
        cases h
        rfl
    | cons c rest =>
      rw [hH] at h
      simp only at h
      cases hrec : AgentManager.recordChange track ev
          ⟨am.id, ev.id, ev.name, none, c.final, PropertyOperation.DELETED, p⟩
          (c :: rest) with
      | error e =>
        rw [hrec] at h
        simp [Except.map] at h
      | ok rr =>
        rw [hrec] at h
        simp only [Except.map] at h
        cases h
        exact getPropertyHistory_storeProp_other am p rr.1 prop hne

theorem recordChange_two (ev : EvRef) (pc : PropChange) (a b : AMPropChange)
    (r : List AMPropChange × Option EvPropChange)
    (h : AgentManager.recordChange false ev pc [a, b] = .ok r) :
    r.1 = [pcForAgentManager pc, b] := by
  unfold AgentManager.recordChange at h
  simp only [Bool.false_eq_true, if_false] at h
  rw [if_neg (by simp)] at h
  rw [if_pos (by simp)] at h
  cases h
  rfl

theorem setProperty_two_entries (static : StaticReg) (ev : EvRef)
    (am : AgentManager) (prop : String) (v : Option RVal) (a b : AMPropChange)
    (r : AgentManager × Option EvPropChange)
    (hH : am.getPropertyHistory prop = [a, b])
    (h : AgentManager.setProperty static false ev am prop v = .ok r) :
    r.1.getPropertyHistory prop = [a, b] ∨
      ∃ pc, r.1.getPropertyHistory prop = [pc, b] := by
  have hcon : prop ≠ "constructor" := by
    intro he
    rw [he, getPropertyHistory_constructor] at hH
    cases hH
  unfold AgentManager.setProperty at h
  rw [hH] at h
  simp only at h
  by_cases hskip : setSkips a.final v = true
  · rw [if_pos hskip] at h
    cases h
    left
    exact hH
  · rw [if_neg hskip] at h
    cases hrec : AgentManager.recordChange false ev
        ⟨am.id, ev.id, ev.name, v, a.final,
          if am.propertyWasDeleted prop = true then PropertyOperation.ADDED
          else PropertyOperation.MODIFIED, prop⟩ (a :: [b]) with
    | error e =>
      rw [hrec] at h
      simp [Except.map] at h
    | ok rr =>
      rw [hrec] at h
      simp only [Except.map] at h
      cases h
      right
      refine ⟨pcForAgentManager ⟨am.id, ev.id, ev.name, v, a.final,
        if am.propertyWasDeleted prop = true then PropertyOperation.ADDED
        else PropertyOperation.MODIFIED, prop⟩, ?_⟩
      rw [getPropertyHistory_storeProp_self am prop rr.1 hcon]
      exact recordChange_two ev _ a b rr hrec

theorem deleteProperty_two_entries (static : StaticReg) (ev : EvRef)
    (am : AgentManager) (prop : String) (a b : AMPropChange)
    (r : AgentManager × Option EvPropChange)
    (hH : am.getPropertyHistory prop = [a, b])
    (h : AgentManager.deleteProperty static false ev am prop = .ok r) :
    r.1.getPropertyHistory prop = [a, b] ∨
      ∃ pc, r.1.getPropertyHistory prop = [pc, b] := by
  have hcon : prop ≠ "constructor" := by
    intro he
    rw [he, getPropertyHistory_constructor] at hH
    cases hH
  unfold AgentManager.deleteProperty at h
  by_cases hdel : am.propertyWasDeleted prop = true
  · rw [if_pos hdel] at h
    cases h
    left
    exact hH
  · rw [Bool.not_eq_true] at hdel
    simp only [hdel, Bool.false_eq_true, if_false] at h
    rw [hH] at h
    simp only at h
    cases hrec : AgentManager.recordChange false ev
        ⟨am.id, ev.id, ev.name, none, a.final, PropertyOperation.DELETED, prop⟩
        (a :: [b]) with
    | error e =>
      rw [hrec] at h
      simp [Except.map] at h
    | ok rr =>
      rw [hrec] at h
      simp only [Except.map] at h
      cases h
      right
      refine ⟨pcForAgentManager ⟨am.id, ev.id, ev.name, none, a.final,
        PropertyOperation.DELETED, prop⟩, ?_⟩
      rw [getPropertyHistory_storeProp_self am prop rr.1 hcon]
      exact recordChange_two ev _ a b rr hrec

/-! ## C7 — bounded property histories -/

/-- C7: with `trackAgentChanges` disabled, any sequence of set and delete
operations keeps every property history of the manager at two entries or
fewer; and when a property already holds two entries, a further change
replaces the newest entry in place (the oldest entry survives and the
length stays two) rather than prepending. -/
theorem c7_bounded_history :
    (∀ (static : StaticReg) (ops : List (EvRef × AMOp)) (am am1 : AgentManager),
      applyAMOps static false ops am = .ok am1 →
      (∀ p hh, (p, hh) ∈ am.props → hh.length ≤ 2) →
      ∀ p hh, (p, hh) ∈ am1.props → hh.length ≤ 2) ∧
    (∀ (static : StaticReg) (ev : EvRef) (am : AgentManager) (op : AMOp)
      (r : AgentManager × Option EvPropChange) (prop : String) (a b : AMPropChange),
      am.getPropertyHistory prop = [a, b] →
      applyAMOp static false ev am op = .ok r →
      r.1.getPropertyHistory prop = [a, b] ∨
        ∃ pc, r.1.getPropertyHistory prop = [pc, b]) := by
  constructor
  · intro static ops
    induction ops with
    | nil =>
      intro am am1 h hb
      cases h
      exact hb
    | cons q rest ih =>
      intro am am1 h hb
      rw [applyAMOps, List.foldlM_cons] at h
      cases hop : applyAMOp static false q.1 am q.2 with
      | error e =>
        rw [hop] at h
        simp [Except.map, bind, Except.bind] at h
      | ok rr =>
        rw [hop] at h
        simp only [Except.map, bind, Except.bind] at h
        have hb2 : ∀ p hh, (p, hh) ∈ rr.1.props → hh.length ≤ 2 := by
          cases hq : q.2 with
          | setP pr v =>
            rw [hq] at hop
            exact setProperty_bounded_preserve static q.1 am pr v rr hop hb
          | delP pr =>
            rw [hq] at hop
            exact deleteProperty_bounded_preserve static q.1 am pr rr hop hb
        exact ih rr.1 am1 h hb2
  · intro static ev am op r prop a b hH hop
    cases op with
    | setP pr v =>
      by_cases hpr : prop = pr
      · subst hpr
        exact setProperty_two_entries static ev am prop v a b r hH hop
      · left
        rw [setProperty_other_prop static false ev am pr v r prop hpr hop]
        exact hH
    | delP pr =>
      by_cases hpr : prop = pr
      · subst hpr
        exact deleteProperty_two_entries static ev am prop a b r hH hop
      · left
        rw [deleteProperty_other_prop static false ev am pr r prop hpr hop]
        exact hH

/-- Concrete two-entry manager for the C7 witness. -/
def c7am : AgentManager :=
  ⟨1, [("k", [⟨1, "E", some (.num 2), some (.num 1), .MODIFIED⟩,
              ⟨0, "DEFAULT", some (.num 1), none, .ADDED⟩])]⟩

/-- C7 witness: a third change against a two-entry history keeps the
bound and replaces the newest entry in place. -/
theorem c7_bounded_history_witness :
    (∃ am1, applyAMOps [] false [(⟨2, "F"⟩, .setP "k" (some (.num 9)))] c7am = .ok am1 ∧
      (∀ p hh, (p, hh) ∈ am1.props → hh.length ≤ 2)) ∧
    (∃ r, applyAMOp [] false ⟨2, "F"⟩ c7am (.setP "k" (some (.num 9))) = .ok r ∧
      (r.1.getPropertyHistory "k" =
          [⟨1, "E", some (.num 2), some (.num 1), .MODIFIED⟩,
           ⟨0, "DEFAULT", some (.num 1), none, .ADDED⟩] ∨
        ∃ pc, r.1.getPropertyHistory "k" =
          [pc, ⟨0, "DEFAULT", some (.num 1), none, .ADDED⟩])) := by
  have hb : ∀ p hh, (p, hh) ∈ c7am.props → hh.length ≤ 2 := by
    intro p hh hm
    simp only [c7am, List.mem_singleton] at hm
    cases hm
    decide
  have hH : c7am.getPropertyHistory "k" =
      [⟨1, "E", some (.num 2), some (.num 1), .MODIFIED⟩,
       ⟨0, "DEFAULT", some (.num 1), none, .ADDED⟩] := by decide
  have hop : applyAMOps [] false [(⟨2, "F"⟩, .setP "k" (some (.num 9)))] c7am =
      .ok ⟨1, [("k", [⟨2, "F", some (.num 9), some (.num 2), .MODIFIED⟩,
                      ⟨0, "DEFAULT", some (.num 1), none, .ADDED⟩])]⟩ := by rfl
  have hop1 : applyAMOp [] false ⟨2, "F"⟩ c7am (.setP "k" (some (.num 9))) =
      .ok (⟨1, [("k", [⟨2, "F", some (.num 9), some (.num 2), .MODIFIED⟩,
                       ⟨0, "DEFAULT", some (.num 1), none, .ADDED⟩])]⟩, none) := by rfl
  exact ⟨⟨_, hop, c7_bounded_history.1 [] _ c7am _ hop hb⟩,
    ⟨_, hop1, c7_bounded_history.2 [] ⟨2, "F"⟩ c7am _ _ "k" _ _ hH hop1⟩⟩

end Regal

namespace Regal

/-! ## C6 — deleted properties: reads and re-adds -/

theorem lookup_mgrInsert_self (l : List (Nat × AgentManager)) (id : Nat)
    (am : AgentManager) : (mgrInsert l id am).lookup id = some am := by
  induction l with
  | nil => simp [mgrInsert, List.lookup]
  | cons p rest ih =>
    obtain ⟨k, m⟩ := p
    by_cases h1 : id < k
    · simp [mgrInsert, if_pos h1, List.lookup]
    · by_cases h2 : id = k
      · subst h2
        simp [mgrInsert, if_neg h1, List.lookup]
      · have h3 : (id == k) = false := by simp [h2]
        simp [mgrInsert, if_neg h1, if_neg h2, List.lookup, h3, ih]

theorem staticGetAgentProperty_none (static : StaticReg) (id : Nat) (prop : String)
    (h : staticHasAgentProperty static id prop = false) :
    staticGetAgentProperty static id prop = none := by
  unfold staticHasAgentProperty at h
  unfold staticGetAgentProperty
  cases hl : static.lookup id with
  | none => simp [hl]
  | some props =>
    rw [hl] at h
    simp only at h
    cases hlp : props.lookup prop with
    | none => simp [hl, hlp]
    | some w =>
      rw [hlp] at h
      simp at h

theorem recordChange_head (track : Bool) (ev : EvRef) (pc : PropChange)
    (history : List AMPropChange) (r : List AMPropChange × Option EvPropChange)
    (h : AgentManager.recordChange track ev pc history = .ok r) :
    ∃ rest, r.1 = pcForAgentManager pc :: rest := by
  unfold AgentManager.recordChange at h
  cases track with
  | true =>
    rw [if_pos rfl] at h
    cases h
    exact ⟨history, rfl⟩
  | false =>
    simp only [Bool.false_eq_true, if_false] at h
    by_cases hlen : history.length > 2
    · rw [if_pos hlen] at h
      exact Except.noConfusion h
    · rw [if_neg hlen] at h
      cases history with
      | nil =>
        cases h
        exact ⟨[], rfl⟩
      | cons c1 rest =>
        simp only at h
        by_cases hcond : rest.length = 1 ∨
            (rest.length = 0 ∧ (c1.eventId = ev.id ∨ c1.eventId > DEFAULT_EVENT_ID))
        · rw [if_pos hcond] at h
          cases h
          exact ⟨rest, rfl⟩
        · rw [if_neg hcond] at h
          cases h
          exact ⟨c1 :: rest, rfl⟩

theorem getPropertyHistory_nil_record_none (am : AgentManager) (prop : String)
    (hcon : prop ≠ "constructor")
    (hWFne : ∀ p hh, (p, hh) ∈ am.props → hh ≠ [])
    (hH : am.getPropertyHistory prop = []) :
    am.hasPropertyRecord prop = false := by
  cases hr : am.hasPropertyRecord prop
  · rfl
  · exfalso
    unfold AgentManager.getPropertyHistory at hH
    rw [hr] at hH
    simp only [eq_self_iff_true, if_true] at hH
    unfold AgentManager.hasPropertyRecord at hr
    rw [if_neg hcon] at hr
    cases hl : am.props.lookup prop with
    | none =>
      rw [hl] at hr
      simp at hr
    | some hh =>
      rw [hl] at hH
      simp only [Option.getD_some] at hH
      subst hH
      exact hWFne prop [] (lookup_mem _ _ _ hl) rfl

theorem hasPropertyRecord_of_wasDeleted (am : AgentManager) (prop : String)
    (h : am.propertyWasDeleted prop = true) : am.hasPropertyRecord prop = true := by
  cases hr : am.hasPropertyRecord prop
  · exfalso
    have hH : am.getPropertyHistory prop = [] := by
      unfold AgentManager.getPropertyHistory
      rw [hr]
      simp
    unfold AgentManager.propertyWasDeleted at h
    rw [hH] at h
    simp at h
  · rfl

theorem deleteProperty_post (static : StaticReg) (track : Bool) (ev : EvRef)
    (am : AgentManager) (prop : String) (r : AgentManager × Option EvPropChange)
    (hcon : prop ≠ "constructor")
    (hWFne : ∀ p hh, (p, hh) ∈ am.props → hh ≠ [])
    (hWFdel : ∀ c rest, am.getPropertyHistory prop = c :: rest →
      c.op = PropertyOperation.DELETED → c.final = none)
    (hdel : am.deleteProperty static track ev prop = .ok r) :
    r.1.id = am.id ∧
    ((r.1.hasPropertyRecord prop = false ∧
        staticHasAgentProperty static am.id prop = false) ∨
      (r.1.propertyWasDeleted prop = true ∧ r.1.getProperty prop = none)) := by
  unfold AgentManager.deleteProperty at hdel
  by_cases hwd : am.propertyWasDeleted prop = true
  · rw [if_pos hwd] at hdel
    cases hdel
    refine ⟨rfl, .inr ⟨hwd, ?_⟩⟩
    cases hH : am.getPropertyHistory prop with
    | nil =>
      exfalso
      unfold AgentManager.propertyWasDeleted at hwd
      rw [hH] at hwd
      simp at hwd
    | cons c rest =>
      have hop : c.op = PropertyOperation.DELETED := by
        unfold AgentManager.propertyWasDeleted at hwd
        rw [hH] at hwd
        simpa using hwd
      unfold AgentManager.getProperty
      rw [hH]
      exact hWFdel c rest hH hop
  · rw [if_neg hwd] at hdel
    cases hH : am.getPropertyHistory prop with
    | nil =>
      rw [hH] at hdel
      simp only at hdel
      by_cases hstat : staticHasAgentProperty static am.id prop = true
      · simp only [hstat, eq_self_iff_true, if_true] at hdel
        cases hrec : AgentManager.recordChange track ev
            ⟨am.id, ev.id, ev.name, none, staticGetAgentProperty static am.id prop,
              PropertyOperation.DELETED, prop⟩ [] with
        | error e =>
          rw [hrec] at hdel
          simp [Except.map] at hdel
        | ok rr =>
          rw [hrec] at hdel
          simp only [Except.map] at hdel
          cases hdel
          obtain ⟨rest2, hhead⟩ := recordChange_head track ev _ [] rr hrec
          have hGH := getPropertyHistory_storeProp_self (am.storeProp prop []) prop rr.1 hcon
          refine ⟨rfl, .inr ⟨?_, ?_⟩⟩
          · unfold AgentManager.propertyWasDeleted
            rw [hGH, hhead]
            simp [pcForAgentManager]
          · unfold AgentManager.getProperty
            rw [hGH, hhead]
            simp [pcForAgentManager]
      · rw [Bool.not_eq_true] at hstat
        simp only [hstat, Bool.false_eq_true, if_false] at hdel
        cases hdel
        exact ⟨rfl, .inl ⟨getPropertyHistory_nil_record_none am prop hcon hWFne hH, hstat⟩⟩
    | cons c rest =>
      rw [hH] at hdel
      simp only at hdel
      cases hrec : AgentManager.recordChange track ev
          ⟨am.id, ev.id, ev.name, none, c.final, PropertyOperation.DELETED, prop⟩
          (c :: rest) with
      | error e =>
        rw [hrec] at hdel
        simp [Except.map] at hdel
      | ok rr =>
        rw [hrec] at hdel
        simp only [Except.map] at hdel
        cases hdel
        obtain ⟨rest2, hhead⟩ := recordChange_head track ev _ _ rr hrec
        have hGH := getPropertyHistory_storeProp_self am prop rr.1 hcon
        refine ⟨rfl, .inr ⟨?_, ?_⟩⟩
        · unfold AgentManager.propertyWasDeleted
          rw [hGH, hhead]
          simp [pcForAgentManager]
        · unfold AgentManager.getProperty
          rw [hGH, hhead]
          simp [pcForAgentManager]

theorem setProperty_after_delete (static : StaticReg) (track : Bool) (ev : EvRef)
    (am : AgentManager) (prop : String) (v : RVal)
    (r : AgentManager × Option EvPropChange)
    (hcon : prop ≠ "constructor")
    (hpost : (am.hasPropertyRecord prop = false ∧
        staticHasAgentProperty static am.id prop = false) ∨
      (am.propertyWasDeleted prop = true ∧ am.getProperty prop = none))
    (hset : am.setProperty static track ev prop (some v) = .ok r) :
    ∃ rest, r.1.getPropertyHistory prop =
      (⟨ev.id, ev.name, some v, none, PropertyOperation.ADDED⟩ : AMPropChange) :: rest := by
  unfold AgentManager.setProperty at hset
  cases hH : am.getPropertyHistory prop with
  | nil =>
    rw [hH] at hset
    simp only at hset
    have hstat : staticHasAgentProperty static am.id prop = false := by
      rcases hpost with ⟨_, h2⟩ | ⟨h1, _⟩
      · exact h2
      · exfalso
        unfold AgentManager.propertyWasDeleted at h1
        rw [hH] at h1
        simp at h1
    simp only [hstat, Bool.false_eq_true, if_false] at hset
    have hjs : jsStrictEq none (some v) = false := by cases v <;> rfl
    have hskip : setSkips none (some v) = false := by cases v <;> rfl
    rw [hjs, hskip] at hset
    simp only [Bool.false_eq_true, if_false] at hset
    cases hrec : AgentManager.recordChange track ev
        ⟨am.id, ev.id, ev.name, some v, none, PropertyOperation.ADDED, prop⟩ [] with
    | error e =>
      rw [hrec] at hset
      simp [Except.map] at hset
    | ok rr =>
      rw [hrec] at hset
      simp only [Except.map] at hset
      cases hset
      obtain ⟨rest2, hhead⟩ := recordChange_head track ev _ [] rr hrec
      refine ⟨rest2, ?_⟩
      rw [getPropertyHistory_storeProp_self _ prop rr.1 hcon, hhead]
      rfl
  | cons c rest =>
    rw [hH] at hset
    simp only at hset
    have hwd : am.propertyWasDeleted prop = true := by
      rcases hpost with ⟨h1, _⟩ | ⟨h1, _⟩
      · exfalso
        unfold AgentManager.getPropertyHistory at hH
        rw [h1] at hH
        simp only [Bool.false_eq_true, if_false] at hH
        exact List.noConfusion hH
      · exact h1
    have hfin : c.final = none := by
      rcases hpost with ⟨h1, _⟩ | ⟨_, h2⟩
      · exfalso
        unfold AgentManager.getPropertyHistory at hH
        rw [h1] at hH
        simp only [Bool.false_eq_true, if_false] at hH
        exact List.noConfusion hH
      · unfold AgentManager.getProperty at h2
        rw [hH] at h2
        simp only at h2
        exact h2
    rw [hfin] at hset
    simp only [hwd, eq_self_iff_true, if_true] at hset
    have hskip : setSkips none (some v) = false := by cases v <;> rfl
    rw [hskip] at hset
    simp only [Bool.false_eq_true, if_false] at hset
    cases hrec : AgentManager.recordChange track ev
        ⟨am.id, ev.id, ev.name, some v, none, PropertyOperation.ADDED, prop⟩
        (c :: rest) with
    | error e =>
      rw [hrec] at hset
      simp [Except.map] at hset
    | ok rr =>
      rw [hrec] at hset
      simp only [Except.map] at hset
      cases hset
      obtain ⟨rest2, hhead⟩ := recordChange_head track ev _ _ rr hrec
      refine ⟨rest2, ?_⟩
      rw [getPropertyHistory_storeProp_self _ prop rr.1 hcon, hhead]
      rfl

end Regal

namespace Regal

theorem deleteAgentProperty_post_core (static : StaticReg) (track track2 : Bool)
    (ev ev2 : EvRef) (nid : Nat) (mgrs : List (Nat × AgentManager))
    (id : Nat) (prop : String) (v : RVal) (am : AgentManager)
    (r r2 : InstanceAgents × Option EvPropChange)
    (hcon : prop ≠ "constructor") (hid : prop ≠ "id") (hgame : prop ≠ "game")
    (ham : am.id = id)
    (hne : ∀ p hh, (p, hh) ∈ am.props → hh ≠ [])
    (hdw : ∀ c rest, am.getPropertyHistory prop = c :: rest →
      c.op = PropertyOperation.DELETED → c.final = none)
    (hdel : (am.deleteProperty static track ev prop).map
      (fun rr => ((⟨nid, mgrInsert mgrs id rr.1⟩ : InstanceAgents), rr.2)) = .ok r) :
    InstanceAgents.hasAgentProperty static r.1 id prop = .ok false ∧
    InstanceAgents.getAgentProperty static r.1 id prop = .ok none ∧
    (InstanceAgents.setAgentProperty static track2 ev2 r.1 id prop (some v) = .ok r2 →
      ∃ am2 rest, r2.1.getAgentManager id = some am2 ∧
        am2.getPropertyHistory prop =
          (⟨ev2.id, ev2.name, some v, none, PropertyOperation.ADDED⟩ : AMPropChange) :: rest) := by
  cases hrec : am.deleteProperty static track ev prop with
  | error e =>
    rw [hrec] at hdel
    simp [Except.map] at hdel
  | ok rr =>
    rw [hrec] at hdel
    simp only [Except.map] at hdel
    cases hdel
    obtain ⟨hid1, hpost⟩ := deleteProperty_post static track ev am prop rr hcon hne hdw hrec
    have hm2 : InstanceAgents.getAgentManager ⟨nid, mgrInsert mgrs id rr.1⟩ id = some rr.1 :=
      lookup_mgrInsert_self mgrs id rr.1
    refine ⟨?_, ?_, ?_⟩
    · unfold InstanceAgents.hasAgentProperty
      simp only [hm2]
      rw [if_neg hid]
      rcases hpost with ⟨hr0, hs0⟩ | ⟨hwd0, _⟩
      · rw [ham] at hs0
        simp [hr0, hs0]
      · simp [hwd0]
    · unfold InstanceAgents.getAgentProperty
      simp only [hm2]
      rw [if_neg hid]
      rcases hpost with ⟨hr0, hs0⟩ | ⟨hwd0, hg0⟩
      · rw [ham] at hs0
        rw [hr0]
        simp only [Bool.false_eq_true, if_false]
        by_cases hsa : staticHasAgent static id = true
        · simp only [hsa, eq_self_iff_true, if_true]
          rw [staticGetAgentProperty_none static id prop hs0]
        · rw [Bool.not_eq_true] at hsa
          simp only [hsa, Bool.false_eq_true, if_false]
      · rw [hasPropertyRecord_of_wasDeleted rr.1 prop hwd0]
        simp only [eq_self_iff_true, if_true]
        rw [hg0]
    · intro hset
      unfold InstanceAgents.setAgentProperty at hset
      rw [if_neg (not_or.mpr ⟨hid, hgame⟩)] at hset
      simp only [hm2] at hset
      simp only [bind, Except.bind] at hset
      cases hrec2 : AgentManager.setProperty static track2 ev2 rr.1 prop (some v) with
      | error e =>
        rw [hrec2] at hset
        simp [Except.map] at hset
      | ok ss =>
        rw [hrec2] at hset
        simp only [Except.map] at hset
        cases hset
        rw [← hid1] at hpost
        obtain ⟨rest3, hhist⟩ :=
          setProperty_after_delete static track2 ev2 rr.1 prop v ss hcon hpost hrec2
        exact ⟨ss.1, rest3, lookup_mgrInsert_self _ id ss.1, hhist⟩

set_option maxHeartbeats 1000000 in
/-- C6 (corrected): for a property key other than the special key
`"constructor"` (and other than the guarded keys `"id"`/`"game"`), once
`deleteAgentProperty` succeeds the property reads as absent —
`hasAgentProperty` answers `false` and `getAgentProperty` answers
`undefined` — and a subsequent successful `setAgentProperty` with a
defined value records its change with operation `ADDED`, never
`MODIFIED`.  The well-formedness hypotheses state engine invariants:
a stored manager carries its own id, stored histories are non-empty,
and a `DELETED` history head carries no final value. -/
theorem c6_deleted_reads_absent_readd_added
    (static : StaticReg) (track track2 : Bool) (ev ev2 : EvRef)
    (ags : InstanceAgents) (id : Nat) (prop : String) (v : RVal)
    (r r2 : InstanceAgents × Option EvPropChange)
    (hcon : prop ≠ "constructor") (hid : prop ≠ "id") (hgame : prop ≠ "game")
    (hWF : ∀ am, ags.getAgentManager id = some am →
      am.id = id ∧
      (∀ p hh, (p, hh) ∈ am.props → hh ≠ []) ∧
      (∀ c rest, am.getPropertyHistory prop = c :: rest →
        c.op = PropertyOperation.DELETED → c.final = none))
    (hdel : InstanceAgents.deleteAgentProperty static track ev ags id prop = .ok r) :
    InstanceAgents.hasAgentProperty static r.1 id prop = .ok false ∧
    InstanceAgents.getAgentProperty static r.1 id prop = .ok none ∧
    (InstanceAgents.setAgentProperty static track2 ev2 r.1 id prop (some v) = .ok r2 →
      ∃ am2 rest, r2.1.getAgentManager id = some am2 ∧
        am2.getPropertyHistory prop =
          (⟨ev2.id, ev2.name, some v, none, PropertyOperation.ADDED⟩ : AMPropChange) :: rest) := by
  unfold InstanceAgents.deleteAgentProperty at hdel
  rw [if_neg (not_or.mpr ⟨hid, hgame⟩)] at hdel
  cases hm : ags.getAgentManager id with
  | some am =>
    rw [hm] at hdel
    simp only [bind, Except.bind] at hdel
    obtain ⟨ham, hne, hdw⟩ := hWF am hm
    exact deleteAgentProperty_post_core static track track2 ev ev2 ags.nextId ags.managers
      id prop v am r r2 hcon hid hgame ham hne hdw hdel
  | none =>
    rw [hm] at hdel
    by_cases hsa : staticHasAgent static id = true
    · rw [if_neg (not_not_intro hsa)] at hdel
      simp only [bind, Except.bind] at hdel
      refine deleteAgentProperty_post_core static track track2 ev ev2 ags.nextId ags.managers
        id prop v ⟨id, []⟩ r r2 hcon hid hgame rfl ?_ ?_ hdel
      · intro p hh hmem
        simp at hmem
      · intro c rest hcc
        exfalso
        have hni : AgentManager.getPropertyHistory ⟨id, []⟩ prop = [] := by
          unfold AgentManager.getPropertyHistory AgentManager.hasPropertyRecord
          simp [List.lookup]
        rw [hni] at hcc
        exact List.noConfusion hcc
    · rw [if_pos hsa] at hdel
      simp only [bind, Except.bind] at hdel
      exact Except.noConfusion hdel

end Regal

namespace Regal

/-- Static registry for the C6 counterexample: agent 1 owns a property
literally named `"constructor"` (a name a game author may use). -/
def c6Static : StaticReg := [(1, [("constructor", RVal.num 5)])]

/-- The overlay before the delete: only the reserved state agent exists. -/
def c6Ags : InstanceAgents := ⟨2, [(0, ⟨0, []⟩)]⟩

/-- The overlay after deleting agent 1's `"constructor"` property: the
`DELETED` change is recorded, yet reads ignore it. -/
def c6AgsAfter : InstanceAgents :=
  ⟨2, [(0, ⟨0, []⟩),
       (1, ⟨1, [("constructor",
         [⟨0, "DEFAULT", none, some (RVal.num 5), PropertyOperation.DELETED⟩])]⟩)]⟩

/-- C6 counterexample: deleting the property named `"constructor"`
succeeds and records a `DELETED` change, yet afterwards
`hasAgentProperty` still answers `true` and `getAgentProperty` still
returns the static value — the read does not behave as if the property
were absent, because `hasPropertyRecord` special-cases the key
`"constructor"` to `false` and so never sees the recorded deletion. -/
theorem c6_constructor_key_counterexample :
    InstanceAgents.deleteAgentProperty c6Static false defaultEvRef c6Ags 1 "constructor" =
      .ok (c6AgsAfter, none) ∧
    InstanceAgents.hasAgentProperty c6Static c6AgsAfter 1 "constructor" = .ok true ∧
    InstanceAgents.getAgentProperty c6Static c6AgsAfter 1 "constructor" =
      .ok (some (RVal.num 5)) := ⟨rfl, rfl, rfl⟩

/-- The overlay for the C6 witness: the state agent holds `"k" = 3`,
added by event 1. -/
def c6ags0 : InstanceAgents :=
  ⟨1, [(0, ⟨0, [("k", [⟨1, "E", some (RVal.num 3), none, PropertyOperation.ADDED⟩])]⟩)]⟩

/-- `c6ags0` after event 2 deletes `"k"`. -/
def c6ags1 : InstanceAgents :=
  ⟨1, [(0, ⟨0, [("k", [⟨2, "D", none, some (RVal.num 3), PropertyOperation.DELETED⟩])]⟩)]⟩

/-- `c6ags1` after event 3 re-sets `"k" := 7`. -/
def c6ags2 : InstanceAgents :=
  ⟨1, [(0, ⟨0, [("k", [⟨3, "S", some (RVal.num 7), none, PropertyOperation.ADDED⟩])]⟩)]⟩

/-- C6 witness: on a concrete instance, deleting `"k"`, reading it back
and re-setting it exercises every hypothesis of the theorem. -/
theorem c6_deleted_reads_absent_readd_added_witness :
    InstanceAgents.hasAgentProperty [] c6ags1 0 "k" = .ok false ∧
    InstanceAgents.getAgentProperty [] c6ags1 0 "k" = .ok none ∧
    (∃ am2 rest, InstanceAgents.getAgentManager c6ags2 0 = some am2 ∧
      am2.getPropertyHistory "k" =
        (⟨3, "S", some (RVal.num 7), none, PropertyOperation.ADDED⟩ : AMPropChange) :: rest) := by
  have h := c6_deleted_reads_absent_readd_added [] false false ⟨2, "D"⟩ ⟨3, "S"⟩
      c6ags0 0 "k" (RVal.num 7) (c6ags1, none) (c6ags2, none)
      (by decide) (by decide) (by decide)
      (fun am ham => by
        have h0 : c6ags0.getAgentManager 0 =
            some ⟨0, [("k", [⟨1, "E", some (RVal.num 3), none, PropertyOperation.ADDED⟩])]⟩ := rfl
        rw [h0] at ham
        cases ham
        refine ⟨rfl, ?_, ?_⟩
        · intro p hh hmem
          simp only [List.mem_singleton, Prod.mk.injEq] at hmem
          rw [hmem.2]
          simp
        · intro c rest hcc hop
          have he : ([⟨1, "E", some (RVal.num 3), none, PropertyOperation.ADDED⟩] :
              List AMPropChange) = c :: rest := hcc
          cases he
          exact absurd hop (by decide))
      (by rfl)
  exact ⟨h.1, h.2.1, h.2.2 (by rfl)⟩

end Regal

namespace Regal

/-! ## C3 — uniform failure responses at the API boundary -/

theorem buildLogResponse_shape (r : Except String GameInst) :
    (∃ g, (buildLogResponse r).inst = some g ∧
      (buildLogResponse r).output.wasSuccessful = true ∧
      (buildLogResponse r).output.error = none) ∨
    ((buildLogResponse r).inst = none ∧
      (buildLogResponse r).output.wasSuccessful = false ∧
      ∃ e, (buildLogResponse r).output.error = some e) := by
  cases r with
  | error e => exact .inr ⟨rfl, rfl, e, rfl⟩
  | ok g => exact .inl ⟨g, rfl, rfl, rfl⟩

theorem apiSimpleResponse_shape (body : Except String GameInst) :
    (∃ g, (apiSimpleResponse body).inst = some g ∧
      (apiSimpleResponse body).output.wasSuccessful = true ∧
      (apiSimpleResponse body).output.error = none) ∨
    ((apiSimpleResponse body).inst = none ∧
      (apiSimpleResponse body).output.wasSuccessful = false ∧
      ∃ e, (apiSimpleResponse body).output.error = some e) := by
  cases body with
  | error e =>
    exact .inr ⟨rfl, rfl, wrapApiErrorAsRegalError e, rfl⟩
  | ok g => exact .inl ⟨g, rfl, rfl, rfl⟩

theorem apiTurnResponse_shape (body : Option (Except String GameInst))
    (resp : GameResponse) (h : apiTurnResponse body = some resp) :
    (∃ g, resp.inst = some g ∧
      resp.output.wasSuccessful = true ∧ resp.output.error = none) ∨
    (resp.inst = none ∧ resp.output.wasSuccessful = false ∧
      ∃ e, resp.output.error = some e) := by
  cases body with
  | none => exact Option.noConfusion h
  | some rb =>
    have h2 : some (buildLogResponse (rb.mapError wrapApiErrorAsRegalError)) = some resp := h
    cases h2
    exact buildLogResponse_shape _

/-- C3: each of the four orchestration entry points returns a uniform
response: on success an instance is bound, `wasSuccessful` is `true` and
`error` is empty; on any failure no instance is bound, `wasSuccessful`
is `false` and `error` carries the (Regal-wrapped) message.  Every
failure of the body is an `Except.error` value absorbed by the response
builders, so no error escapes the entry point; the caller's prior
instance is a pure value the entry points only read, never rebind. -/
theorem c3_api_failures_uniform :
    (∀ api inst command fuel entropy resp,
      postPlayerCommand api inst command fuel entropy = some resp →
      (∃ g, resp.inst = some g ∧
        resp.output.wasSuccessful = true ∧ resp.output.error = none) ∨
      (resp.inst = none ∧ resp.output.wasSuccessful = false ∧
        ∃ e, resp.output.error = some e)) ∧
    (∀ api options fuel entropy resp,
      postStartCommand api options fuel entropy = some resp →
      (∃ g, resp.inst = some g ∧
        resp.output.wasSuccessful = true ∧ resp.output.error = none) ∨
      (resp.inst = none ∧ resp.output.wasSuccessful = false ∧
        ∃ e, resp.output.error = some e)) ∧
    (∀ api inst entropy,
      (∃ g, (postUndoCommand api inst entropy).inst = some g ∧
        (postUndoCommand api inst entropy).output.wasSuccessful = true ∧
        (postUndoCommand api inst entropy).output.error = none) ∨
      ((postUndoCommand api inst entropy).inst = none ∧
        (postUndoCommand api inst entropy).output.wasSuccessful = false ∧
        ∃ e, (postUndoCommand api inst entropy).output.error = some e)) ∧
    (∀ api inst options entropy,
      (∃ g, (postOptionCommand api inst options entropy).inst = some g ∧
        (postOptionCommand api inst options entropy).output.wasSuccessful = true ∧
        (postOptionCommand api inst options entropy).output.error = none) ∨
      ((postOptionCommand api inst options entropy).inst = none ∧
        (postOptionCommand api inst options entropy).output.wasSuccessful = false ∧
        ∃ e, (postOptionCommand api inst options entropy).output.error = some e)) := by
  refine ⟨?_, ?_, ?_, ?_⟩
  · intro api inst command fuel entropy resp h
    exact apiTurnResponse_shape _ resp h
  · intro api options fuel entropy resp h
    exact apiTurnResponse_shape _ resp h
  · intro api inst entropy
    exact apiSimpleResponse_shape _
  · intro api inst options entropy
    exact apiSimpleResponse_shape _

/-- An uninitialized API context for the C3 witness. -/
def c3api : ApiState := ⟨false, false, [], [], none, none, fun _ => true⟩

/-- C3 witness: on a concrete uninitialized context the player-command
and undo entry points both return the uniform failure shape. -/
theorem c3_api_failures_uniform_witness :
    ((∃ g, (⟨none, ⟨false, some NOT_INITIALIZED_MSG, none⟩⟩ : GameResponse).inst = some g ∧
        (⟨none, ⟨false, some NOT_INITIALIZED_MSG, none⟩⟩ : GameResponse).output.wasSuccessful = true ∧
        (⟨none, ⟨false, some NOT_INITIALIZED_MSG, none⟩⟩ : GameResponse).output.error = none) ∨
      ((⟨none, ⟨false, some NOT_INITIALIZED_MSG, none⟩⟩ : GameResponse).inst = none ∧
        (⟨none, ⟨false, some NOT_INITIALIZED_MSG, none⟩⟩ : GameResponse).output.wasSuccessful = false ∧
        ∃ e, (⟨none, ⟨false, some NOT_INITIALIZED_MSG, none⟩⟩ : GameResponse).output.error = some e)) ∧
    ((∃ g, (postUndoCommand c3api none 0).inst = some g ∧
        (postUndoCommand c3api none 0).output.wasSuccessful = true ∧
        (postUndoCommand c3api none 0).output.error = none) ∨
      ((postUndoCommand c3api none 0).inst = none ∧
        (postUndoCommand c3api none 0).output.wasSuccessful = false ∧
        ∃ e, (postUndoCommand c3api none 0).output.error = some e)) :=
  ⟨c3_api_failures_uniform.1 c3api none none 0 0
      ⟨none, ⟨false, some NOT_INITIALIZED_MSG, none⟩⟩ (by rfl),
    c3_api_failures_uniform.2.2.1 c3api none 0⟩

end Regal

namespace Regal

/-! ## C1 — chain execution order and full drain -/

/-- A leaf effect: its target always succeeds, returns no follow-up
queue, and touches the events state only the way the tracked facades
can — mutating the current record at the queue head (appending output
line ids, random records or tracked changes via `updateCurrent`) while
preserving every queued record's identity (id and name), the history
and the id counter.  Output writes, random draws and tracked agent
changes all satisfy this. -/
def LeafEvent (e : BEvent) : Prop :=
  ∀ gi, ∃ go, e.target gi = .ok (go, none) ∧
    go.events.lastEventId = gi.events.lastEventId ∧
    go.events.history = gi.events.history ∧
    go.events.queue.map (fun r => (r.id, r.name)) =
      gi.events.queue.map (fun r => (r.id, r.name))

theorem mapToRecords_append (c : Option Nat) (l1 l2 : List BEvent) : ∀ (i : Nat),
    mapToRecords c i (l1 ++ l2) =
      mapToRecords c i l1 ++ mapToRecords c (i + l1.length) l2 := by
  induction l1 with
  | nil =>
    intro i
    simp [mapToRecords]
  | cons e rest ih =>
    intro i
    simp only [List.cons_append, mapToRecords, List.length_cons, List.append_eq,
      ih (i + 1), List.cons.injEq, true_and]
    have hi : i + 1 + rest.length = i + (rest.length + 1) := by omega
    rw [hi]

theorem mapToRecords_length (c : Option Nat) : ∀ (l : List BEvent) (i : Nat),
    (mapToRecords c i l).length = l.length := by
  intro l
  induction l with
  | nil => intro i; rfl
  | cons e rest ih =>
    intro i
    simp [mapToRecords, ih]

theorem mapToRecords_names (c : Option Nat) : ∀ (l : List BEvent) (i : Nat),
    (mapToRecords c i l).map EvRec.name = l.map BEvent.name := by
  intro l
  induction l with
  | nil => intro i; rfl
  | cons e rest ih =>
    intro i
    simp [mapToRecords, mkEvRec, ih]

theorem execLoop_step (f : Nat) (g g1 : GameInst) (e : BEvent)
    (funcs : List (Option BEvent)) (rec rec2 : EvRec) (rrest rrest2 : List EvRec)
    (hq : g.events.queue = rec :: rrest)
    (htgt : e.target g = .ok (g1, none))
    (hq1 : g1.events.queue = rec2 :: rrest2) :
    execLoop (Nat.succ f) g (some e :: funcs) =
      match rrest2 with
      | [] => some (.ok
          { g1 with events := ⟨g1.events.lastEventId, rrest2, rec2 :: g1.events.history⟩ })
      | _ :: _ =>
        execLoop f
          { g1 with events := ⟨g1.events.lastEventId, rrest2, rec2 :: g1.events.history⟩ }
          funcs := by
  unfold execLoop
  simp only [hq]
  simp only [List.head?_cons]
  have hj : (some (some e)).join = some e := rfl
  rw [hj]
  simp only
  rw [htgt]
  simp only
  simp only [hq1]
  simp only [List.tail_cons]
  cases rrest2 with
  | nil => rfl
  | cons r2 rr =>
    conv_lhs => unfold execLoop

theorem execLoop_leaf_drain : ∀ (evs : List BEvent) (fuel : Nat) (g : GameInst)
    (ps : List (Nat × String)),
    (∀ e ∈ evs, LeafEvent e) →
    fuel ≥ evs.length + 1 →
    g.events.queue.map (fun r => (r.id, r.name)) = ps →
    ps.length = evs.length →
    ∃ g', execLoop fuel g (evs.map some) = some (.ok g') ∧
      g'.events.queue = [] ∧
      g'.events.history.map (fun r => (r.id, r.name)) =
        ps.reverse ++ g.events.history.map (fun r => (r.id, r.name)) := by
  intro evs
  induction evs with
  | nil =>
    intro fuel g ps _ hfuel hq hlen
    have hp : ps = [] := List.length_eq_zero.mp hlen
    subst hp
    have hq0 : g.events.queue = [] := by
      cases hgq : g.events.queue with
      | nil => rfl
      | cons c rest =>
        rw [hgq] at hq
        simp at hq
    cases fuel with
    | zero => omega
    | succ f =>
      refine ⟨g, ?_, hq0, by simp⟩
      unfold execLoop
      simp [hq0]
  | cons e erest ih =>
    intro fuel g ps hleaf hfuel hq hlen
    cases hgq : g.events.queue with
    | nil =>
      rw [hgq] at hq
      simp only [List.map_nil] at hq
      rw [← hq] at hlen
      simp at hlen
    | cons rec rrest =>
      cases fuel with
      | zero => omega
      | succ f =>
        obtain ⟨g1, htgt, hlast, hhist, hqproj⟩ := hleaf e (List.mem_cons_self e erest) g
        rw [hgq] at hqproj
        cases hq1 : g1.events.queue with
        | nil =>
          rw [hq1] at hqproj
          simp at hqproj
        | cons rec2 rrest2 =>
          rw [hq1] at hqproj
          simp only [List.map_cons, List.cons.injEq, Prod.mk.injEq] at hqproj
          obtain ⟨⟨hid2, hname2⟩, htailp⟩ := hqproj
          rw [hgq] at hq
          simp only [List.map_cons] at hq
          have hstep := execLoop_step f g g1 e (erest.map some) rec rec2 rrest rrest2
            hgq htgt hq1
          rw [List.map_cons, hstep]
          cases rrest2 with
          | nil =>
            have htail0 : rrest.map (fun r => (r.id, r.name)) = [] := htailp.symm
            have herest : erest = [] := by
              rw [← hq] at hlen
              simp only [List.length_cons, List.length_map] at hlen
              have h1 : rrest.length = 0 := by
                have h0 := congrArg List.length htail0
                simpa using h0
              have h2 : erest.length = 0 := by omega
              exact List.length_eq_zero.mp h2
            subst herest
            refine ⟨_, rfl, rfl, ?_⟩
            rw [← hq, htail0]
            simp only [List.map_cons, List.reverse_cons, List.reverse_nil, List.nil_append,
              List.singleton_append]
            rw [hhist, hid2, hname2]
          | cons r2 rr =>
            have hlen2 : ((r2 :: rr).map (fun r => (r.id, r.name))).length = erest.length := by
              rw [htailp]
              rw [← hq] at hlen
              simp only [List.length_cons, List.length_map] at hlen ⊢
              omega
            have hfuel2 : f ≥ erest.length + 1 := by
              simp only [List.length_cons, ge_iff_le] at hfuel ⊢
              omega
            obtain ⟨g', hrun, hq', hh'⟩ := ih f
              { g1 with events := ⟨g1.events.lastEventId, r2 :: rr, rec2 :: g1.events.history⟩ }
              ((r2 :: rr).map (fun r => (r.id, r.name)))
              (fun x hx => hleaf x (List.mem_cons_of_mem e hx)) hfuel2 rfl hlen2
            refine ⟨g', hrun, hq', ?_⟩
            rw [hh']
            rw [htailp, ← hq]
            simp only [List.map_cons, List.reverse_cons, List.append_assoc,
              List.singleton_append]
            rw [hhist, hid2, hname2]

end Regal

namespace Regal

theorem addEvent_nocause (g : GameInst) (funcs : List (Option BEvent)) (ev : EvArg) :
    addEvent g funcs ev false =
      ({ g with events :=
          ⟨g.events.lastEventId + ev.parts.1.length + ev.parts.2.length,
           mapToRecords none (g.events.lastEventId + 1) ev.parts.1 ++ g.events.queue ++
             mapToRecords none (g.events.lastEventId + 1 + ev.parts.1.length) ev.parts.2,
           g.events.history⟩ },
       ev.parts.1.map some ++ funcs ++ ev.parts.2.map some) := rfl

set_option maxHeartbeats 1000000 in
/-- C1: a valid `then` chain (every non-final operand's delayed list
empty), invoked at a turn boundary (empty queue) with enough fuel, over
effects that return no follow-up queue — while freely writing output
lines, drawing random values and recording tracked changes, all of
which mutate only the current record at the queue head — composes to
the queue of the operands' immediate lists in order followed by the
final operand's delayed list, and the invocation drains that whole
queue to empty, archiving one record per event: the archived record
identities (id and name, newest first) are exactly the reversal of the
freshly numbered `chainEvents` records — each operand's immediate
events left to right, then the final operand's delayed events — on top
of the prior history, so the effects execute in exactly the claimed
order before the invocation returns. -/
theorem c1_then_chain_execution_order
    (root : EvArg) (args : List EvArg) (g : GameInst) (fuel : Nat)
    (hq : g.events.queue = [])
    (hroot : root.parts.2 = [] ∨ args = [])
    (hmid : ∀ a ∈ args.dropLast, a.parts.2 = [])
    (hleaf : ∀ e ∈ chainEvents root args, LeafEvent e)
    (hfuel : fuel ≥ (chainEvents root args).length + 1) :
    thenChain root args = .ok (chainResult root args) ∧
    ∃ g', invoke fuel g (chainResult root args) = some (.ok g') ∧
      g'.events.queue = [] ∧
      g'.events.history.map (fun r => (r.id, r.name)) =
        ((mapToRecords none (g.events.lastEventId + 1) (chainEvents root args)).map
            (fun r => (r.id, r.name))).reverse ++
          g.events.history.map (fun r => (r.id, r.name)) ∧
      g'.events.history.map EvRec.name =
        ((chainEvents root args).map BEvent.name).reverse ++
          g.events.history.map EvRec.name := by
  have hchain : thenChain root args = .ok (chainResult root args) := by
    rcases hroot with hroot | hroot
    · exact thenChain_ok args root hroot hmid
    · subst hroot
      simp [thenChain, chainResult, pure, Except.pure]
  obtain ⟨g', hrun, hq', hh'⟩ := execLoop_leaf_drain (chainEvents root args) fuel
    { g with events :=
        ⟨g.events.lastEventId + (chainResult root args).parts.1.length +
           (chainResult root args).parts.2.length,
         mapToRecords none (g.events.lastEventId + 1) (chainEvents root args),
         g.events.history⟩ }
    ((mapToRecords none (g.events.lastEventId + 1) (chainEvents root args)).map
      (fun r => (r.id, r.name)))
    hleaf hfuel rfl (by rw [List.length_map, mapToRecords_length])
  refine ⟨hchain, g', ?_, hq', hh', ?_⟩
  · unfold invoke
    rw [hq]
    simp only [List.map_nil]
    rw [addEvent_nocause]
    rw [hq]
    simp only [List.append_nil, ← List.map_append, ← mapToRecords_append]
    exact hrun
  · have h2 := congrArg (List.map Prod.snd) hh'
    simp only [List.map_map, List.map_append, List.map_reverse] at h2
    have hcomp : (Prod.snd ∘ fun r : EvRec => (r.id, r.name)) = EvRec.name := rfl
    rw [hcomp] at h2
    rw [mapToRecords_names] at h2
    exact h2

end Regal

namespace Regal

/-- A fresh instance at a turn boundary for the C1 witness. -/
def c1g : GameInst :=
  ⟨⟨.abool true, false, "S", true, false, []⟩, ⟨0, [], []⟩, ⟨1, [(0, ⟨0, []⟩)]⟩,
    ⟨0, []⟩, ⟨0, 1⟩⟩

theorem updateCurrent_leaf_events (g : GameInst) (f : EvRec → EvRec)
    (hf : ∀ c, (f c).id = c.id ∧ (f c).name = c.name) :
    (g.updateCurrent f).events.lastEventId = g.events.lastEventId ∧
    (g.updateCurrent f).events.history = g.events.history ∧
    (g.updateCurrent f).events.queue.map (fun r => (r.id, r.name)) =
      g.events.queue.map (fun r => (r.id, r.name)) := by
  unfold GameInst.updateCurrent
  cases hgq : g.events.queue with
  | nil =>
    refine ⟨rfl, rfl, ?_⟩
    rw [hgq]
  | cons c rest =>
    refine ⟨rfl, rfl, ?_⟩
    simp only [List.map_cons]
    rw [(hf c).1, (hf c).2]

theorem writeLine_leaf_events (g : GameInst) (line : String) (t : OutputLineType) :
    (g.writeLine line t).events.lastEventId = g.events.lastEventId ∧
    (g.writeLine line t).events.history = g.events.history ∧
    (g.writeLine line t).events.queue.map (fun r => (r.id, r.name)) =
      g.events.queue.map (fun r => (r.id, r.name)) := by
  unfold GameInst.writeLine
  cases hw : writeLineCore g.options.debug g.options.showMinor g.output line t with
  | mk out1 opt =>
    cases opt with
    | none => exact ⟨rfl, rfl, rfl⟩
    | some ol =>
      exact updateCurrent_leaf_events g
        (fun c => { c with output := c.output ++ [ol.id] }) (fun c => ⟨rfl, rfl⟩)

/-- A chain operand that writes an output line — an ordinary tracked
effect, mutating the current event record. -/
def c1outEv : BEvent :=
  .mk "speak" (fun g => .ok (g.writeLine "hi" OutputLineType.NORMAL, none))

theorem c1outEv_leaf : LeafEvent c1outEv := by
  intro gi
  exact ⟨gi.writeLine "hi" OutputLineType.NORMAL, rfl,
    (writeLine_leaf_events gi "hi" OutputLineType.NORMAL).1,
    (writeLine_leaf_events gi "hi" OutputLineType.NORMAL).2.1,
    (writeLine_leaf_events gi "hi" OutputLineType.NORMAL).2.2⟩

theorem noopEv_leaf : LeafEvent noopEv :=
  fun gi => ⟨gi, rfl, rfl, rfl, rfl⟩

/-- C1 witness: a three-operand chain mixing output-writing effects with
no-ops, ending in a delayed event, composes and drains on a concrete
instance in the claimed order. -/
theorem c1_then_chain_execution_order_witness :
    thenChain (.single c1outEv) [.single noopEv, .queue [c1outEv] [noopEv]] =
      .ok (chainResult (.single c1outEv) [.single noopEv, .queue [c1outEv] [noopEv]]) ∧
    ∃ g', invoke 10 c1g
        (chainResult (.single c1outEv) [.single noopEv, .queue [c1outEv] [noopEv]]) =
        some (.ok g') ∧
      g'.events.queue = [] ∧
      g'.events.history.map (fun r => (r.id, r.name)) =
        ((mapToRecords none (c1g.events.lastEventId + 1)
            (chainEvents (.single c1outEv) [.single noopEv, .queue [c1outEv] [noopEv]])).map
            (fun r => (r.id, r.name))).reverse ++
          c1g.events.history.map (fun r => (r.id, r.name)) ∧
      g'.events.history.map EvRec.name =
        ((chainEvents (.single c1outEv) [.single noopEv, .queue [c1outEv] [noopEv]]).map
            BEvent.name).reverse ++
          c1g.events.history.map EvRec.name := by
  refine c1_then_chain_execution_order (.single c1outEv)
      [.single noopEv, .queue [c1outEv] [noopEv]] c1g 10 rfl (Or.inl rfl) ?_ ?_ ?_
  · intro a ha
    simp only [List.dropLast] at ha
    simp only [List.mem_singleton] at ha
    subst ha
    rfl
  · intro e he
    have he2 : e ∈ ([c1outEv, noopEv, c1outEv, noopEv] : List BEvent) := he
    rcases List.mem_cons.mp he2 with h1 | h1
    · subst h1
      exact c1outEv_leaf
    rcases List.mem_cons.mp h1 with h2 | h2
    · subst h2
      exact noopEv_leaf
    rcases List.mem_cons.mp h2 with h3 | h3
    · subst h3
      exact c1outEv_leaf
    rcases List.mem_cons.mp h3 with h4 | h4
    · subst h4
      exact noopEv_leaf
    · simp at h4
  · show 10 ≥ ([c1outEv, noopEv, c1outEv, noopEv] : List BEvent).length + 1
    simp

end Regal

namespace Regal

/-! ## C8 — recycle preserves visible values, empties output -/

theorem lookup_none_iff_not_mem_keys {κ α : Type} [BEq κ] [LawfulBEq κ]
    (l : List (κ × α)) (q : κ) : l.lookup q = none ↔ q ∉ l.map Prod.fst := by
  induction l with
  | nil => simp [List.lookup]
  | cons p rest ih =>
    obtain ⟨a, b⟩ := p
    by_cases hk : q = a
    · subst hk
      simp [List.lookup]
    · have h2 : (q == a) = false := by simp [hk]
      simp [List.lookup, h2, ih, hk]

theorem storeProp_other_lookup (am : AgentManager) (p : String)
    (h : List AMPropChange) (q : String) (hne : q ≠ p) :
    (am.storeProp p h).props.lookup q = am.props.lookup q :=
  lookup_listUpsert_other am.props p q h hne

theorem setProperty_frame (static : StaticReg) (track : Bool) (ev : EvRef)
    (am : AgentManager) (p : String) (v : Option RVal)
    (r : AgentManager × Option EvPropChange)
    (h : AgentManager.setProperty static track ev am p v = .ok r) :
    r.1.id = am.id ∧ ∀ q, q ≠ p → r.1.props.lookup q = am.props.lookup q := by
  unfold AgentManager.setProperty at h
  cases hH : am.getPropertyHistory p with
  | nil =>
    rw [hH] at h
    simp only at h
    by_cases hstat : staticHasAgentProperty static am.id p = true
    · simp only [hstat, eq_self_iff_true, if_true] at h
      by_cases hskip : setSkips (staticGetAgentProperty static am.id p) v = true
      · rw [if_pos hskip] at h
        cases h
        by_cases heq : jsStrictEq (staticGetAgentProperty static am.id p) v = true
        · rw [if_pos heq]
          exact ⟨rfl, fun q _ => rfl⟩
        · rw [if_neg heq]
          exact ⟨rfl, fun q hq => storeProp_other_lookup am p [] q hq⟩
      · rw [if_neg hskip] at h
        cases hrec : AgentManager.recordChange track ev
            ⟨am.id, ev.id, ev.name, v, staticGetAgentProperty static am.id p,
              PropertyOperation.MODIFIED, p⟩ [] with
        | error e =>
          rw [hrec] at h
          simp [Except.map] at h
        | ok rr =>
          rw [hrec] at h
          simp only [Except.map] at h
          cases h
          by_cases heq : jsStrictEq (staticGetAgentProperty static am.id p) v = true
          · rw [if_pos heq]
            exact ⟨rfl, fun q hq => storeProp_other_lookup am p rr.1 q hq⟩
          · rw [if_neg heq]
            refine ⟨rfl, fun q hq => ?_⟩
            rw [storeProp_other_lookup _ p rr.1 q hq,
              storeProp_other_lookup am p [] q hq]
    · rw [Bool.not_eq_true] at hstat
      simp only [hstat, Bool.false_eq_true, if_false] at h
      by_cases hskip : setSkips none v = true
      · rw [if_pos hskip] at h
        cases h
        by_cases heq : jsStrictEq none v = true
        · rw [if_pos heq]
          exact ⟨rfl, fun q _ => rfl⟩
        · rw [if_neg heq]
          exact ⟨rfl, fun q hq => storeProp_other_lookup am p [] q hq⟩
      · rw [if_neg hskip] at h
        cases hrec : AgentManager.recordChange track ev
            ⟨am.id, ev.id, ev.name, v, none, PropertyOperation.ADDED, p⟩ [] with
        | error e =>
          rw [hrec] at h
          simp [Except.map] at h
        | ok rr =>
          rw [hrec] at h
          simp only [Except.map] at h
          cases h
          by_cases heq : jsStrictEq none v = true
          · rw [if_pos heq]
            exact ⟨rfl, fun q hq => storeProp_other_lookup am p rr.1 q hq⟩
          · rw [if_neg heq]
            refine ⟨rfl, fun q hq => ?_⟩
            rw [storeProp_other_lookup _ p rr.1 q hq,
              storeProp_other_lookup am p [] q hq]
  | cons c rest =>
    rw [hH] at h
    simp only at h
    by_cases hskip : setSkips c.final v = true
    · rw [if_pos hskip] at h
      cases h
      exact ⟨rfl, fun q _ => rfl⟩
    · rw [if_neg hskip] at h
      cases hrec : AgentManager.recordChange track ev
          ⟨am.id, ev.id, ev.name, v, c.final,
            if am.propertyWasDeleted p = true then PropertyOperation.ADDED
            else PropertyOperation.MODIFIED, p⟩ (c :: rest) with
      | error e =>
        rw [hrec] at h
        simp [Except.map] at h
      | ok rr =>
        rw [hrec] at h
        simp only [Except.map] at h
        cases h
        exact ⟨rfl, fun q hq => storeProp_other_lookup am p rr.1 q hq⟩

theorem deleteProperty_frame (static : StaticReg) (track : Bool) (ev : EvRef)
    (am : AgentManager) (p : String)
    (r : AgentManager × Option EvPropChange)
    (h : AgentManager.deleteProperty static track ev am p = .ok r) :
    r.1.id = am.id ∧ ∀ q, q ≠ p → r.1.props.lookup q = am.props.lookup q := by
  unfold AgentManager.deleteProperty at h
  by_cases hdel : am.propertyWasDeleted p = true
  · rw [if_pos hdel] at h
    cases h
    exact ⟨rfl, fun q _ => rfl⟩
  · rw [if_neg hdel] at h
    cases hH : am.getPropertyHistory p with
    | nil =>
      rw [hH] at h
      simp only at h
      by_cases hstat : staticHasAgentProperty static am.id p = true
      · simp only [hstat, eq_self_iff_true, if_true] at h
        cases hrec : AgentManager.recordChange track ev
            ⟨am.id, ev.id, ev.name, none, staticGetAgentProperty static am.id p,
              PropertyOperation.DELETED, p⟩ [] with
        | error e =>
          rw [hrec] at h
          simp [Except.map] at h
        | ok rr =>
          rw [hrec] at h
          simp only [Except.map] at h
          cases h
          refine ⟨rfl, fun q hq => ?_⟩
          rw [storeProp_other_lookup _ p rr.1 q hq,
            storeProp_other_lookup am p [] q hq]
      · rw [Bool.not_eq_true] at hstat
        simp only [hstat, Bool.false_eq_true, if_false] at h
        cases h
        exact ⟨rfl, fun q _ => rfl⟩
    | cons c rest =>
      rw [hH] at h
      simp only at h
      cases hrec : AgentManager.recordChange track ev
          ⟨am.id, ev.id, ev.name, none, c.final, PropertyOperation.DELETED, p⟩
          (c :: rest) with
      | error e =>
        rw [hrec] at h
        simp [Except.map] at h
      | ok rr =>
        rw [hrec] at h
        simp only [Except.map] at h
        cases h
        exact ⟨rfl, fun q hq => storeProp_other_lookup am p rr.1 q hq⟩

/-- The static baseline `setProperty` reads for an empty history
(`initValue`). -/
def staticInit (static : StaticReg) (aid : Nat) (prop : String) : Option RVal :=
  if staticHasAgentProperty static aid prop then staticGetAgentProperty static aid prop
  else none

/-- The visible value of a property read against a present manager
(the manager branch of `getAgentProperty`, minus the `id` special case). -/
def managerRead (static : StaticReg) (aid : Nat) (am : AgentManager)
    (prop : String) : Option RVal :=
  if am.hasPropertyRecord prop then am.getProperty prop
  else if staticHasAgent static aid then staticGetAgentProperty static aid prop
  else none

theorem managerRead_congr (static : StaticReg) (aid : Nat) (a b : AgentManager)
    (prop : String) (h : a.props.lookup prop = b.props.lookup prop) :
    managerRead static aid a prop = managerRead static aid b prop := by
  have hr : a.hasPropertyRecord prop = b.hasPropertyRecord prop := by
    unfold AgentManager.hasPropertyRecord
    rw [h]
  have hh : a.getPropertyHistory prop = b.getPropertyHistory prop := by
    unfold AgentManager.getPropertyHistory
    rw [h, hr]
  have hg : a.getProperty prop = b.getProperty prop := by
    unfold AgentManager.getProperty
    rw [hh]
  unfold managerRead
  rw [hr, hg]

theorem managerRead_fallback (static : StaticReg) (aid : Nat) (am : AgentManager)
    (prop : String) (h : am.hasPropertyRecord prop = false) :
    managerRead static aid am prop = staticInit static aid prop := by
  unfold managerRead staticInit
  rw [h]
  simp only [Bool.false_eq_true, if_false]
  by_cases hsa : staticHasAgent static aid = true
  · simp only [hsa, eq_self_iff_true, if_true]
    by_cases hsp : staticHasAgentProperty static aid prop = true
    · rw [if_pos hsp]
    · rw [Bool.not_eq_true] at hsp
      rw [hsp]
      simp only [Bool.false_eq_true, if_false]
      exact staticGetAgentProperty_none static aid prop hsp
  · rw [Bool.not_eq_true] at hsa
    rw [hsa]
    simp only [Bool.false_eq_true, if_false]
    have hsp : staticHasAgentProperty static aid prop = false := by
      unfold staticHasAgent at hsa
      unfold staticHasAgentProperty
      cases hl : static.lookup aid with
      | none => rfl
      | some props =>
        rw [hl] at hsa
        simp at hsa
    rw [hsp]
    simp

theorem jsStrictEq_eq (i v : Option RVal) (h : jsStrictEq i v = true) : i = v := by
  unfold jsStrictEq at h
  match i, v with
  | none, none => rfl
  | some (.num a), some (.num b) =>
    simp only [beq_iff_eq] at h
    rw [h]
  | some (.str a), some (.str b) =>
    simp only [beq_iff_eq] at h
    rw [h]
  | some (.boolv a), some (.boolv b) =>
    simp only [beq_iff_eq] at h
    rw [h]

end Regal

namespace Regal

/-- The agent-reference tie `setSkips` can detect beyond `===`: excluded
by hypothesis.  In the source this situation cannot arise during a
recycle — `initValue` comes from the static registry, which stores raw
agents, never `AgentReference` wrappers, so `isAgentReference(initValue)`
is false there; the value model cannot distinguish the two, hence the
explicit side condition. -/
def noRefTie (static : StaticReg) (aid : Nat) (fam : AgentManager)
    (prop : String) : Prop :=
  setSkips (staticInit static aid prop) (fam.getProperty prop) =
    jsStrictEq (staticInit static aid prop) (fam.getProperty prop)

theorem hasPropertyRecord_constructor (am : AgentManager) :
    am.hasPropertyRecord "constructor" = false := by
  unfold AgentManager.hasPropertyRecord
  simp

theorem propertyWasDeleted_of_lookup_none (am : AgentManager) (prop : String)
    (h : am.props.lookup prop = none) :
    am.propertyWasDeleted prop = false := by
  unfold AgentManager.propertyWasDeleted AgentManager.getPropertyHistory
      AgentManager.hasPropertyRecord
  by_cases hcon : prop = "constructor"
  · rw [if_pos hcon]
    simp
  · rw [if_neg hcon, h]
    simp

theorem getPropertyHistory_of_lookup_none (am : AgentManager) (prop : String)
    (h : am.props.lookup prop = none) :
    am.getPropertyHistory prop = [] := by
  unfold AgentManager.getPropertyHistory AgentManager.hasPropertyRecord
  by_cases hcon : prop = "constructor"
  · rw [if_pos hcon]
    simp
  · rw [if_neg hcon, h]
    simp

theorem hasPropertyRecord_of_lookup_some (am : AgentManager) (prop : String)
    (hcon : prop ≠ "constructor") (h : am.props.lookup prop ≠ none) :
    am.hasPropertyRecord prop = true := by
  unfold AgentManager.hasPropertyRecord
  rw [if_neg hcon]
  cases hl : am.props.lookup prop with
  | none => exact absurd hl h
  | some hh => rfl

theorem recycleMgrStep_constructor_spec (static : StaticReg) (track : Bool)
    (aid : Nat) (fam acc acc1 : AgentManager)
    (h : InstanceAgents.recycleMgrStep static track aid fam acc "constructor" = .ok acc1) :
    acc1.id = acc.id ∧
    ∀ q, q ≠ "constructor" → acc1.props.lookup q = acc.props.lookup q := by
  unfold InstanceAgents.recycleMgrStep at h
  have hdel : fam.propertyWasDeleted "constructor" = false := by
    unfold AgentManager.propertyWasDeleted AgentManager.getPropertyHistory
    rw [hasPropertyRecord_constructor]
    simp
  rw [hdel] at h
  simp only [Bool.false_eq_true, if_false] at h
  cases hset : AgentManager.setProperty static track defaultEvRef acc "constructor"
      (fam.getProperty "constructor") with
  | error e =>
    rw [hset] at h
    simp [Except.map] at h
  | ok rr =>
    rw [hset] at h
    simp only [Except.map] at h
    cases h
    obtain ⟨h1, h2⟩ := setProperty_frame static track defaultEvRef acc "constructor"
      (fam.getProperty "constructor") rr hset
    exact ⟨h1, h2⟩

theorem recycleMgrStep_spec (static : StaticReg) (track : Bool)
    (fam acc acc1 : AgentManager) (prop : String)
    (hcon : prop ≠ "constructor")
    (hnone : acc.props.lookup prop = none)
    (hfamdel : ∀ c rest, fam.getPropertyHistory prop = c :: rest →
      c.op = PropertyOperation.DELETED → c.final = none)
    (hmem : fam.props.lookup prop ≠ none)
    (htie : noRefTie static acc.id fam prop)
    (h : InstanceAgents.recycleMgrStep static track acc.id fam acc prop = .ok acc1) :
    acc1.id = acc.id ∧
    (∀ q, q ≠ prop → acc1.props.lookup q = acc.props.lookup q) ∧
    managerRead static acc.id acc1 prop = managerRead static acc.id fam prop := by
  have hfamrec : fam.hasPropertyRecord prop = true :=
    hasPropertyRecord_of_lookup_some fam prop hcon hmem
  have haccH : acc.getPropertyHistory prop = [] :=
    getPropertyHistory_of_lookup_none acc prop hnone
  have haccdel : acc.propertyWasDeleted prop = false :=
    propertyWasDeleted_of_lookup_none acc prop hnone
  have haccrec : acc.hasPropertyRecord prop = false := by
    unfold AgentManager.hasPropertyRecord
    rw [if_neg hcon, hnone]
    rfl
  unfold InstanceAgents.recycleMgrStep at h
  by_cases hdel : fam.propertyWasDeleted prop = true
  · -- former property deleted
    have hfamread : managerRead static acc.id fam prop = none := by
      unfold managerRead
      rw [hfamrec]
      simp only [eq_self_iff_true, if_true]
      unfold AgentManager.propertyWasDeleted at hdel
      cases hH : fam.getPropertyHistory prop with
      | nil =>
        rw [hH] at hdel
        simp at hdel
      | cons c rest =>
        have hop : c.op = PropertyOperation.DELETED := by
          rw [hH] at hdel
          simpa using hdel
        unfold AgentManager.getProperty
        rw [hH]
        exact hfamdel c rest hH hop
    rw [if_pos hdel] at h
    by_cases hstat : staticHasAgentProperty static acc.id prop = true
    · simp only [hstat, eq_self_iff_true, if_true] at h
      cases hrec : AgentManager.deleteProperty static track defaultEvRef acc prop with
      | error e =>
        rw [hrec] at h
        simp [Except.map] at h
      | ok rr =>
        rw [hrec] at h
        simp only [Except.map] at h
        cases h
        obtain ⟨hid1, hoth⟩ := deleteProperty_frame static track defaultEvRef acc prop rr hrec
        refine ⟨hid1, hoth, ?_⟩
        -- the delete records a DELETED head with no final value
        unfold AgentManager.deleteProperty at hrec
        rw [haccdel] at hrec
        simp only [Bool.false_eq_true, if_false] at hrec
        rw [haccH] at hrec
        simp only [hstat, eq_self_iff_true, if_true] at hrec
        cases hrc : AgentManager.recordChange track defaultEvRef
            ⟨acc.id, defaultEvRef.id, defaultEvRef.name, none,
              staticGetAgentProperty static acc.id prop,
              PropertyOperation.DELETED, prop⟩ [] with
        | error e =>
          rw [hrc] at hrec
          simp [Except.map] at hrec
        | ok rr2 =>
          rw [hrc] at hrec
          simp only [Except.map] at hrec
          cases hrec
          obtain ⟨rest2, hhead⟩ := recordChange_head track defaultEvRef _ [] rr2 hrc
          have hGH := getPropertyHistory_storeProp_self (acc.storeProp prop []) prop rr2.1 hcon
          have hrec1 : ((acc.storeProp prop []).storeProp prop rr2.1).hasPropertyRecord prop = true := by
            unfold AgentManager.hasPropertyRecord AgentManager.storeProp
            rw [if_neg hcon]
            rw [lookup_listUpsert_self]
            rfl
          rw [hfamread]
          unfold managerRead
          rw [hrec1]
          simp only [eq_self_iff_true, if_true]
          unfold AgentManager.getProperty
          rw [hGH, hhead]
          rfl
    · rw [Bool.not_eq_true] at hstat
      simp only [hstat, Bool.false_eq_true, if_false] at h
      cases h
      refine ⟨rfl, fun q _ => rfl, ?_⟩
      rw [managerRead_fallback static acc.id acc prop haccrec, hfamread]
      unfold staticInit
      rw [hstat]
      simp
  · -- former property not deleted: re-set its last value
    have hfamread : managerRead static acc.id fam prop = fam.getProperty prop := by
      unfold managerRead
      rw [hfamrec]
      simp
    rw [if_neg hdel] at h
    simp only at h
    cases hset : AgentManager.setProperty static track defaultEvRef acc prop
        (fam.getProperty prop) with
    | error e =>
      rw [hset] at h
      simp [Except.map] at h
    | ok rr =>
      rw [hset] at h
      simp only [Except.map] at h
      cases h
      obtain ⟨hid1, hoth⟩ := setProperty_frame static track defaultEvRef acc prop
        (fam.getProperty prop) rr hset
      refine ⟨hid1, hoth, ?_⟩
      unfold AgentManager.setProperty at hset
      rw [haccH] at hset
      simp only at hset
      have hinit :
          (if staticHasAgentProperty static acc.id prop = true then
            staticGetAgentProperty static acc.id prop else none) =
          staticInit static acc.id prop := rfl
      by_cases hstat : staticHasAgentProperty static acc.id prop = true
      · simp only [hstat, eq_self_iff_true, if_true] at hset
        have hsi : staticInit static acc.id prop = staticGetAgentProperty static acc.id prop := by
          unfold staticInit
          rw [if_pos hstat]
        by_cases hskip : setSkips (staticGetAgentProperty static acc.id prop)
            (fam.getProperty prop) = true
        · rw [if_pos hskip] at hset
          cases hset
          have hjs : jsStrictEq (staticGetAgentProperty static acc.id prop)
              (fam.getProperty prop) = true := by
            unfold noRefTie at htie
            rw [hsi] at htie
            rw [← htie]
            exact hskip
          have heqv : staticGetAgentProperty static acc.id prop = fam.getProperty prop :=
            jsStrictEq_eq _ _ hjs
          rw [if_pos hjs]
          rw [managerRead_fallback static acc.id acc prop haccrec, hfamread, hsi, heqv]
        · rw [if_neg hskip] at hset
          cases hrc : AgentManager.recordChange track defaultEvRef
              ⟨acc.id, defaultEvRef.id, defaultEvRef.name, fam.getProperty prop,
                staticGetAgentProperty static acc.id prop,
                PropertyOperation.MODIFIED, prop⟩ [] with
          | error e =>
            rw [hrc] at hset
            simp [Except.map] at hset
          | ok rr2 =>
            rw [hrc] at hset
            simp only [Except.map] at hset
            cases hset
            obtain ⟨rest2, hhead⟩ := recordChange_head track defaultEvRef _ [] rr2 hrc
            by_cases hjs : jsStrictEq (staticGetAgentProperty static acc.id prop)
                (fam.getProperty prop) = true
            · rw [if_pos hjs]
              have hGH := getPropertyHistory_storeProp_self acc prop rr2.1 hcon
              have hrec1 : (acc.storeProp prop rr2.1).hasPropertyRecord prop = true := by
                unfold AgentManager.hasPropertyRecord AgentManager.storeProp
                rw [if_neg hcon, lookup_listUpsert_self]
                rfl
              rw [hfamread]
              unfold managerRead
              rw [hrec1]
              simp only [eq_self_iff_true, if_true]
              unfold AgentManager.getProperty
              rw [hGH, hhead]
              rfl
            · rw [if_neg hjs]
              have hGH := getPropertyHistory_storeProp_self (acc.storeProp prop []) prop rr2.1 hcon
              have hrec1 : ((acc.storeProp prop []).storeProp prop rr2.1).hasPropertyRecord prop = true := by
                unfold AgentManager.hasPropertyRecord AgentManager.storeProp
                rw [if_neg hcon, lookup_listUpsert_self]
                rfl
              rw [hfamread]
              unfold managerRead
              rw [hrec1]
              simp only [eq_self_iff_true, if_true]
              unfold AgentManager.getProperty
              rw [hGH, hhead]
              rfl
      · rw [Bool.not_eq_true] at hstat
        simp only [hstat, Bool.false_eq_true, if_false] at hset
        have hsi : staticInit static acc.id prop = none := by
          unfold staticInit
          rw [hstat]
          simp
        by_cases hskip : setSkips none (fam.getProperty prop) = true
        · rw [if_pos hskip] at hset
          cases hset
          have hjs : jsStrictEq none (fam.getProperty prop) = true := by
            unfold noRefTie at htie
            rw [hsi] at htie
            rw [← htie]
            exact hskip
          have heqv : none = fam.getProperty prop := jsStrictEq_eq _ _ hjs
          rw [if_pos hjs]
          rw [managerRead_fallback static acc.id acc prop haccrec, hfamread, hsi, heqv]
        · rw [if_neg hskip] at hset
          cases hrc : AgentManager.recordChange track defaultEvRef
              ⟨acc.id, defaultEvRef.id, defaultEvRef.name, fam.getProperty prop,
                none, PropertyOperation.ADDED, prop⟩ [] with
          | error e =>
            rw [hrc] at hset
            simp [Except.map] at hset
          | ok rr2 =>
            rw [hrc] at hset
            simp only [Except.map] at hset
            cases hset
            obtain ⟨rest2, hhead⟩ := recordChange_head track defaultEvRef _ [] rr2 hrc
            by_cases hjs : jsStrictEq none (fam.getProperty prop) = true
            · rw [if_pos hjs]
              have hGH := getPropertyHistory_storeProp_self acc prop rr2.1 hcon
              have hrec1 : (acc.storeProp prop rr2.1).hasPropertyRecord prop = true := by
                unfold AgentManager.hasPropertyRecord AgentManager.storeProp
                rw [if_neg hcon, lookup_listUpsert_self]
                rfl
              rw [hfamread]
              unfold managerRead
              rw [hrec1]
              simp only [eq_self_iff_true, if_true]
              unfold AgentManager.getProperty
              rw [hGH, hhead]
              rfl
            · rw [if_neg hjs]
              have hGH := getPropertyHistory_storeProp_self (acc.storeProp prop []) prop rr2.1 hcon
              have hrec1 : ((acc.storeProp prop []).storeProp prop rr2.1).hasPropertyRecord prop = true := by
                unfold AgentManager.hasPropertyRecord AgentManager.storeProp
                rw [if_neg hcon, lookup_listUpsert_self]
                rfl
              rw [hfamread]
              unfold managerRead
              rw [hrec1]
              simp only [eq_self_iff_true, if_true]
              unfold AgentManager.getProperty
              rw [hGH, hhead]
              rfl

end Regal

namespace Regal

theorem lookup_mgrInsert_other (l : List (Nat × AgentManager)) (id : Nat)
    (am : AgentManager) (q : Nat) (hne : q ≠ id) :
    (mgrInsert l id am).lookup q = l.lookup q := by
  induction l with
  | nil =>
    have h2 : (q == id) = false := by simp [hne]
    simp [mgrInsert, List.lookup, h2]
  | cons p rest ih =>
    obtain ⟨k, m⟩ := p
    by_cases h1 : id < k
    · have h2 : (q == id) = false := by simp [hne]
      simp [mgrInsert, if_pos h1, List.lookup, h2]
    · by_cases h3 : id = k
      · subst h3
        have h2 : (q == id) = false := by simp [hne]
        simp [mgrInsert, if_neg h1, List.lookup, h2]
      · simp only [mgrInsert, if_neg h1, if_neg h3]
        by_cases h4 : q = k
        · subst h4
          simp [List.lookup]
        · have h5 : (q == k) = false := by simp [h4]
          simp [List.lookup, h5, ih]

theorem lookup_mem_pair {κ α : Type} [BEq κ] [LawfulBEq κ]
    (l : List (κ × α)) (k : κ) (v : α)
    (h : l.lookup k = some v) : (k, v) ∈ l := by
  induction l with
  | nil => simp [List.lookup] at h
  | cons p rest ih =>
    obtain ⟨a, b⟩ := p
    by_cases hk : k = a
    · subst hk
      simp only [List.lookup, beq_self_eq_true] at h
      cases h
      exact List.mem_cons_self _ _
    · have h2 : (k == a) = false := by simp [hk]
      simp only [List.lookup, h2] at h
      exact List.mem_cons_of_mem _ (ih h)

theorem recycleSteps_spec (static : StaticReg) (track : Bool) (fam : AgentManager)
    (hfamdel : ∀ p c rest, fam.getPropertyHistory p = c :: rest →
      c.op = PropertyOperation.DELETED → c.final = none) :
    ∀ (ks : List String) (acc am' : AgentManager) (aid : Nat),
    acc.id = aid →
    ks.Nodup →
    (∀ k ∈ ks, fam.props.lookup k ≠ none) →
    (∀ k ∈ ks, k ≠ "constructor" → noRefTie static aid fam k) →
    (∀ k ∈ ks, acc.props.lookup k = none) →
    ks.foldlM (InstanceAgents.recycleMgrStep static track aid fam) acc = .ok am' →
    am'.id = aid ∧
    (∀ q, q ∉ ks → q ≠ "constructor" → am'.props.lookup q = acc.props.lookup q) ∧
    (∀ q ∈ ks, q ≠ "constructor" →
      managerRead static aid am' q = managerRead static aid fam q) := by
  intro ks
  induction ks with
  | nil =>
    intro acc am' aid hid _ _ _ _ h
    have h2 : (Except.ok acc : Except String AgentManager) = .ok am' := h
    cases h2
    exact ⟨hid, fun q _ _ => rfl, fun q hq => absurd hq (List.not_mem_nil q)⟩
  | cons k rest ih =>
    intro acc am' aid hid hnodup hmem htie hnone h
    subst hid
    rw [List.foldlM_cons] at h
    cases hstep : InstanceAgents.recycleMgrStep static track acc.id fam acc k with
    | error e =>
      rw [hstep] at h
      simp [bind, Except.bind] at h
    | ok acc1 =>
      rw [hstep] at h
      simp only [bind, Except.bind] at h
      by_cases hkcon : k = "constructor"
      · subst hkcon
        obtain ⟨hid1, hoth1⟩ :=
          recycleMgrStep_constructor_spec static track acc.id fam acc acc1 hstep
        have hnone1 : ∀ k2 ∈ rest, acc1.props.lookup k2 = none := by
          intro k2 hk2
          have hk2con : k2 ≠ "constructor" := by
            intro hcc
            subst hcc
            exact (List.nodup_cons.mp hnodup).1 hk2
          rw [hoth1 k2 hk2con]
          exact hnone k2 (List.mem_cons_of_mem _ hk2)
        obtain ⟨hidA, hothA, hreadA⟩ := ih acc1 am' acc.id hid1 (List.nodup_cons.mp hnodup).2
          (fun k2 hk2 => hmem k2 (List.mem_cons_of_mem _ hk2))
          (fun k2 hk2 hc => htie k2 (List.mem_cons_of_mem _ hk2) hc) hnone1 h
        refine ⟨hidA, ?_, ?_⟩
        · intro q hq hqcon
          have hq2 : q ∉ rest := fun hh => hq (List.mem_cons_of_mem _ hh)
          rw [hothA q hq2 hqcon, hoth1 q hqcon]
        · intro q hq hqcon
          rcases List.mem_cons.mp hq with hq1 | hq1
          · exact absurd hq1 hqcon
          · exact hreadA q hq1 hqcon
      · obtain ⟨hid1, hoth1, hread1⟩ := recycleMgrStep_spec static track fam acc acc1 k
          hkcon (hnone k (List.mem_cons_self _ _)) (hfamdel k)
          (hmem k (List.mem_cons_self _ _)) (htie k (List.mem_cons_self _ _) hkcon) hstep
        have hnone1 : ∀ k2 ∈ rest, acc1.props.lookup k2 = none := by
          intro k2 hk2
          have hk2ne : k2 ≠ k := by
            intro hcc
            subst hcc
            exact (List.nodup_cons.mp hnodup).1 hk2
          rw [hoth1 k2 hk2ne]
          exact hnone k2 (List.mem_cons_of_mem _ hk2)
        obtain ⟨hidA, hothA, hreadA⟩ := ih acc1 am' acc.id hid1 (List.nodup_cons.mp hnodup).2
          (fun k2 hk2 => hmem k2 (List.mem_cons_of_mem _ hk2))
          (fun k2 hk2 hc => htie k2 (List.mem_cons_of_mem _ hk2) hc) hnone1 h
        refine ⟨hidA, ?_, ?_⟩
        · intro q hq hqcon
          have hq2 : q ∉ rest := fun hh => hq (List.mem_cons_of_mem _ hh)
          have hqk : q ≠ k := fun hh => hq (hh ▸ List.mem_cons_self _ _)
          rw [hothA q hq2 hqcon, hoth1 q hqk]
        · intro q hq hqcon
          rcases List.mem_cons.mp hq with hq1 | hq1
          · subst hq1
            have hqnr : q ∉ rest := (List.nodup_cons.mp hnodup).1
            have hlk := hothA q hqnr hqcon
            rw [managerRead_congr static acc.id am' acc1 q hlk]
            exact hread1
          · exact hreadA q hq1 hqcon

theorem recycleAm_spec (static : StaticReg) (track : Bool) (aid : Nat)
    (fam am' : AgentManager)
    (hfamdel : ∀ p c rest, fam.getPropertyHistory p = c :: rest →
      c.op = PropertyOperation.DELETED → c.final = none)
    (hnodup : (fam.props.map Prod.fst).Nodup)
    (hnogame : ∀ k ∈ fam.props.map Prod.fst, k ≠ "game" ∧ k ≠ "id")
    (hties : ∀ k, k ≠ "constructor" → noRefTie static aid fam k)
    (h : InstanceAgents.recycleAm static track aid fam = .ok am') :
    am'.id = aid ∧
    ∀ prop, managerRead static aid am' prop = managerRead static aid fam prop := by
  unfold InstanceAgents.recycleAm at h
  obtain ⟨hidA, hothA, hreadA⟩ := recycleSteps_spec static track fam hfamdel
    ((fam.props.map Prod.fst).filter (fun k => k ≠ "game" && k ≠ "id"))
    ⟨aid, []⟩ am' aid rfl (hnodup.filter _)
    (fun k hk => by
      have hk2 : k ∈ fam.props.map Prod.fst := List.mem_of_mem_filter hk
      intro hcc
      exact ((lookup_none_iff_not_mem_keys fam.props k).mp hcc) hk2)
    (fun k _ hc => hties k hc)
    (fun k _ => rfl)
    h
  refine ⟨hidA, fun prop => ?_⟩
  by_cases hcon : prop = "constructor"
  · subst hcon
    rw [managerRead_fallback static aid am' _ (hasPropertyRecord_constructor am'),
      managerRead_fallback static aid fam _ (hasPropertyRecord_constructor fam)]
  · by_cases hks : prop ∈ (fam.props.map Prod.fst).filter (fun k => k ≠ "game" && k ≠ "id")
    · exact hreadA prop hks hcon
    · have hlk : am'.props.lookup prop = none := by
        rw [hothA prop hks hcon]
        rfl
      have hfamlk : fam.props.lookup prop = none := by
        rw [lookup_none_iff_not_mem_keys]
        intro hmem2
        apply hks
        rw [List.mem_filter]
        refine ⟨hmem2, ?_⟩
        obtain ⟨h1, h2⟩ := hnogame prop hmem2
        simp [h1, h2]
      have hr1 : am'.hasPropertyRecord prop = false := by
        unfold AgentManager.hasPropertyRecord
        rw [if_neg hcon, hlk]
        rfl
      have hr2 : fam.hasPropertyRecord prop = false := by
        unfold AgentManager.hasPropertyRecord
        rw [if_neg hcon, hfamlk]
        rfl
      rw [managerRead_fallback static aid am' prop hr1,
        managerRead_fallback static aid fam prop hr2]

end Regal

namespace Regal

theorem recycleFold_spec (static : StaticReg) (track : Bool) :
    ∀ (lst : List (Nat × AgentManager)) (acc ags' : InstanceAgents),
    (lst.map Prod.fst).Nodup →
    lst.foldlM
      (fun acc p =>
        let acc1 := InstanceAgents.createAgentManager acc p.1
        (InstanceAgents.recycleAm static track p.1 p.2).map
          (fun am => (⟨acc1.nextId, mgrInsert acc1.managers p.1 am⟩ : InstanceAgents)))
      acc = .ok ags' →
    (∀ id, id ∉ lst.map Prod.fst →
      ags'.getAgentManager id = acc.getAgentManager id) ∧
    (∀ aid fam, (aid, fam) ∈ lst →
      ∃ am2, InstanceAgents.recycleAm static track aid fam = .ok am2 ∧
        ags'.getAgentManager aid = some am2) := by
  intro lst
  induction lst with
  | nil =>
    intro acc ags' _ h
    have h2 : (Except.ok acc : Except String InstanceAgents) = .ok ags' := h
    cases h2
    exact ⟨fun id _ => rfl, fun aid fam hmem => absurd hmem (List.not_mem_nil _)⟩
  | cons p rest ih =>
    intro acc ags' hnodup h
    simp only [List.map_cons] at hnodup
    rw [List.foldlM_cons] at h
    obtain ⟨aid, fam⟩ := p
    cases hra : InstanceAgents.recycleAm static track aid fam with
    | error e =>
      rw [hra] at h
      simp [Except.map, bind, Except.bind] at h
    | ok am2 =>
      rw [hra] at h
      simp only [Except.map, bind, Except.bind] at h
      obtain ⟨ih1, ih2⟩ := ih _ ags' (List.nodup_cons.mp hnodup).2 h
      constructor
      · intro id hid
        have hidc : id ∉ (aid :: rest.map Prod.fst) := by
          simpa using hid
        have hid1 : id ∉ rest.map Prod.fst := fun hh =>
          hidc (List.mem_cons_of_mem _ hh)
        have hid2 : id ≠ aid := fun hcc => hidc (hcc ▸ List.mem_cons_self _ _)
        rw [ih1 id hid1]
        show (mgrInsert (mgrInsert acc.managers aid ⟨aid, []⟩) aid am2).lookup id =
          acc.managers.lookup id
        rw [lookup_mgrInsert_other _ _ _ _ hid2, lookup_mgrInsert_other _ _ _ _ hid2]
      · intro aid' fam' hmem
        rcases List.mem_cons.mp hmem with hm | hm
        · cases hm
          refine ⟨am2, hra, ?_⟩
          have haidnot : aid ∉ rest.map Prod.fst := (List.nodup_cons.mp hnodup).1
          rw [ih1 aid haidnot]
          show (mgrInsert (mgrInsert acc.managers aid ⟨aid, []⟩) aid am2).lookup aid =
            some am2
          exact lookup_mgrInsert_self _ _ _
        · exact ih2 aid' fam' hm

theorem getAgentProperty_manager (static : StaticReg) (ags : InstanceAgents)
    (id : Nat) (prop : String) (am : AgentManager)
    (hm : ags.getAgentManager id = some am) (hid : prop ≠ "id") :
    InstanceAgents.getAgentProperty static ags id prop =
      .ok (managerRead static id am prop) := by
  unfold InstanceAgents.getAgentProperty managerRead
  simp only [hm]
  rw [if_neg hid]
  by_cases h1 : am.hasPropertyRecord prop = true
  · simp only [h1, eq_self_iff_true, if_true]
  · rw [Bool.not_eq_true] at h1
    simp only [h1, Bool.false_eq_true, if_false]
    by_cases h2 : staticHasAgent static id = true
    · simp only [h2, eq_self_iff_true, if_true]
    · rw [Bool.not_eq_true] at h2
      simp only [h2, Bool.false_eq_true, if_false]

theorem getAgentProperty_manager_id (static : StaticReg) (ags : InstanceAgents)
    (id : Nat) (am : AgentManager) (hm : ags.getAgentManager id = some am) :
    InstanceAgents.getAgentProperty static ags id "id" =
      .ok (some (.num (id : ℚ))) := by
  unfold InstanceAgents.getAgentProperty
  simp only [hm]
  simp

theorem getAgentProperty_nomanager (static : StaticReg) (ags : InstanceAgents)
    (id : Nat) (prop : String) (hm : ags.getAgentManager id = none) :
    InstanceAgents.getAgentProperty static ags id prop =
      (if ¬staticHasAgent static id then
        .error "RegalError: No agent with the id <> exists."
      else .ok (staticGetAgentProperty static id prop)) := by
  unfold InstanceAgents.getAgentProperty
  simp only [hm]

set_option maxHeartbeats 1000000 in
/-- C8: a recycle with zero subsequently processed events preserves every
visible agent property value and empties the output line buffer.  Part
one: `GameInstanceImpl`'s recycle constructor rebuilds the output
component with an empty line list and installs exactly the recycled
agents.  Part two: under the engine's representation invariants (unique
manager and property keys, no stored `game`/`id` keys, `DELETED` heads
carry no final value, and no agent-reference value tying the static
baseline — the latter unconstructible from the source's static registry,
which stores raw agents that `isAgentReference` rejects) every
`getAgentProperty` read on the recycled agents equals the read on the
source agents. -/
theorem c8_recycle_preserves_reads :
    (∀ config static g newOpts entropy g',
      GameInst.recycle config static g newOpts entropy = .ok g' →
      g'.output.lines = [] ∧
      InstanceAgents.recycle static g'.options.trackAgentChanges g.agents =
        .ok g'.agents) ∧
    (∀ static track ags ags',
      (ags.managers.map Prod.fst).Nodup →
      ags.managers.lookup 0 ≠ none →
      (∀ aid fam, (aid, fam) ∈ ags.managers →
        (fam.props.map Prod.fst).Nodup ∧
        (∀ k ∈ fam.props.map Prod.fst, k ≠ "game" ∧ k ≠ "id") ∧
        (∀ p c rest, fam.getPropertyHistory p = c :: rest →
          c.op = PropertyOperation.DELETED → c.final = none) ∧
        (∀ k, k ≠ "constructor" → noRefTie static aid fam k)) →
      InstanceAgents.recycle static track ags = .ok ags' →
      ∀ id prop,
        InstanceAgents.getAgentProperty static ags' id prop =
          InstanceAgents.getAgentProperty static ags id prop) := by
  constructor
  · intro config static g newOpts entropy g' h
    unfold GameInst.recycle at h
    simp only at h
    cases hbo : buildInstanceOptions config (newOpts.getD g.options.overrides)
        (if ((newOpts.getD g.options.overrides).lookup .seed).isSome then none
         else some g.options.seed) entropy with
    | error e =>
      rw [hbo] at h
      simp [bind, Except.bind] at h
    | ok ropts =>
      rw [hbo] at h
      simp only [bind, Except.bind] at h
      cases hri : InstanceAgents.recycle static ropts.trackAgentChanges g.agents with
      | error e =>
        rw [hri] at h
        simp [Except.map] at h
      | ok ags2 =>
        rw [hri] at h
        simp only [Except.map] at h
        cases h
        exact ⟨rfl, hri⟩
  · intro static track ags ags' hnodup h0 hWF h
    unfold InstanceAgents.recycle at h
    obtain ⟨hout, hin⟩ := recycleFold_spec static track ags.agentManagers _ _ hnodup h
    intro id prop
    cases hm : ags.managers.lookup id with
    | some fam =>
      have hmem : (id, fam) ∈ ags.managers := lookup_mem_pair _ _ _ hm
      obtain ⟨am2, hra, hm2⟩ := hin id fam hmem
      obtain ⟨hnd, hng, hdelwf, hties⟩ := hWF id fam hmem
      obtain ⟨hid2, hread⟩ := recycleAm_spec static track id fam am2 hdelwf hnd hng hties hra
      by_cases hpid : prop = "id"
      · subst hpid
        rw [getAgentProperty_manager_id static ags' id am2 hm2,
          getAgentProperty_manager_id static ags id fam hm]
      · rw [getAgentProperty_manager static ags' id prop am2 hm2 hpid,
          getAgentProperty_manager static ags id prop fam hm hpid, hread prop]
    | none =>
      have hid0 : id ≠ 0 := by
        intro hcc
        subst hcc
        exact h0 hm
      have hnotmem : id ∉ ags.managers.map Prod.fst :=
        (lookup_none_iff_not_mem_keys _ _).mp hm
      have hm2 : ags'.getAgentManager id = none := by
        rw [hout id hnotmem]
        show (InstanceAgents.init ags.nextId).managers.lookup id = none
        unfold InstanceAgents.init
        have h2 : (id == 0) = false := by simp [hid0]
        simp [List.lookup, h2]
      rw [getAgentProperty_nomanager static ags' id prop hm2,
        getAgentProperty_nomanager static ags id prop hm]

end Regal

namespace Regal

theorem noRefTie_of_staticInit_none (static : StaticReg) (aid : Nat)
    (fam : AgentManager) (prop : String)
    (h : staticInit static aid prop = none) : noRefTie static aid fam prop := by
  unfold noRefTie
  rw [h]
  cases hv : fam.getProperty prop with
  | none => rfl
  | some v => cases v <;> rfl

/-- The agents overlay before the C8 witness recycle: the state agent
holds `"score" = 3`, added by event 1. -/
def c8ags : InstanceAgents :=
  ⟨2, [(0, ⟨0, [("score",
    [⟨1, "E", some (RVal.num 3), none, PropertyOperation.ADDED⟩])]⟩)]⟩

/-- The C8 witness source instance: pending output and advanced random
state, around `c8ags`. -/
def c8g : GameInst :=
  ⟨⟨.abool true, false, "S", true, false, []⟩, ⟨5, [], []⟩, c8ags,
    ⟨3, [⟨1, OutputLineType.NORMAL, "x"⟩]⟩, ⟨2, 5⟩⟩

/-- `c8g` after `recycle`: empty output buffer, re-recorded score. -/
def c8gR : GameInst :=
  ⟨⟨.abool true, false, "S", true, false, []⟩, ⟨5, [], []⟩,
    ⟨2, [(0, ⟨0, [("score",
      [⟨0, "DEFAULT", some (RVal.num 3), none, PropertyOperation.ADDED⟩])]⟩)]⟩,
    ⟨3, []⟩, ⟨2, -1186209748⟩⟩

/-- C8 witness: the concrete recycle empties the output buffer, installs
the recycled agents, and the score read is preserved. -/
theorem c8_recycle_preserves_reads_witness :
    (c8gR.output.lines = [] ∧
      InstanceAgents.recycle [] c8gR.options.trackAgentChanges c8g.agents =
        .ok c8gR.agents) ∧
    InstanceAgents.getAgentProperty [] c8gR.agents 0 "score" =
      InstanceAgents.getAgentProperty [] c8ags 0 "score" := by
  constructor
  · exact c8_recycle_preserves_reads.1 [] [] c8g none 0 c8gR (by rfl)
  · refine c8_recycle_preserves_reads.2 [] false c8ags c8gR.agents ?_ ?_ ?_ (by rfl) 0 "score"
    · decide
    · decide
    · intro aid fam hmem
      have hmem2 : (aid, fam) =
          (0, (⟨0, [("score",
            [⟨1, "E", some (RVal.num 3), none, PropertyOperation.ADDED⟩])]⟩ : AgentManager)) := by
        simpa [c8ags] using hmem
      cases hmem2
      refine ⟨by decide, ?_, ?_, ?_⟩
      · intro k hk
        simp only [List.map_cons, List.map_nil, List.mem_singleton] at hk
        subst hk
        exact ⟨by decide, by decide⟩
      · intro p c rest hcc hop
        by_cases hp : p = "score"
        · subst hp
          have he : ([⟨1, "E", some (RVal.num 3), none, PropertyOperation.ADDED⟩] :
              List AMPropChange) = c :: rest := hcc
          cases he
          exact absurd hop (by decide)
        · have hlk : ([("score",
              [(⟨1, "E", some (RVal.num 3), none, PropertyOperation.ADDED⟩ : AMPropChange)])] :
              List (String × List AMPropChange)).lookup p = none := by
            have h2 : (p == "score") = false := by simp [hp]
            simp [List.lookup, h2]
          have h0 := getPropertyHistory_of_lookup_none
            ⟨0, [("score", [⟨1, "E", some (RVal.num 3), none, PropertyOperation.ADDED⟩])]⟩ p hlk
          rw [h0] at hcc
          exact List.noConfusion hcc
      · intro k _
        refine noRefTie_of_staticInit_none [] 0 _ k ?_
        unfold staticInit staticHasAgentProperty
        simp [List.lookup]

end Regal

namespace Regal

/-! ## C2 — explicit-seed determinism (entropy noninterference)

`Math.random()` enters the engine only through `Prando`'s seedless
constructor, modelled by the `entropy` parameter.  Two runs configured
with an explicit seed never consult it, so every random draw, tracked
record and output line coincides. -/

theorem validateOptions_seed_str (options : OptList)
    (h : validateOptions options = .ok ()) :
    strTypeOk (options.lookup .seed) = true := by
  by_cases hs : strTypeOk (options.lookup .seed) = true
  · exact hs
  exfalso
  unfold validateOptions at h
  by_cases h1 : boolTypeOk (options.lookup .debug) = true
  · rw [if_neg (not_not_intro h1)] at h
    simp only at h
    cases hao : options.lookup .allowOverrides with
    | none =>
      rw [hao] at h
      simp only [Except.bind] at h
      by_cases h2 : boolTypeOk (options.lookup .showMinor) = true
      · rw [if_neg (not_not_intro h2)] at h
        by_cases h3 : boolTypeOk (options.lookup .trackAgentChanges) = true
        · rw [if_neg (not_not_intro h3)] at h
          rw [if_pos hs] at h
          exact Except.noConfusion h
        · rw [if_pos h3] at h
          exact Except.noConfusion h
      · rw [if_pos h2] at h
        exact Except.noConfusion h
    | some v =>
      rw [hao] at h
      cases v with
      | vb b =>
        simp only [Except.bind] at h
        by_cases h2 : boolTypeOk (options.lookup .showMinor) = true
        · rw [if_neg (not_not_intro h2)] at h
          by_cases h3 : boolTypeOk (options.lookup .trackAgentChanges) = true
          · rw [if_neg (not_not_intro h3)] at h
            rw [if_pos hs] at h
            exact Except.noConfusion h
          · rw [if_pos h3] at h
            exact Except.noConfusion h
        · rw [if_pos h2] at h
          exact Except.noConfusion h
      | vs s =>
        simp only [Except.bind] at h
        exact Except.noConfusion h
      | vkeys ks =>
        simp only at h
        by_cases hin : OptKey.allowOverrides ∈ ks
        · rw [if_pos hin] at h
          simp only [Except.bind] at h
          exact Except.noConfusion h
        · rw [if_neg hin] at h
          simp only [Except.bind] at h
          by_cases h2 : boolTypeOk (options.lookup .showMinor) = true
          · rw [if_neg (not_not_intro h2)] at h
            by_cases h3 : boolTypeOk (options.lookup .trackAgentChanges) = true
            · rw [if_neg (not_not_intro h3)] at h
              rw [if_pos hs] at h
              exact Except.noConfusion h
            · rw [if_pos h3] at h
              exact Except.noConfusion h
          · rw [if_pos h2] at h
            exact Except.noConfusion h
  · rw [if_pos h1] at h
    exact Except.noConfusion h

theorem except_map_congr {α β : Type} (x : Except String α) (f g : α → β)
    (h : ∀ a, f a = g a) : x.map f = x.map g := by
  cases x <;> simp [Except.map, h]

theorem except_bind_congr {α β : Type} (x : Except String α)
    (f g : α → Except String β)
    (h : ∀ a, f a = g a) : x.bind f = x.bind g := by
  cases x <;> simp [Except.bind, h]

theorem except_bind_congr2 {α β : Type} (x : Except String α)
    (f g : α → Except String β)
    (h : ∀ a, x = .ok a → f a = g a) : x.bind f = x.bind g := by
  cases x with
  | error e => rfl
  | ok a => exact h a rfl

theorem except_map_congr2 {α β : Type} (x : Except String α) (f g : α → β)
    (h : ∀ a, x = .ok a → f a = g a) : x.map f = x.map g := by
  cases x with
  | error e => rfl
  | ok a =>
    simp only [Except.map]
    rw [h a rfl]

theorem buildInstanceOptions_entropy (config overrides : OptList)
    (genSeed : Option String) (e1 e2 : Int)
    (hseed : (overrides.lookup .seed).isSome = true ∨
      (config.lookup .seed).isSome = true ∨ genSeed.isSome = true) :
    buildInstanceOptions config overrides genSeed e1 =
      buildInstanceOptions config overrides genSeed e2 := by
  unfold buildInstanceOptions
  apply except_bind_congr2
  intro u1 hv1
  apply except_bind_congr2
  intro u2 hv2
  apply except_map_congr
  intro u3
  cases u1
  cases u2
  have hso := validateOptions_seed_str overrides hv1
  have hsc := validateOptions_seed_str config hv2
  dsimp only
  congr 1
  cases ho : overrides.lookup .seed with
  | some v =>
    cases v with
    | vs s => rfl
    | vb b =>
      rw [ho] at hso
      simp [strTypeOk] at hso
    | vkeys ks =>
      rw [ho] at hso
      simp [strTypeOk] at hso
  | none =>
    cases hc : config.lookup .seed with
    | some v =>
      cases v with
      | vs s => rfl
      | vb b =>
        rw [hc] at hsc
        simp [strTypeOk] at hsc
      | vkeys ks =>
        rw [hc] at hsc
        simp [strTypeOk] at hsc
    | none =>
      rcases hseed with hx | hx | hx
      · rw [ho] at hx
        simp at hx
      · rw [hc] at hx
        simp at hx
      · obtain ⟨g, hg⟩ := Option.isSome_iff_exists.mp hx
        rw [hg]

end Regal

namespace Regal

theorem buildGameInstance_entropy (contextStatic : Bool) (config : OptList)
    (static : StaticReg) (opts : OptList) (e1 e2 : Int)
    (hseed : (opts.lookup .seed).isSome = true ∨ (config.lookup .seed).isSome = true) :
    buildGameInstance contextStatic config static opts e1 =
      buildGameInstance contextStatic config static opts e2 := by
  unfold buildGameInstance
  by_cases hctx : contextStatic = true
  · rw [if_pos hctx, if_pos hctx]
  · rw [if_neg hctx, if_neg hctx]
    rw [buildInstanceOptions_entropy config opts none e1 e2 ?_]
    rcases hseed with hx | hx
    · exact Or.inl hx
    · exact Or.inr (Or.inl hx)

theorem recycle_entropy (config : OptList) (static : StaticReg) (g : GameInst)
    (newOpts : Option OptList) (e1 e2 : Int) :
    GameInst.recycle config static g newOpts e1 =
      GameInst.recycle config static g newOpts e2 := by
  unfold GameInst.recycle
  dsimp only
  rw [buildInstanceOptions_entropy config (newOpts.getD g.options.overrides)
    (if ((newOpts.getD g.options.overrides).lookup .seed).isSome = true then none
     else some g.options.seed) e1 e2 ?_]
  by_cases hs : ((newOpts.getD g.options.overrides).lookup .seed).isSome = true
  · exact Or.inl hs
  · refine Or.inr (Or.inr ?_)
    rw [if_neg hs]
    rfl

theorem revertBody_entropy (config : OptList) (static : StaticReg) (g : GameInst)
    (revertTo : Int) (e1 e2 : Int) :
    GameInst.revertBody config static g revertTo e1 =
      GameInst.revertBody config static g revertTo e2 := by
  unfold GameInst.revertBody
  dsimp only
  rw [buildInstanceOptions_entropy config g.options.overrides
    (if (g.options.overrides.lookup .seed).isSome = true then none
     else some g.options.seed) e1 e2 ?_]
  by_cases hs : (g.options.overrides.lookup .seed).isSome = true
  · exact Or.inl hs
  · refine Or.inr (Or.inr ?_)
    rw [if_neg hs]
    rfl

theorem revert_entropy (config : OptList) (static : StaticReg) (g : GameInst)
    (revertTo : Int) (e1 e2 : Int) :
    GameInst.revert config static g revertTo e1 =
      GameInst.revert config static g revertTo e2 := by
  unfold GameInst.revert
  by_cases h1 : revertTo ≠ 0
  · rw [if_pos h1, if_pos h1]
    by_cases h2 : revertTo < 0
    · rw [if_pos h2, if_pos h2]
    · rw [if_neg h2, if_neg h2]
      by_cases h3 : g.options.trackAgentChanges = true
      · rw [if_neg (not_not_intro h3), if_neg (not_not_intro h3)]
        exact revertBody_entropy config static g revertTo e1 e2
      · rw [if_pos h3, if_pos h3]
  · rw [if_neg h1, if_neg h1]
    exact revertBody_entropy config static g revertTo e1 e2

theorem postPlayerCommand_entropy (api : ApiState) (inst : Option GameInst)
    (command : Option String) (fuel : Nat) (e1 e2 : Int) :
    postPlayerCommand api inst command fuel e1 =
      postPlayerCommand api inst command fuel e2 := by
  unfold postPlayerCommand
  congr 1
  by_cases h1 : api.isInitialized = true
  · rw [if_neg (not_not_intro h1), if_neg (not_not_intro h1)]
    cases inst with
    | none => rfl
    | some oldInstance =>
      cases command with
      | none => rfl
      | some cmd =>
        cases api.playerCommandHook with
        | none => rfl
        | some hook =>
          dsimp only
          rw [recycle_entropy api.configOpts api.staticReg oldInstance none e1 e2]
  · rw [if_pos h1, if_pos h1]

theorem postStartCommand_entropy (api : ApiState) (options : OptList)
    (fuel : Nat) (e1 e2 : Int)
    (hseed : (options.lookup .seed).isSome = true ∨
      (api.configOpts.lookup .seed).isSome = true) :
    postStartCommand api options fuel e1 = postStartCommand api options fuel e2 := by
  unfold postStartCommand
  congr 1
  by_cases h1 : api.isInitialized = true
  · rw [if_neg (not_not_intro h1), if_neg (not_not_intro h1)]
    cases api.startCommandHook with
    | none => rfl
    | some hook =>
      dsimp only
      rw [buildGameInstance_entropy api.contextStatic api.configOpts api.staticReg
        options e1 e2 hseed]
  · rw [if_pos h1, if_pos h1]

theorem postUndoCommand_entropy (api : ApiState) (inst : Option GameInst)
    (e1 e2 : Int) :
    postUndoCommand api inst e1 = postUndoCommand api inst e2 := by
  unfold postUndoCommand
  dsimp only
  congr 1
  by_cases h1 : api.isInitialized = true
  · rw [if_neg (not_not_intro h1), if_neg (not_not_intro h1)]
    cases inst with
    | none => rfl
    | some oldInstance =>
      dsimp only
      by_cases h2 : api.beforeUndoCommandHook oldInstance = true
      · rw [if_neg (not_not_intro h2), if_neg (not_not_intro h2)]
        exact revert_entropy api.configOpts api.staticReg oldInstance 0 e1 e2
      · rw [if_pos h2, if_pos h2]
  · rw [if_pos h1, if_pos h1]

theorem postOptionCommand_entropy (api : ApiState) (inst : Option GameInst)
    (options : OptList) (e1 e2 : Int) :
    postOptionCommand api inst options e1 = postOptionCommand api inst options e2 := by
  unfold postOptionCommand
  dsimp only
  congr 1
  by_cases h1 : api.isInitialized = true
  · rw [if_neg (not_not_intro h1), if_neg (not_not_intro h1)]
    cases inst with
    | none => rfl
    | some oldInstance =>
      dsimp only
      rw [recycle_entropy api.configOpts api.staticReg oldInstance _ e1 e2]
  · rw [if_pos h1, if_pos h1]

theorem foldl_ext_fun {α β : Type} (f g : β → α → β) (h : ∀ b a, f b a = g b a) :
    ∀ (l : List α) (init : β), l.foldl f init = l.foldl g init := by
  intro l
  induction l with
  | nil => intro init; rfl
  | cons a rest ih =>
    intro init
    rw [List.foldl_cons, List.foldl_cons, h init a, ih]

/-- One session against the API: a start command with the given option
overrides, then the player commands in order, each against the previous
response's bound instance (`none` once a turn diverges). -/
def runGame (api : ApiState) (options : OptList) (cmds : List String)
    (fuel : Nat) (entropy : Int) : Option GameResponse :=
  cmds.foldl
    (fun acc cmd =>
      match acc with
      | none => none
      | some r => postPlayerCommand api r.inst (some cmd) fuel entropy)
    (postStartCommand api options fuel entropy)

set_option maxHeartbeats 1000000 in
/-- C2: two sessions configured with an explicit seed (in the start
overrides or the game's config) and driven by the same command sequence
are identical runs — in particular their output logs and the random
records tracked on every event record coincide.  The `entropy`
parameters model the only `Math.random()` reads the engine can make
(`Prando`'s seedless constructor, reached just when no seed is
available), so equality of the two runs for arbitrary `e1`, `e2` is
noninterference: the explicitly seeded session never consults the
ambient randomness. -/
theorem c2_explicit_seed_determinism (api : ApiState) (options : OptList)
    (cmds : List String) (fuel : Nat) (e1 e2 : Int)
    (hseed : (options.lookup .seed).isSome = true ∨
      (api.configOpts.lookup .seed).isSome = true) :
    runGame api options cmds fuel e1 = runGame api options cmds fuel e2 ∧
    (runGame api options cmds fuel e1).map
        (fun r => (r.output.log,
          r.inst.map (fun g => (g.events.history.map EvRec.randoms, g.output.lines)))) =
      (runGame api options cmds fuel e2).map
        (fun r => (r.output.log,
          r.inst.map (fun g => (g.events.history.map EvRec.randoms, g.output.lines)))) := by
  have hrun : runGame api options cmds fuel e1 = runGame api options cmds fuel e2 := by
    unfold runGame
    rw [postStartCommand_entropy api options fuel e1 e2 hseed]
    apply foldl_ext_fun
    intro b a
    cases b with
    | none => rfl
    | some r => exact postPlayerCommand_entropy api r.inst (some a) fuel e1 e2
  exact ⟨hrun, by rw [hrun]⟩

end Regal

namespace Regal

/-- An initialized API context with trivial hooks for the C2 witness. -/
def c2api : ApiState :=
  ⟨true, false, [], [], some (fun _ => noopEv), some noopEv, fun _ => true⟩

/-- Start overrides carrying an explicit seed. -/
def c2opts : OptList := [(OptKey.seed, OptVal.vs "myseed")]

/-- C2 witness: a concrete explicitly seeded session is entropy-blind
(and does produce a response). -/
theorem c2_explicit_seed_determinism_witness :
    (runGame c2api c2opts ["go"] 10 0).isSome = true ∧
    runGame c2api c2opts ["go"] 10 0 = runGame c2api c2opts ["go"] 10 1 ∧
    (runGame c2api c2opts ["go"] 10 0).map
        (fun r => (r.output.log,
          r.inst.map (fun g => (g.events.history.map EvRec.randoms, g.output.lines)))) =
      (runGame c2api c2opts ["go"] 10 1).map
        (fun r => (r.output.log,
          r.inst.map (fun g => (g.events.history.map EvRec.randoms, g.output.lines)))) := by
  have h := c2_explicit_seed_determinism c2api c2opts ["go"] 10 0 1 (Or.inl (by rfl))
  exact ⟨by rfl, h.1, h.2⟩

end Regal
